import Mathlib

/-!
# GeeRPC: a verification development

A shallow embedding of the client multiplexer (`day7-registry/client.go`, with
`parseOption` of `day2-client/client.go`), the server dispatcher
(`day4-timeout/server.go`, `day4-timeout/service.go`) and the codec table
(`day2-client/codec/codec.go`) of GeeRPC, followed by theorems about them.

Conventions of the embedding.
* A Go `error` is an `Option String`: `none` is `nil`, `some msg` carries the
  text of `err.Error()`. A pointer that may be `nil` is an `Option` as well.
* A Go `map` is an association list with at most one entry per key
  (`mapGet`, `mapSet`, `mapDelete`).
* `uint64` values are natural numbers, `seq++` is taken modulo `2 ^ 64`.
* The body of a method that runs under a mutex is one atomic function on the
  state; the interleaving of the goroutines of a client is a list of such atomic
  events (`Event`, `World.step`).
* What the network, the codec and the standard library decide is an input: the
  result of `Write` and `ReadBody` on the client, the results of the reads of a
  server connection (`Conn`), `fmt.Errorf` (`errorf`), `unicode.IsUpper` (`upper`).
* What reflection shows of a receiver is a `Receiver`: its type name and its
  methods with their parameter and result types (`GoType`).
-/

/-- A Go `error`: `none` is `nil`, `some msg` is an error whose text is `msg`. -/
abbrev GoError : Type := Option String

/-- A Go pointer that may be `nil` (`none`). -/
abbrev Ptr (α : Type) : Type := Option α

namespace GeeRPC

/-! ## Go maps -/

/-- Go: `m[k]` with the comma-ok result folded into an `Option`. -/
def mapGet {κ β : Type} [DecidableEq κ] (m : List (κ × β)) (k : κ) : Ptr β :=
  match m with
  | [] => none
  | e :: rest => if e.1 = k then some e.2 else mapGet rest k

/-- Go: `delete(m, k)`. -/
def mapDelete {κ β : Type} [DecidableEq κ] (m : List (κ × β)) (k : κ) : List (κ × β) :=
  m.filter (fun e => decide (e.1 ≠ k))

/-- Go: `m[k] = v`; an existing entry under `k` is replaced. -/
def mapSet {κ β : Type} [DecidableEq κ] (m : List (κ × β)) (k : κ) (v : β) : List (κ × β) :=
  mapDelete m k ++ [(k, v)]

/-! ## codec.Header, Option, Call, Client -/

/-- The type `codec.Header`. -/
structure Header where
  ServiceMethod : String
  Seq : Nat
  Error : String
  deriving DecidableEq, Repr

/-- The constant `MagicNumber`. -/
def MagicNumber : Int := 0x3b3f5c

/-- The constant `codec.GobType`. -/
def GobType : String := "application/gob"

/-- The constant `codec.JsonType`. -/
def JsonType : String := "application/json"

/-- The type `Option` of the handshake; durations are nanoseconds. -/
structure Option where
  MagicNumber : Int
  CodecType : String
  ConnectTimeout : Int
  HandleTimeout : Int
  deriving DecidableEq, Repr

/-- Go: `time.Second`. -/
def Second : Int := 1000000000

/-- The variable `DefaultOption`. -/
def DefaultOption : Option :=
  { MagicNumber := MagicNumber, CodecType := GobType, ConnectTimeout := Second * 10,
    HandleTimeout := 0 }

/-- The variable `ErrShutdown`. -/
def ErrShutdown : String := "connection is shut down"

/-- The type `Call`. `id` stands for the address of the allocated `Call` (every `Go`
allocates a new one); `Args` and `Reply` are the contents of the caller's values; the
`Done` channel is the log `World.delivered`. -/
structure Call where
  id : Nat
  Seq : Nat
  ServiceMethod : String
  Args : String
  Reply : String
  Error : GoError
  deriving DecidableEq, Repr

/-- The codec of a client, seen from the client: what `cc.Close()` returns and how often
it has been called. The results of `ReadHeader`, `ReadBody` and `Write` are inputs of the
functions that call them. -/
structure Codec where
  closeErr : GoError
  closed : Nat
  deriving DecidableEq, Repr

/-- Go: `cc.Close()`. -/
def Codec.Close (cc : Codec) : Codec × GoError :=
  ({ cc with closed := cc.closed + 1 }, cc.closeErr)

/-- The type `Client`, without its two mutexes (`mu` is the atomicity of the functions
below, `sending` is `World.sending`). -/
structure Client where
  cc : Codec
  opt : Option
  header : Header
  seq : Nat
  pending : List (Nat × Call)
  closing : Bool
  shutdown : Bool
  deriving DecidableEq, Repr

/-- The method `Client.Close`. -/
def Client.Close (client : Client) : Client × GoError :=
  if client.closing then
    (client, some ErrShutdown)
  else
    let r := client.cc.Close
    ({ client with closing := true, cc := r.1 }, r.2)

/-- The method `Client.IsAvailable`. -/
def Client.IsAvailable (client : Client) : Bool :=
  !client.shutdown && !client.closing

/-- The method `Client.registerCall`: the new client state, the call as updated through
the pointer, and the two results. -/
def Client.registerCall (client : Client) (call : Call) : Client × Call × Nat × GoError :=
  if client.closing || client.shutdown then
    (client, call, 0, some ErrShutdown)
  else
    let call1 := { call with Seq := client.seq }
    ({ client with pending := mapSet client.pending call1.Seq call1,
                   seq := (client.seq + 1) % 2 ^ 64 },
     call1, call1.Seq, none)

/-- The method `Client.removeCall`. -/
def Client.removeCall (client : Client) (seq : Nat) : Client × Ptr Call :=
  ({ client with pending := mapDelete client.pending seq }, mapGet client.pending seq)

/-- The method `Client.terminateCalls`: the new state and the calls sent on their `Done`
channels, in the order of the iteration. -/
def Client.terminateCalls (client : Client) (err : GoError) : Client × List Call :=
  let done := client.pending.map (fun e => { e.2 with Error := err })
  ({ client with shutdown := true,
                 pending := client.pending.map (fun e => (e.1, { e.2 with Error := err })) },
   done)

/-- The function `newClientCodec`, without the start of the receive goroutine (see
`World.init`). -/
def newClientCodec (cc : Codec) (opt : Option) : Client :=
  { cc := cc, opt := opt, header := { ServiceMethod := "", Seq := 0, Error := "" },
    seq := 1, pending := [], closing := false, shutdown := false }

/-- The first half of `Client.send`, up to and including the header assignments: the new
state, the calls sent on `Done`, and the sequence number when the call was registered. -/
def Client.sendRegister (client : Client) (call : Call) : Client × List Call × Ptr Nat :=
  match client.registerCall call with
  | (client1, call1, _, some err) => (client1, [{ call1 with Error := some err }], none)
  | (client1, call1, seq, none) =>
    ({ client1 with header := { ServiceMethod := call1.ServiceMethod, Seq := seq, Error := "" } },
     [], some seq)

/-- The second half of `Client.send`: `cc.Write` has returned `werr`. -/
def Client.sendWrite (client : Client) (seq : Nat) (werr : GoError) : Client × List Call :=
  match werr with
  | none => (client, [])
  | some err =>
    match client.removeCall seq with
    | (client1, some call) => (client1, [{ call with Error := some err }])
    | (client1, none) => (client1, [])

/-- The method `Client.send`, run without another goroutine in between; `werr` is what
`cc.Write` returns. -/
def Client.send (client : Client) (call : Call) (werr : GoError) : Client × List Call :=
  match client.sendRegister call with
  | (client1, done, none) => (client1, done)
  | (client1, done, some seq) =>
    let r := client1.sendWrite seq werr
    (r.1, done ++ r.2)

/-- One iteration of the loop of `Client.receive` after `ReadHeader` has filled `h`
without error. `errorf` is Go's `fmt.Errorf(s).Error()`, `berr` is what `ReadBody`
returns and `body` is what a non-nil target holds afterwards. Returns the new state, the
calls sent on `Done` and the loop variable `err`. -/
def Client.receiveHeader (errorf : String → String) (client : Client) (h : Header)
    (berr : GoError) (body : String) : Client × List Call × GoError :=
  match client.removeCall h.Seq with
  | (client1, none) => (client1, [], berr)
  | (client1, some call) =>
    if h.Error ≠ "" then
      (client1, [{ call with Error := some (errorf h.Error) }], berr)
    else
      match berr with
      | none => (client1, [{ call with Reply := body }], none)
      | some e =>
        (client1, [{ call with Reply := body, Error := some ("reading body" ++ e) }], some e)

/-! ## The goroutines of a client -/

/-- Where the goroutine running `Client.receive` stands: in its loop, out of the loop
with the error `err` and about to call `terminateCalls(err)`, or returned. -/
inductive RecvState where
  | reading
  | failed (err : String)
  | ended
  deriving DecidableEq, Repr

/-- A client together with what surrounds it: the mutex `sending` (`some seq` while a
`send` that registered `seq` is inside `cc.Write`), the receive goroutine, the number of
`Call` values allocated by `Go`, and every value sent on a `Done` channel so far. -/
structure World where
  client : Client
  sending : Ptr Nat
  recv : RecvState
  allocated : Nat
  delivered : List Call
  deriving DecidableEq, Repr

/-- The atomic steps of the goroutines that share a client. -/
inductive Event where
  /-- `Go` with a buffered `done`, up to the call of `cc.Write` inside `send`. -/
  | go (serviceMethod args reply : String)
  /-- `cc.Write` returns `werr` and `send` runs to its end. -/
  | written (werr : GoError)
  /-- An iteration of `receive` in which `ReadHeader` succeeds with `h`. -/
  | header (h : Header) (berr : GoError) (body : String)
  /-- The iteration of `receive` in which `ReadHeader` fails with `err`. -/
  | headerErr (err : String)
  /-- The call of `terminateCalls` at the end of `receive`. -/
  | terminate
  /-- The `ctx.Done()` branch of `Call` for a call with the given `Seq`. -/
  | cancel (seq : Nat)
  /-- The method `Close`. -/
  | close
  deriving DecidableEq, Repr

/-- The state right after `newClientCodec`: the receive goroutine has been started. -/
def World.init (cc : Codec) (opt : Option) : World :=
  { client := newClientCodec cc opt, sending := none, recv := RecvState.reading,
    allocated := 0, delivered := [] }

/-- One event. An event whose goroutine is blocked on `sending`, or that belongs to a
part of `receive` that is not running, leaves the state as it is. -/
def World.step (errorf : String → String) (w : World) (e : Event) : World :=
  match e with
  | Event.go serviceMethod args reply =>
    match w.sending with
    | some _ => w
    | none =>
      let call : Call :=
        { id := w.allocated, Seq := 0, ServiceMethod := serviceMethod, Args := args,
          Reply := reply, Error := none }
      let r := w.client.sendRegister call
      { w with client := r.1, sending := r.2.2, allocated := w.allocated + 1,
               delivered := w.delivered ++ r.2.1 }
  | Event.written werr =>
    match w.sending with
    | none => w
    | some seq =>
      let r := w.client.sendWrite seq werr
      { w with client := r.1, sending := none, delivered := w.delivered ++ r.2 }
  | Event.header h berr body =>
    match w.recv with
    | RecvState.reading =>
      let r := w.client.receiveHeader errorf h berr body
      { w with client := r.1, delivered := w.delivered ++ r.2.1,
               recv := match r.2.2 with
                       | none => RecvState.reading
                       | some err => RecvState.failed err }
    | _ => w
  | Event.headerErr err =>
    match w.recv with
    | RecvState.reading => { w with recv := RecvState.failed err }
    | _ => w
  | Event.terminate =>
    match w.recv, w.sending with
    | RecvState.failed err, none =>
      let r := w.client.terminateCalls (some err)
      { w with client := r.1, delivered := w.delivered ++ r.2, recv := RecvState.ended }
    | _, _ => w
  | Event.cancel seq => { w with client := (w.client.removeCall seq).1 }
  | Event.close => { w with client := w.client.Close.1 }

/-- The state after a list of events. -/
def World.run (errorf : String → String) (w : World) (es : List Event) : World :=
  es.foldl (World.step errorf) w

/-- Whether event `e` in state `w` is a `registerCall` that returns a nil error. -/
def World.registers (w : World) (e : Event) : Bool :=
  match e with
  | Event.go _ _ _ => w.sending.isNone && !(w.client.closing || w.client.shutdown)
  | _ => false

/-- The number of calls of `registerCall` that return a nil error while `es` runs
from `w`. -/
def World.registered (errorf : String → String) (w : World) (es : List Event) : Nat :=
  match es with
  | [] => 0
  | e :: rest =>
    (if w.registers e then 1 else 0) + World.registered errorf (w.step errorf e) rest

/-- How many values the call with address `id` has received on its `Done` channel. -/
def World.doneCount (w : World) (id : Nat) : Nat :=
  (w.delivered.map Call.id).count id

/-! ## Options of the client -/

/-- The function `parseOptions`; a `nil` element of `opts` is `none`. The result of the
non-nil case is `opts[0]` after the two assignments made through the pointer. -/
def parseOptions (opts : List (Ptr Option)) : Ptr Option × GoError :=
  match opts with
  | [] => (some DefaultOption, none)
  | none :: _ => (some DefaultOption, none)
  | some opt :: _ =>
    if opts.length ≠ 1 then
      (none, some "number of options is more than 1")
    else
      let opt1 := { opt with MagicNumber := DefaultOption.MagicNumber }
      let opt2 :=
        if opt1.CodecType = "" then { opt1 with CodecType := DefaultOption.CodecType } else opt1
      (some opt2, none)

/-- The function `parseOption` of `day2-client/client.go`: the same statements as
`parseOptions`. -/
def parseOption (opts : List (Ptr Option)) : Ptr Option × GoError :=
  match opts with
  | [] => (some DefaultOption, none)
  | none :: _ => (some DefaultOption, none)
  | some opt :: _ =>
    if opts.length ≠ 1 then
      (none, some "number of options is more than 1")
    else
      let opt1 := { opt with MagicNumber := DefaultOption.MagicNumber }
      let opt2 :=
        if opt1.CodecType = "" then { opt1 with CodecType := DefaultOption.CodecType } else opt1
      (some opt2, none)

/-! ## Reflection -/

/-- The kinds of `reflect.Kind` whose types have no element type. -/
inductive BasicKind where
  | Invalid | Bool | Int | Int8 | Int16 | Int32 | Int64 | Uint | Uint8 | Uint16 | Uint32
  | Uint64 | Uintptr | Float32 | Float64 | Complex64 | Complex128 | Func | Interface
  | String | Struct | UnsafePointer
  deriving DecidableEq, Repr

/-- The kinds of `reflect.Kind` on which `Type.Elem()` does not panic. -/
inductive ElemKind where
  | Array | Chan | Map | Ptr | Slice
  deriving DecidableEq, Repr

/-- Go: `reflect.Kind`. -/
inductive Kind where
  | basic (k : BasicKind)
  | elem (k : ElemKind)
  deriving DecidableEq, Repr

/-- Go: `reflect.Type`, by what the server asks of it: `Name()`, `PkgPath()`, `Kind()`
and `Elem()`. -/
inductive GoType where
  | basic (name pkgPath : String) (kind : BasicKind)
  | elem (name pkgPath : String) (kind : ElemKind) (elem : GoType)
  deriving DecidableEq, Repr

/-- Go: `t.Name()`. -/
def GoType.Name : GoType → String
  | GoType.basic name _ _ => name
  | GoType.elem name _ _ _ => name

/-- Go: `t.PkgPath()`. -/
def GoType.PkgPath : GoType → String
  | GoType.basic _ pkgPath _ => pkgPath
  | GoType.elem _ pkgPath _ _ => pkgPath

/-- Go: `t.Kind()`. -/
def GoType.Kind : GoType → GeeRPC.Kind
  | GoType.basic _ _ k => GeeRPC.Kind.basic k
  | GoType.elem _ _ k _ => GeeRPC.Kind.elem k

/-- Go: `t.Elem()`; `none` is the panic of a type without element type. -/
def GoType.Elem : GoType → Ptr GoType
  | GoType.basic _ _ _ => none
  | GoType.elem _ _ _ t => some t

/-- Go: `reflect.TypeOf((*error)(nil)).Elem()`, the interface type `error`. -/
def errorType : GoType := GoType.basic "error" "" BasicKind.Interface

/-- Go: `ast.IsExported(name)`, which is `unicode.IsUpper` of the first rune of `name`
(`utf8.RuneError` for the empty name); `upper` is `unicode.IsUpper`. -/
def IsExported (upper : Char → Bool) (name : String) : Bool :=
  match name.data with
  | [] => upper (Char.ofNat 0xFFFD)
  | ch :: _ => upper ch

/-- Go: `reflect.Method`, with the parameter and result types of `method.Type`:
`In` is `In(0)`, ..., `In(NumIn()-1)`, the receiver first, `Out` likewise. -/
structure Method where
  Name : String
  In : List GoType
  Out : List GoType
  deriving DecidableEq, Repr

/-- What reflection shows of the `rcvr` given to `Register`: the name of
`reflect.Indirect(reflect.ValueOf(rcvr)).Type()` and the methods
`reflect.TypeOf(rcvr).Method(i)` for `i < NumMethod()`. -/
structure Receiver where
  name : String
  methods : List Method
  deriving DecidableEq, Repr

/-- The type `methodType`. -/
structure methodType where
  method : Method
  ArgType : GoType
  ReplyType : GoType
  numCalls : Nat
  deriving DecidableEq, Repr

/-- A `reflect.Value` made by `newArgv` or `newReplyv`, by the way it was made. -/
inductive Value where
  /-- `reflect.New(t)`: a pointer to a zero `t`. -/
  | new (t : GoType)
  /-- `reflect.New(t).Elem()`: an addressable zero `t`. -/
  | newElem (t : GoType)
  /-- `reflect.New(t)` whose target was set to `reflect.MakeMap(t)`. -/
  | newMap (t : GoType)
  /-- `reflect.New(t)` whose target was set to `reflect.MakeSlice(t, 0, 0)`. -/
  | newSlice (t : GoType)
  deriving DecidableEq, Repr

/-- The method `methodType.newArgv`. -/
def methodType.newArgv (m : methodType) : Value :=
  match m.ArgType with
  | GoType.elem _ _ ElemKind.Ptr elem => Value.new elem
  | t => Value.newElem t

/-- The method `methodType.newReplyv`; `none` is the panic of `m.ReplyType.Elem()`. -/
def methodType.newReplyv (m : methodType) : Ptr Value :=
  match m.ReplyType.Elem with
  | none => none
  | some elem =>
    match elem.Kind with
    | Kind.elem ElemKind.Map => some (Value.newMap elem)
    | Kind.elem ElemKind.Slice => some (Value.newSlice elem)
    | _ => some (Value.new elem)

/-- The type `service`; `rcvr` stands for both `typ` and `rcvr`. -/
structure service where
  name : String
  rcvr : Receiver
  method : List (String × methodType)
  deriving DecidableEq, Repr

/-- The function `isExportedOrBuiltinType`. -/
def isExportedOrBuiltinType (upper : Char → Bool) (t : GoType) : Bool :=
  IsExported upper t.Name || t.PkgPath = ""

/-- The body of the loop of `service.registerMethods` for one method: the map `s.method`
after it. -/
def registerMethod (upper : Char → Bool) (methods : List (String × methodType))
    (method : Method) : List (String × methodType) :=
  if method.In.length ≠ 3 || method.Out.length ≠ 1 then
    methods
  else if method.Out.head? ≠ some errorType then
    methods
  else
    match method.In with
    | [_, argType, replyType] =>
      if !isExportedOrBuiltinType upper argType || !isExportedOrBuiltinType upper replyType then
        methods
      else
        mapSet methods method.Name
          { method := method, ArgType := argType, ReplyType := replyType, numCalls := 0 }
    | _ => methods

/-- The method `service.registerMethods`: the map `s.method` it builds from the methods
of `s.typ`. -/
def registerMethods (upper : Char → Bool) (typMethods : List Method) :
    List (String × methodType) :=
  typMethods.foldl (registerMethod upper) []

/-- The entry that one iteration of the loop of `registerMethods` stores under
`method.Name`, if it stores one; `registerMethod_eq` relates it to `registerMethod`. -/
def methodEntry (upper : Char → Bool) (method : Method) : Ptr methodType :=
  match method.In, method.Out with
  | [_, argType, replyType], [out] =>
    if out = errorType ∧ isExportedOrBuiltinType upper argType = true ∧
        isExportedOrBuiltinType upper replyType = true then
      some { method := method, ArgType := argType, ReplyType := replyType, numCalls := 0 }
    else
      none
  | _, _ => none

/-- The element type of a parameter in the sense of the specification: what a pointer
points to, and the type itself when it is no pointer. -/
def elemType (t : GoType) : GoType :=
  match t with
  | GoType.elem _ _ ElemKind.Ptr e => e
  | other => other

/-- The admission rule in the words of the specification: exactly three formal
parameters, the third a pointer type; exactly one result, of the error type; the element
types of both `Args` and `Reply` exported or without package path. -/
def specAdmits (upper : Char → Bool) (method : Method) : Bool :=
  match method.In, method.Out with
  | [_, args, reply], [out] =>
    decide (reply.Kind = Kind.elem ElemKind.Ptr) && decide (out = errorType) &&
      isExportedOrBuiltinType upper (elemType args) &&
      isExportedOrBuiltinType upper (elemType reply)
  | _, _ => false

/-- The function `newService`; `none` is the exit of the process in `log.Fatalf`. -/
def newService (upper : Char → Bool) (rcvr : Receiver) : Ptr service :=
  if !IsExported upper rcvr.name then
    none
  else
    some { name := rcvr.name, rcvr := rcvr, method := registerMethods upper rcvr.methods }

/-- The type `Server`; `serviceMap` is the content of the `sync.Map`. -/
structure Server where
  serviceMap : List (String × service)
  deriving DecidableEq, Repr

/-- The function `NewServer`. -/
def NewServer : Server := { serviceMap := [] }

/-- The method `Server.Register`: the server afterwards and the returned error; `none`
is the exit of the process inside `newService`. -/
def Server.Register (upper : Char → Bool) (server : Server) (rcvr : Receiver) :
    Ptr (Server × GoError) :=
  match newService upper rcvr with
  | none => none
  | some s =>
    match mapGet server.serviceMap s.name with
    | some _ => some (server, some ("rpc: service already defined: " ++ s.name))
    | none => some ({ server with serviceMap := mapSet server.serviceMap s.name s }, none)

/-- Go: `strings.LastIndex(s, ".")` with `c` the dot, on the characters of `s`; `-1` when
`c` does not occur. The dot is one byte in UTF-8 and no part of another character, so
cutting the characters at this index is cutting the bytes at the byte index. -/
def LastIndex (s : List Char) (c : Char) : Int :=
  match s with
  | [] => -1
  | x :: rest =>
    let r := LastIndex rest c
    if r ≥ 0 then r + 1 else if x = c then 0 else -1

/-- The method `Server.findService`. -/
def Server.findService (server : Server) (serviceMethod : String) :
    Ptr service × Ptr methodType × GoError :=
  let dot := LastIndex serviceMethod.data '.'
  if dot < 0 then
    (none, none, some ("rpc server: service/method request ill-formed:" ++ serviceMethod))
  else
    let serviceName := String.mk (serviceMethod.data.take dot.toNat)
    let methodName := String.mk (serviceMethod.data.drop (dot.toNat + 1))
    match mapGet server.serviceMap serviceName with
    | none => (none, none, some ("rpc server: can't find service " ++ serviceName))
    | some svc =>
      match mapGet svc.method methodName with
      | none => (some svc, none, some ("rpc server: can't find method " ++ methodName))
      | some mtype => (some svc, some mtype, none)

/-! ## The connection of a server -/

/-- What `ReadHeader` does when it is called: fill the header, or fail. -/
inductive HeaderRead where
  | ok (h : Header)
  | err (e : String)
  deriving DecidableEq, Repr

/-- The body given to `Write`: the variable `invalidRequest` or a reply value. -/
inductive Body where
  | invalidRequest
  | reply (v : String)
  deriving DecidableEq, Repr

/-- The calls made on a connection, directly or through its codec. -/
inductive ConnOp where
  | DecodeOption
  | ReadHeader (ok : Bool)
  | ReadBody (ok : Bool)
  | Write (h : Header) (body : Body)
  | Close
  deriving DecidableEq, Repr

/-- A connection seen from the server: what decoding the handshake yields (`none` for an
error), what the calls of `ReadHeader` and `ReadBody` will yield in turn (`io.EOF` once a
list is used up; a body read yields its error and the decoded argument), and the calls
made so far. The codec built over a connection is the connection itself. -/
structure Conn where
  handshake : Ptr Option
  headers : List HeaderRead
  bodies : List (GoError × String)
  log : List ConnOp
  deriving DecidableEq, Repr

/-- Go: `conn.Close()` and, through `GobCodec.Close`, `cc.Close()`. -/
def Conn.Close (conn : Conn) : Conn :=
  { conn with log := conn.log ++ [ConnOp.Close] }

/-- Go: `cc.ReadHeader(&h)`. -/
def Conn.ReadHeader (cc : Conn) : Conn × Header × GoError :=
  match cc.headers with
  | [] =>
    ({ cc with log := cc.log ++ [ConnOp.ReadHeader false] },
     { ServiceMethod := "", Seq := 0, Error := "" }, some "EOF")
  | HeaderRead.err e :: rest =>
    ({ cc with headers := rest, log := cc.log ++ [ConnOp.ReadHeader false] },
     { ServiceMethod := "", Seq := 0, Error := "" }, some e)
  | HeaderRead.ok h :: rest =>
    ({ cc with headers := rest, log := cc.log ++ [ConnOp.ReadHeader true] }, h, none)

/-- Go: `cc.ReadBody(body)`: the error and what was decoded. -/
def Conn.ReadBody (cc : Conn) : Conn × GoError × String :=
  match cc.bodies with
  | [] => ({ cc with log := cc.log ++ [ConnOp.ReadBody false] }, some "EOF", "")
  | (some e, v) :: rest =>
    ({ cc with bodies := rest, log := cc.log ++ [ConnOp.ReadBody false] }, some e, v)
  | (none, v) :: rest =>
    ({ cc with bodies := rest, log := cc.log ++ [ConnOp.ReadBody true] }, none, v)

/-- Go: `cc.Write(h, body)`. -/
def Conn.Write (cc : Conn) (h : Header) (body : Body) : Conn :=
  { cc with log := cc.log ++ [ConnOp.Write h body] }

/-- The function `codec.NewGobCodec`. -/
def NewGobCodec (conn : Conn) : Conn := conn

/-- The variable `codec.NewCodecFuncMap` after `init`. -/
def NewCodecFuncMap : List (String × (Conn → Conn)) := [(GobType, NewGobCodec)]

/-- Either a function of the server returns, or it panics, which ends the process; `cc`
is the connection at that moment. -/
inductive Outcome (α : Type) where
  | returns (a : α)
  | panics (cc : Conn)
  deriving DecidableEq, Repr

/-- The type `request`; `args` is what `ReadBody` decoded into `argv`, and a zero
`reflect.Value` is `none`. -/
structure request where
  h : Header
  argv : Ptr Value
  replyv : Ptr Value
  mtype : Ptr methodType
  svc : Ptr service
  args : String
  deriving DecidableEq, Repr

/-- The method `Server.readRequestHeader`. -/
def Server.readRequestHeader (_server : Server) (cc : Conn) : Conn × Ptr Header × GoError :=
  match cc.ReadHeader with
  | (cc1, _, some err) => (cc1, none, some err)
  | (cc1, h, none) => (cc1, some h, none)

/-- The method `Server.readRequest`. It panics when `findService` returns no method and no
error (a nil `req.mtype`) and when `newReplyv` panics. -/
def Server.readRequest (server : Server) (cc : Conn) :
    Outcome (Conn × Ptr request × GoError) :=
  match server.readRequestHeader cc with
  | (cc1, none, err) => Outcome.returns (cc1, none, err)
  | (cc1, some h, _) =>
    match server.findService h.ServiceMethod with
    | (svc, mtype, some err) =>
      Outcome.returns
        (cc1, some { h := h, argv := none, replyv := none, mtype := mtype, svc := svc,
                     args := "" }, some err)
    | (_, none, none) => Outcome.panics cc1
    | (svc, some mtype, none) =>
      match mtype.newReplyv with
      | none => Outcome.panics cc1
      | some replyv =>
        match cc1.ReadBody with
        | (cc2, some err, v) =>
          Outcome.returns
            (cc2, some { h := h, argv := some mtype.newArgv, replyv := some replyv,
                         mtype := some mtype, svc := svc, args := v }, some err)
        | (cc2, none, v) =>
          Outcome.returns
            (cc2, some { h := h, argv := some mtype.newArgv, replyv := some replyv,
                         mtype := some mtype, svc := svc, args := v }, none)

/-- The method `Server.sendResponse`; the error of `Write` is only logged. -/
def Server.sendResponse (_server : Server) (cc : Conn) (h : Header) (body : Body) : Conn :=
  cc.Write h body

/-- The loop of `Server.serveCodec` while `hs` is what `ReadHeader` has still to yield:
the connection after the loop and the requests handed to `handleRequest`, whose writes
are not part of the log. -/
def Server.serveLoop (server : Server) (hs : List HeaderRead) (cc : Conn)
    (handled : List request) : Outcome (Conn × List request) :=
  match hs with
  | [] =>
    match server.readRequest { cc with headers := [] } with
    | Outcome.panics cc1 => Outcome.panics cc1
    | Outcome.returns (cc1, _, _) => Outcome.returns (cc1, handled)
  | x :: rest =>
    match server.readRequest { cc with headers := x :: rest } with
    | Outcome.panics cc1 => Outcome.panics cc1
    | Outcome.returns (cc1, none, _) => Outcome.returns (cc1, handled)
    | Outcome.returns (cc1, some req, some err) =>
      server.serveLoop rest (server.sendResponse cc1 { req.h with Error := err }
        Body.invalidRequest) handled
    | Outcome.returns (cc1, some req, none) => server.serveLoop rest cc1 (handled ++ [req])

/-- The method `Server.serveCodec`. -/
def Server.serveCodec (server : Server) (cc : Conn) (_opt : Option) :
    Outcome (Conn × List request) :=
  match server.serveLoop cc.headers cc [] with
  | Outcome.panics cc1 => Outcome.panics cc1
  | Outcome.returns (cc1, handled) => Outcome.returns (cc1.Close, handled)

/-- The method `Server.ServeConn`, with the deferred `conn.Close()` at each return. -/
def Server.ServeConn (server : Server) (conn : Conn) : Outcome (Conn × List request) :=
  let conn1 := { conn with log := conn.log ++ [ConnOp.DecodeOption] }
  match conn1.handshake with
  | none => Outcome.returns (conn1.Close, [])
  | some opt =>
    if opt.MagicNumber ≠ MagicNumber then
      Outcome.returns (conn1.Close, [])
    else
      match mapGet NewCodecFuncMap opt.CodecType with
      | none => Outcome.returns (conn1.Close, [])
      | some f =>
        match server.serveCodec (f conn1) opt with
        | Outcome.panics cc => Outcome.panics cc
        | Outcome.returns (cc, handled) => Outcome.returns (cc.Close, handled)

/-- The method `service.call`: the method type after the atomic increment of `numCalls`
and the error of the method, `result` being what the reflective call `f.Call` returns. -/
def service.call (_s : service) (m : methodType) (result : GoError) : methodType × GoError :=
  ({ m with numCalls := (m.numCalls + 1) % 2 ^ 64 }, result)

/-- The method `Server.handleRequest`: the connection after the response, or the panic of
`service.call` on a request without service or method. `result` and `reply` are what the
method returns and leaves in `replyv`, `timedOut` says that the `select` takes the
`time.After` branch, and `durationText` is the formatting of a `time.Duration` by `%s`.
After that branch the goroutine stays blocked on the unbuffered channel `called` and
writes nothing. The incremented `numCalls` is not carried back into the service map. -/
def Server.handleRequest (server : Server) (cc : Conn) (req : request) (timeout : Int)
    (result : GoError) (reply : String) (timedOut : Bool) (durationText : Int → String) :
    Outcome Conn :=
  match req.svc, req.mtype with
  | some svc, some mtype =>
    if timeout ≠ 0 ∧ timedOut = true then
      Outcome.returns (server.sendResponse cc
        { req.h with
          Error := "rpc server: request handle timeout: expect within " ++
            durationText timeout }
        Body.invalidRequest)
    else
      match (svc.call mtype result).2 with
      | some err =>
        Outcome.returns (server.sendResponse cc { req.h with Error := err } Body.invalidRequest)
      | none => Outcome.returns (server.sendResponse cc req.h (Body.reply reply))
  | _, _ => Outcome.panics cc

/-- The connection an outcome ends with. -/
def Outcome.conn {β : Type} (o : Outcome (Conn × β)) : Conn :=
  match o with
  | Outcome.returns r => r.1
  | Outcome.panics cc => cc

/-- The framing rule on a log of calls: `pending` is the number of `ReadBody` calls since
the last successful `ReadHeader`, if there was one; at every further `ReadHeader` that
number must be exactly one. -/
def framedFrom (pending : Ptr Nat) (log : List ConnOp) : Bool :=
  match log with
  | [] => true
  | ConnOp.ReadHeader ok :: rest =>
    (match pending with
     | none => true
     | some n => n == 1) && framedFrom (if ok then some 0 else none) rest
  | ConnOp.ReadBody _ :: rest => framedFrom (pending.map (· + 1)) rest
  | _ :: rest => framedFrom pending rest

/-- Every successful `ReadHeader` of the log is followed by exactly one `ReadBody` before
the next `ReadHeader`. -/
def framed (log : List ConnOp) : Bool := framedFrom none log

/-- The number of `ReadBody` calls since the last successful `ReadHeader` once `log` has
been scanned from the state `pending` (see `framedFrom`). -/
def framedState (pending : Ptr Nat) (log : List ConnOp) : Ptr Nat :=
  match log with
  | [] => pending
  | ConnOp.ReadHeader ok :: rest => framedState (if ok then some 0 else none) rest
  | ConnOp.ReadBody _ :: rest => framedState (pending.map (· + 1)) rest
  | _ :: rest => framedState pending rest

/-- The log of a connection is framed so far and the next call may be a `ReadHeader`. -/
def Conn.ready (cc : Conn) : Prop :=
  framedFrom none cc.log = true ∧
    (framedState none cc.log = none ∨ framedState none cc.log = some 1)

/-! ## Discovery (`day7-registry/xclient/discovery.go`) -/

/-- The constant `RandomSelect` of the type `SelectMode`, an `int`. -/
def RandomSelect : Int := 0

/-- The constant `RoundRobinSelect`. -/
def RoundRobinSelect : Int := 1

/-- Go: `math.MaxInt32`. -/
def MaxInt32 : Int := 2147483647

/-- Go: `r.Intn(n)` for `n > 0`, a value of `[0, n)`; `src` is what the random source
yields for this call. -/
def Intn (src : Nat) (n : Int) : Int := Int.ofNat (src % n.toNat)

/-- Go: `s[i]` on a slice with an `int` index; `none` is the panic of an index out of
range. -/
def sliceIndex (s : List String) (i : Int) : Ptr String :=
  if i < 0 then none else s[i.toNat]?

/-- The type `MultiServersDiscovery`, without its mutex and its random source (see
`Intn`). -/
structure MultiServersDiscovery where
  servers : List String
  index : Int
  deriving DecidableEq, Repr

/-- The function `NewMultiServerDiscovery`; `src` is what the new random source yields for
the call of `Intn`. -/
def NewMultiServerDiscovery (servers : List String) (src : Nat) : MultiServersDiscovery :=
  { servers := servers, index := Intn src (MaxInt32 - 1) }

/-- The method `MultiServersDiscovery.Refresh`. -/
def MultiServersDiscovery.Refresh (d : MultiServersDiscovery) :
    MultiServersDiscovery × GoError :=
  (d, none)

/-- The method `MultiServersDiscovery.Update`. -/
def MultiServersDiscovery.Update (d : MultiServersDiscovery) (servers : List String) :
    MultiServersDiscovery × GoError :=
  ({ d with servers := servers }, none)

/-- The method `MultiServersDiscovery.Get`; `%` is Go's remainder, which takes the sign of
the dividend, and `none` is the panic of an index out of range. -/
def MultiServersDiscovery.Get (d : MultiServersDiscovery) (mode : Int) (src : Nat) :
    Ptr (MultiServersDiscovery × String × GoError) :=
  let n : Int := d.servers.length
  if n = 0 then
    some (d, "", some "rpc discovery: no available servers")
  else if mode = RandomSelect then
    match sliceIndex d.servers (Intn src n) with
    | none => none
    | some s => some (d, s, none)
  else if mode = RoundRobinSelect then
    match sliceIndex d.servers (d.index.tmod n) with
    | none => none
    | some s => some ({ d with index := (d.index + 1).tmod n }, s, none)
  else
    some (d, "", some "rpc discovery: not supported select mode")

/-- The method `MultiServersDiscovery.GetAll`. -/
def MultiServersDiscovery.GetAll (d : MultiServersDiscovery) : List String × GoError :=
  (d.servers, none)

/-- A call of one of the methods of a discovery. -/
inductive DiscoveryCall where
  | Refresh
  | Update (servers : List String)
  | Get (mode : Int) (src : Nat)
  | GetAll
  deriving DecidableEq, Repr

/-- The discovery after the calls `calls`, made one after the other; `none` when one of
them panics. -/
def MultiServersDiscovery.run (d : MultiServersDiscovery) (calls : List DiscoveryCall) :
    Ptr MultiServersDiscovery :=
  match calls with
  | [] => some d
  | DiscoveryCall.Refresh :: rest => MultiServersDiscovery.run d.Refresh.1 rest
  | DiscoveryCall.Update servers :: rest => MultiServersDiscovery.run (d.Update servers).1 rest
  | DiscoveryCall.Get mode src :: rest =>
    match d.Get mode src with
    | none => none
    | some r => MultiServersDiscovery.run r.1 rest
  | DiscoveryCall.GetAll :: rest => MultiServersDiscovery.run d rest

/-- The servers returned by `k` calls of `Get(RoundRobinSelect)` in a row; `none` when one
of them panics or returns an error. -/
def MultiServersDiscovery.selections (d : MultiServersDiscovery) (k : Nat) :
    Ptr (List String) :=
  match k with
  | 0 => some []
  | k + 1 =>
    match d.Get RoundRobinSelect 0 with
    | some (d1, s, none) =>
      match MultiServersDiscovery.selections d1 k with
      | some rest => some (s :: rest)
      | none => none
    | _ => none

/-! ## Registry (`day7-registry/registry/registry.go`) -/

/-- The type `ServerItem`; a `time.Time` is a number of nanoseconds. -/
structure ServerItem where
  Addr : String
  start : Int
  deriving DecidableEq, Repr

/-- The type `GeeRegistry`, without its mutex; a `time.Duration` is a number of
nanoseconds. -/
structure GeeRegistry where
  timeout : Int
  servers : List (String × ServerItem)
  deriving DecidableEq, Repr

/-- The function `New`. -/
def New (timeout : Int) : GeeRegistry :=
  { timeout := timeout, servers := [] }

/-- The method `GeeRegistry.putServer`; `now` is what `time.Now()` returns. -/
def GeeRegistry.putServer (r : GeeRegistry) (addr : String) (now : Int) : GeeRegistry :=
  match mapGet r.servers addr with
  | none => { r with servers := mapSet r.servers addr { Addr := addr, start := now } }
  | some s => { r with servers := mapSet r.servers addr { s with start := now } }

/-- Go: `sort.Strings`. Go compares strings byte by byte, which on UTF-8 is the order of
the lists of characters. -/
def sortStrings (l : List String) : List String :=
  l.insertionSort (fun a b => a.data ≤ b.data)

/-- The loop of `GeeRegistry.aliveServers` over the entries `entries`, the first of which
is entry number `i` of the iteration: the addresses appended to `alive` and the entries
left in the map. `clock j` is what `time.Now()` returns in iteration `j`. -/
def aliveLoop (timeout : Int) (clock : Nat → Int) (i : Nat)
    (entries : List (String × ServerItem)) : List String × List (String × ServerItem) :=
  match entries with
  | [] => ([], [])
  | (addr, s) :: rest =>
    let r := aliveLoop timeout clock (i + 1) rest
    if timeout = 0 ∨ s.start + timeout > clock i then
      (addr :: r.1, (addr, s) :: r.2)
    else
      (r.1, r.2)

/-- The method `GeeRegistry.aliveServers`: the registry afterwards and the returned
list. -/
def GeeRegistry.aliveServers (r : GeeRegistry) (clock : Nat → Int) :
    GeeRegistry × List String :=
  let res := aliveLoop r.timeout clock 0 r.servers
  ({ r with servers := res.2 }, sortStrings res.1)

/-! ## Connecting a client (`day7-registry/client.go`) -/

/-- What a client writes to its connection: a text, or the JSON encoding of an option. -/
inductive Written where
  | text (s : String)
  | option (opt : Option)
  deriving DecidableEq, Repr

/-- A connection seen from the client that is being built on it: what was written, how
often it was closed, what `json.NewEncoder(conn).Encode` will return and what closing the
codec will return. -/
structure ClientConn where
  written : List Written
  closed : Nat
  encodeErr : GoError
  closeErr : GoError
  deriving DecidableEq, Repr

/-- What `http.ReadResponse` yields: a response with its `Status`, or an error. -/
inductive HTTPRead where
  | ok (status : String)
  | err (e : String)
  deriving DecidableEq, Repr

/-- The function `NewClient`. -/
def NewClient (conn : ClientConn) (opt : Option) : ClientConn × Ptr Client × GoError :=
  match mapGet NewCodecFuncMap opt.CodecType with
  | none => (conn, none, some ("invalid codec type " ++ opt.CodecType))
  | some _ =>
    match conn.encodeErr with
    | some err => ({ conn with closed := conn.closed + 1 }, none, some err)
    | none =>
      ({ conn with written := conn.written ++ [Written.option opt] },
       some (newClientCodec { closeErr := conn.closeErr, closed := 0 } opt), none)

/-- The function `NewHTTPClient`. The constants `defaultRPCPath` and `connected` are
declared in a file that is not part of the sources and are parameters; `resp` is what
`http.ReadResponse` yields. The result of `io.WriteString` is dropped by the code. -/
def NewHTTPClient (defaultRPCPath connected : String) (conn : ClientConn) (opt : Option)
    (resp : HTTPRead) : ClientConn × Ptr Client × GoError :=
  let conn1 :=
    { conn with
      written := conn.written ++
        [Written.text ("CONNECT " ++ defaultRPCPath ++ " HTTP/1.0\n\n")] }
  match resp with
  | HTTPRead.ok status =>
    if status = connected then
      NewClient conn1 opt
    else
      (conn1, none, some ("unexpected HTTP response: " ++ status))
  | HTTPRead.err e => (conn1, none, some e)

/-! ## The gob codec (`day4-timeout/codec/gob.go`) -/

/-- The calls that `GobCodec.Write` and `GobCodec.Close` make on the encoder, the buffer
and the connection, with their success. -/
inductive GobOp where
  | EncodeHeader (h : Header) (ok : Bool)
  | EncodeBody (body : Body) (ok : Bool)
  | Flush (ok : Bool)
  | Close
  deriving DecidableEq, Repr

/-- The type `GobCodec`, by the calls made through it. -/
structure GobCodec where
  log : List GobOp
  deriving DecidableEq, Repr

/-- The method `GobCodec.Close`. -/
def GobCodec.Close (c : GobCodec) : GobCodec :=
  { c with log := c.log ++ [GobOp.Close] }

/-- The deferred function of `GobCodec.Write`: `err` is the named result, `ferr` what
`c.buf.Flush()` returns. -/
def GobCodec.writeDeferred (c : GobCodec) (err ferr : GoError) : GobCodec :=
  let c1 := { c with log := c.log ++ [GobOp.Flush ferr.isNone] }
  match err with
  | some _ => c1.Close
  | none => c1

/-- The method `GobCodec.Write`; `herr`, `berr` and `ferr` are what encoding the header,
encoding the body and flushing the buffer return when they are called. -/
def GobCodec.Write (c : GobCodec) (h : Header) (body : Body) (herr berr ferr : GoError) :
    GobCodec × GoError :=
  match herr with
  | some err =>
    (GobCodec.writeDeferred { c with log := c.log ++ [GobOp.EncodeHeader h false] }
      (some err) ferr, some err)
  | none =>
    match berr with
    | some err =>
      (GobCodec.writeDeferred
        { c with log := c.log ++ [GobOp.EncodeHeader h true, GobOp.EncodeBody body false] }
        (some err) ferr, some err)
    | none =>
      (GobCodec.writeDeferred
        { c with log := c.log ++ [GobOp.EncodeHeader h true, GobOp.EncodeBody body true] }
        none ferr, none)

/-! ## The state mutex of a client -/

/-- Go: `mu.Lock()` on a mutex that is locked or not; `none` means that the goroutine
waits, for ever when no other goroutine unlocks. -/
def Lock (locked : Bool) : Ptr Bool :=
  if locked then none else some true

/-- Go: `mu.Unlock()`; `none` is the fatal error of unlocking an unlocked mutex. -/
def Unlock (locked : Bool) : Ptr Bool :=
  if locked then some false else none

/-- A client with its state mutex `mu`. -/
structure LockedClient where
  client : Client
  mu : Bool
  deriving DecidableEq, Repr

/-- The method `Client.removeCall` of `day7-registry/client.go` with its `mu.Lock()` and
its deferred `mu.Unlock()`; `none` when it does not return. -/
def LockedClient.removeCall (c : LockedClient) (seq : Nat) : Ptr (LockedClient × Ptr Call) :=
  match Lock c.mu with
  | none => none
  | some mu1 =>
    let r := c.client.removeCall seq
    match Unlock mu1 with
    | none => none
    | some mu2 => some ({ client := r.1, mu := mu2 }, r.2)

/-- The method `Client.removeCall` of `day2-client/client.go`, whose deferred call is
`client.mu.Lock()`; `none` when it does not return. -/
def LockedClient.removeCallDay2 (c : LockedClient) (seq : Nat) :
    Ptr (LockedClient × Ptr Call) :=
  match Lock c.mu with
  | none => none
  | some mu1 =>
    let r := c.client.removeCall seq
    match Lock mu1 with
    | none => none
    | some mu2 => some ({ client := r.1, mu := mu2 }, r.2)

/-- The method `Client.registerCall` with its `mu.Lock()` and deferred `mu.Unlock()`. -/
def LockedClient.registerCall (c : LockedClient) (call : Call) :
    Ptr (LockedClient × Call × Nat × GoError) :=
  match Lock c.mu with
  | none => none
  | some mu1 =>
    let r := c.client.registerCall call
    match Unlock mu1 with
    | none => none
    | some mu2 => some ({ client := r.1, mu := mu2 }, r.2)

/-- The method `Client.IsAvailable` with its `mu.Lock()` and deferred `mu.Unlock()`. -/
def LockedClient.IsAvailable (c : LockedClient) : Ptr (LockedClient × Bool) :=
  match Lock c.mu with
  | none => none
  | some mu1 =>
    match Unlock mu1 with
    | none => none
    | some mu2 => some ({ c with mu := mu2 }, c.client.IsAvailable)

/-! ## Cancellation of a call -/

/-- The `ctx.Done()` branch of `Client.Call` for the call returned by `Go`: the client
afterwards and the returned error; `cause` is `ctx.Err().Error()`. -/
def Client.CallCancelled (client : Client) (call : Call) (cause : String) :
    Client × GoError :=
  ((client.removeCall call.Seq).1, some ("rpc client: call failed:" ++ cause))

/-- The `call.Done` branch of `Client.Call`: `call` is the value received. -/
def Client.CallDone (call : Call) : GoError :=
  call.Error

/-- The targets of the calls of `ReadBody` in one iteration of `Client.receive` after a
successful `ReadHeader`, `none` being the nil target. -/
def Client.receiveReads (client : Client) (h : Header) : List (Ptr String) :=
  match (client.removeCall h.Seq).2 with
  | none => [none]
  | some call => if h.Error ≠ "" then [none] else [some call.Reply]

/-! ## Invariants of the client -/

/-- Every entry of `pending` is stored under its own `Seq`, and no key occurs twice. -/
def Client.pendingOK (client : Client) : Prop :=
  (∀ e ∈ client.pending, e.2.Seq = e.1) ∧ (client.pending.map Prod.fst).Nodup

/-- What holds of the `Done` channels in every state a client can reach: the pending calls
are distinct allocated calls, every delivered value belongs to an allocated call, no call
was delivered twice, a call still pending while `receive` has not run `terminateCalls` has
not been delivered, `shutdown` is set once `receive` has returned, and no `send` is inside
`cc.Write` by then. -/
structure World.Inv (w : World) : Prop where
  ids_nodup : (w.client.pending.map (fun e => e.2.id)).Nodup
  ids_lt : ∀ e ∈ w.client.pending, e.2.id < w.allocated
  done_lt : ∀ c ∈ w.delivered, c.id < w.allocated
  done_nodup : (w.delivered.map Call.id).Nodup
  fresh : w.recv ≠ RecvState.ended →
    ∀ e ∈ w.client.pending, e.2.id ∉ w.delivered.map Call.id
  ended_shutdown : w.recv = RecvState.ended → w.client.shutdown = true
  sending_live : w.sending.isSome = true → w.recv ≠ RecvState.ended

/-- The call with address `id`, registered under `seq`, is still pending with nothing
delivered and `receive` not yet through `terminateCalls`, or exactly one value has been
sent on its `Done` channel. -/
def World.pendingOrDone (w : World) (id seq : Nat) : Prop :=
  (w.recv ≠ RecvState.ended ∧
    ∃ call, mapGet w.client.pending seq = some call ∧ call.id = id ∧ w.doneCount id = 0) ∨
  w.doneCount id = 1

/-! # Theorems -/

/-! ## Lemmas on maps -/

theorem mem_mapDelete {κ β : Type} [DecidableEq κ] (m : List (κ × β)) (k : κ) (e : κ × β) :
    e ∈ mapDelete m k ↔ e ∈ m ∧ e.1 ≠ k := by
  simp [mapDelete]

theorem mem_mapSet {κ β : Type} [DecidableEq κ] (m : List (κ × β)) (k : κ) (v : β)
    (e : κ × β) : e ∈ mapSet m k v ↔ (e ∈ m ∧ e.1 ≠ k) ∨ e = (k, v) := by
  simp [mapSet, mem_mapDelete]

theorem keys_mapDelete {κ β : Type} [DecidableEq κ] (m : List (κ × β)) (k : κ) :
    (mapDelete m k).map Prod.fst = (m.map Prod.fst).filter (fun x => decide (x ≠ k)) := by
  induction m with
  | nil => rfl
  | cons e rest ih =>
    by_cases h : e.1 = k <;> simp_all [mapDelete, List.filter_cons]

theorem nodup_keys_mapDelete {κ β : Type} [DecidableEq κ] (m : List (κ × β)) (k : κ)
    (h : (m.map Prod.fst).Nodup) : ((mapDelete m k).map Prod.fst).Nodup := by
  rw [keys_mapDelete]
  exact h.filter _

theorem nodup_keys_mapSet {κ β : Type} [DecidableEq κ] (m : List (κ × β)) (k : κ) (v : β)
    (h : (m.map Prod.fst).Nodup) : ((mapSet m k v).map Prod.fst).Nodup := by
  unfold mapSet
  rw [List.map_append, List.nodup_append]
  refine ⟨nodup_keys_mapDelete m k h, by simp, ?_⟩
  intro a ha hb
  rw [keys_mapDelete] at ha
  simp at ha hb
  exact ha.2 hb

theorem mapGet_eq_none {κ β : Type} [DecidableEq κ] (m : List (κ × β)) (k : κ) :
    mapGet m k = none ↔ ∀ e ∈ m, e.1 ≠ k := by
  induction m with
  | nil => simp [mapGet]
  | cons e rest ih =>
    by_cases h : e.1 = k <;> simp [mapGet, h, ih]

theorem mapGet_append_single {κ β : Type} [DecidableEq κ] (m : List (κ × β)) (k : κ) (v : β)
    (h : mapGet m k = none) : mapGet (m ++ [(k, v)]) k = some v := by
  induction m with
  | nil => simp [mapGet]
  | cons e rest ih =>
    by_cases he : e.1 = k
    · simp [mapGet, he] at h
    · simp only [mapGet, he, if_false] at h
      simp [mapGet, he, ih h]

theorem mapGet_mapDelete_self {κ β : Type} [DecidableEq κ] (m : List (κ × β)) (k : κ) :
    mapGet (mapDelete m k) k = none := by
  rw [mapGet_eq_none]
  intro e he
  exact ((mem_mapDelete m k e).1 he).2

theorem mapGet_mapSet_self {κ β : Type} [DecidableEq κ] (m : List (κ × β)) (k : κ) (v : β) :
    mapGet (mapSet m k v) k = some v :=
  mapGet_append_single _ k v (mapGet_mapDelete_self m k)

theorem mem_of_mapGet {κ β : Type} [DecidableEq κ] (m : List (κ × β)) (k : κ) (v : β)
    (h : mapGet m k = some v) : (k, v) ∈ m := by
  induction m with
  | nil => simp [mapGet] at h
  | cons e rest ih =>
    by_cases he : e.1 = k
    · simp [mapGet, he] at h
      have : e = (k, v) := Prod.ext he h
      simp [this]
    · simp only [mapGet, he, if_false] at h
      exact List.mem_cons_of_mem _ (ih h)

/-! ## The pending map of a client -/

theorem newClientCodec_pendingOK (cc : Codec) (opt : Option) :
    (newClientCodec cc opt).pendingOK := by
  simp [Client.pendingOK, newClientCodec]

theorem registerCall_pendingOK (client : Client) (call : Call) (h : client.pendingOK) :
    (client.registerCall call).1.pendingOK := by
  unfold Client.registerCall
  split
  · exact h
  · refine ⟨?_, nodup_keys_mapSet _ _ _ h.2⟩
    intro e he
    rcases (mem_mapSet _ _ _ e).1 he with h1 | h1
    · exact h.1 e h1.1
    · rw [h1]

theorem removeCall_pendingOK (client : Client) (seq : Nat) (h : client.pendingOK) :
    (client.removeCall seq).1.pendingOK := by
  refine ⟨?_, nodup_keys_mapDelete _ _ h.2⟩
  intro e he
  exact h.1 e ((mem_mapDelete _ _ e).1 he).1

theorem terminateCalls_pendingOK (client : Client) (err : GoError) (h : client.pendingOK) :
    (client.terminateCalls err).1.pendingOK := by
  refine ⟨?_, ?_⟩
  · intro e he
    simp only [Client.terminateCalls, List.mem_map] at he
    obtain ⟨a, ha, rfl⟩ := he
    exact h.1 a ha
  · have hk : (client.terminateCalls err).1.pending.map Prod.fst
        = client.pending.map Prod.fst := by
      simp [Client.terminateCalls, Function.comp_def]
    rw [hk]
    exact h.2

theorem Close_pending (client : Client) : client.Close.1.pending = client.pending := by
  unfold Client.Close
  split <;> rfl

theorem Close_pendingOK (client : Client) (h : client.pendingOK) : client.Close.1.pendingOK := by
  unfold Client.pendingOK
  rw [Close_pending]
  exact h

theorem sendRegister_pending (client : Client) (call : Call) :
    (client.sendRegister call).1.pending = (client.registerCall call).1.pending := by
  unfold Client.sendRegister
  split <;> simp_all

theorem sendRegister_pendingOK (client : Client) (call : Call) (h : client.pendingOK) :
    (client.sendRegister call).1.pendingOK := by
  have h1 := registerCall_pendingOK client call h
  unfold Client.pendingOK at h1 ⊢
  rw [sendRegister_pending]
  exact h1

theorem sendWrite_pendingOK (client : Client) (seq : Nat) (werr : GoError)
    (h : client.pendingOK) : (client.sendWrite seq werr).1.pendingOK := by
  have h1 := removeCall_pendingOK client seq h
  unfold Client.sendWrite
  split
  · exact h
  · split <;> simp_all

theorem receiveHeader_pending (errorf : String → String) (client : Client) (h : Header)
    (berr : GoError) (body : String) :
    (client.receiveHeader errorf h berr body).1.pending = mapDelete client.pending h.Seq := by
  unfold Client.receiveHeader
  split
  · simp_all [Client.removeCall]
    rename_i hh
    rw [← hh.1]
  · rename_i hh
    simp only [Client.removeCall, Prod.mk.injEq] at hh
    split
    · rw [← hh.1]
    · split <;> rw [← hh.1]

theorem receiveHeader_pendingOK (errorf : String → String) (client : Client) (h : Header)
    (berr : GoError) (body : String) (hc : client.pendingOK) :
    (client.receiveHeader errorf h berr body).1.pendingOK := by
  have h1 := removeCall_pendingOK client h.Seq hc
  unfold Client.pendingOK at h1 ⊢
  rw [receiveHeader_pending]
  exact h1

theorem step_pendingOK (errorf : String → String) (w : World) (e : Event)
    (h : w.client.pendingOK) : (w.step errorf e).client.pendingOK := by
  cases e with
  | go serviceMethod args reply =>
    simp only [World.step]
    split
    · exact h
    · exact sendRegister_pendingOK _ _ h
  | written werr =>
    simp only [World.step]
    split
    · exact h
    · exact sendWrite_pendingOK _ _ _ h
  | header hd berr body =>
    simp only [World.step]
    split
    · exact receiveHeader_pendingOK _ _ _ _ _ h
    · exact h
  | headerErr err =>
    simp only [World.step]
    split <;> exact h
  | terminate =>
    simp only [World.step]
    split
    · exact terminateCalls_pendingOK _ _ h
    · exact h
  | cancel seq => exact removeCall_pendingOK _ _ h
  | close => exact Close_pendingOK _ h

theorem run_pendingOK (errorf : String → String) (w : World) (es : List Event)
    (h : w.client.pendingOK) : (w.run errorf es).client.pendingOK := by
  induction es generalizing w with
  | nil => exact h
  | cons e rest ih => exact ih (w.step errorf e) (step_pendingOK errorf w e h)

/-! ## Sequence numbers -/

theorem Close_seq (client : Client) : client.Close.1.seq = client.seq := by
  unfold Client.Close
  split <;> rfl

theorem sendWrite_seq (client : Client) (seq : Nat) (werr : GoError) :
    (client.sendWrite seq werr).1.seq = client.seq := by
  unfold Client.sendWrite
  split
  · rfl
  · split <;> simp_all [Client.removeCall] <;> (rename_i hh; rw [← hh.1])

theorem receiveHeader_seq (errorf : String → String) (client : Client) (h : Header)
    (berr : GoError) (body : String) :
    (client.receiveHeader errorf h berr body).1.seq = client.seq := by
  unfold Client.receiveHeader
  split
  · rename_i hh
    simp only [Client.removeCall, Prod.mk.injEq] at hh
    rw [← hh.1]
  · rename_i hh
    simp only [Client.removeCall, Prod.mk.injEq] at hh
    split
    · rw [← hh.1]
    · split <;> rw [← hh.1]

theorem sendRegister_seq (client : Client) (call : Call) :
    (client.sendRegister call).1.seq =
      if client.closing || client.shutdown then client.seq else (client.seq + 1) % 2 ^ 64 := by
  by_cases hc : (client.closing || client.shutdown) = true
  · simp [Client.sendRegister, Client.registerCall, hc]
  · simp [Client.sendRegister, Client.registerCall, hc]

theorem step_seq (errorf : String → String) (w : World) (e : Event) :
    (w.step errorf e).client.seq =
      if w.registers e then (w.client.seq + 1) % 2 ^ 64 else w.client.seq := by
  cases e with
  | go serviceMethod args reply =>
    simp only [World.step, World.registers]
    split
    · rename_i s hs
      simp [hs]
    · rename_i hs
      simp only [sendRegister_seq, hs]
      by_cases hc : (w.client.closing || w.client.shutdown) = true <;> simp [hc]
  | written werr =>
    simp only [World.step, World.registers]
    split
    · simp
    · simp [sendWrite_seq]
  | header hd berr body =>
    simp only [World.step, World.registers]
    split
    · simp [receiveHeader_seq]
    · simp
  | headerErr err =>
    simp only [World.step, World.registers]
    split <;> simp
  | terminate =>
    simp only [World.step, World.registers]
    split
    · simp [Client.terminateCalls]
    · simp
  | cancel seq => simp [World.step, World.registers, Client.removeCall]
  | close => simp [World.step, World.registers, Close_seq]

theorem run_seq (errorf : String → String) (w : World) (es : List Event) :
    (w.run errorf es).client.seq % 2 ^ 64
      = (w.client.seq + w.registered errorf es) % 2 ^ 64 := by
  induction es generalizing w with
  | nil => simp [World.run, World.registered]
  | cons e rest ih =>
    have h1 := ih (w.step errorf e)
    have h2 := step_seq errorf w e
    simp only [World.run, List.foldl_cons] at h1 ⊢
    rw [h1, h2]
    simp only [World.registered]
    by_cases hr : w.registers e = true
    · simp only [hr, if_true]
      omega
    · simp only [hr, if_false]
      simp

theorem run_seq_lt (errorf : String → String) (w : World) (es : List Event)
    (h : w.client.seq < 2 ^ 64) : (w.run errorf es).client.seq < 2 ^ 64 := by
  induction es generalizing w with
  | nil => exact h
  | cons e rest ih =>
    apply ih (w.step errorf e)
    rw [step_seq]
    split
    · exact Nat.mod_lt _ (by norm_num)
    · exact h

/-- The sequence number a client holds after `es`: one more than the number of
registrations, as long as that is below `2 ^ 64`. -/
theorem init_run_seq (errorf : String → String) (cc : Codec) (opt : Option) (es : List Event)
    (hk : (World.init cc opt).registered errorf es + 1 < 2 ^ 64) :
    ((World.init cc opt).run errorf es).client.seq
      = (World.init cc opt).registered errorf es + 1 := by
  have h1 := run_seq errorf (World.init cc opt) es
  have h2 := run_seq_lt errorf (World.init cc opt) es (by simp [World.init, newClientCodec])
  rw [Nat.mod_eq_of_lt h2] at h1
  rw [h1]
  have h3 : (World.init cc opt).client.seq = 1 := rfl
  rw [h3, Nat.add_comm 1, Nat.mod_eq_of_lt hk]

/-! ## C1 -/

/-- C1. In every state a client built by `newClientCodec` can reach, no two entries of
the pending map share a `Seq`; and when `k - 1` calls of `registerCall` have returned a
nil error so far and `k` is below `2 ^ 64`, the next call of `registerCall` that returns
a nil error returns `k`, stores `k` in `call.Seq` and inserts the call under key `k`. -/
theorem registerCall_assigns_kth_seq (errorf : String → String) (cc : Codec) (opt : Option)
    (es : List Event) :
    (((World.init cc opt).run errorf es).client.pending.map (fun e => e.2.Seq)).Nodup ∧
    ∀ call : Call,
      (World.init cc opt).registered errorf es + 1 < 2 ^ 64 →
      (((World.init cc opt).run errorf es).client.registerCall call).2.2.2 = none →
      (((World.init cc opt).run errorf es).client.registerCall call).2.2.1
          = (World.init cc opt).registered errorf es + 1 ∧
      (((World.init cc opt).run errorf es).client.registerCall call).2.1
          = { call with Seq := (World.init cc opt).registered errorf es + 1 } ∧
      mapGet (((World.init cc opt).run errorf es).client.registerCall call).1.pending
          ((World.init cc opt).registered errorf es + 1)
          = some { call with Seq := (World.init cc opt).registered errorf es + 1 } ∧
      ((((World.init cc opt).run errorf es).client.registerCall call).1.pending.map
          (fun e => e.2.Seq)).Nodup := by
  have hok := run_pendingOK errorf (World.init cc opt) es (newClientCodec_pendingOK cc opt)
  have key : ∀ c : Client, c.pendingOK → (c.pending.map (fun e => e.2.Seq)).Nodup := by
    intro c hc
    have : c.pending.map (fun e => e.2.Seq) = c.pending.map Prod.fst :=
      List.map_congr_left (fun e he => hc.1 e he)
    rw [this]
    exact hc.2
  refine ⟨key _ hok, ?_⟩
  intro call hk hsucc
  have hseq := init_run_seq errorf cc opt es hk
  have hok2 := registerCall_pendingOK _ call hok
  refine ⟨?_, ?_, ?_, key _ hok2⟩
  all_goals
    revert hsucc
    unfold Client.registerCall
    split
    · intro hsucc
      simp at hsucc
    · intro _
      simp only [hseq]
      try exact mapGet_mapSet_self _ _ _

/-- C1 at a concrete run: after two registrations, one write error, one reply and a
cancellation, the third registration gets sequence number 3. -/
theorem registerCall_assigns_kth_seq_witness :
    (((World.init { closeErr := none, closed := 0 } DefaultOption).run id
        [Event.go "Foo.Sum" "a" "", Event.written (some "broken pipe"),
         Event.go "Foo.Sum" "b" "", Event.written none,
         Event.cancel 2]).client.registerCall
      { id := 2, Seq := 0, ServiceMethod := "Foo.Sum", Args := "c", Reply := "",
        Error := none }).2.2.1 = 2 + 1 :=
  ((registerCall_assigns_kth_seq id { closeErr := none, closed := 0 } DefaultOption
      [Event.go "Foo.Sum" "a" "", Event.written (some "broken pipe"),
       Event.go "Foo.Sum" "b" "", Event.written none,
       Event.cancel 2]).2
    { id := 2, Seq := 0, ServiceMethod := "Foo.Sum", Args := "c", Reply := "", Error := none }
    (by decide) (by decide)).1

/-! ## What the parts of `send` and `receive` do to the pending map -/

theorem sendRegister_of_unavailable (client : Client) (call : Call)
    (h : (client.closing || client.shutdown) = true) :
    client.sendRegister call = (client, [{ call with Error := some ErrShutdown }], none) := by
  simp [Client.sendRegister, Client.registerCall, h]

theorem sendRegister_of_available (client : Client) (call : Call)
    (h : (client.closing || client.shutdown) = false) :
    client.sendRegister call =
      ({ client with
          pending := mapSet client.pending client.seq { call with Seq := client.seq },
          seq := (client.seq + 1) % 2 ^ 64,
          header := { ServiceMethod := call.ServiceMethod, Seq := client.seq, Error := "" } },
       [], some client.seq) := by
  simp [Client.sendRegister, Client.registerCall, h]

theorem sendWrite_spec (client : Client) (seq : Nat) (werr : GoError) :
    ((client.sendWrite seq werr).1 = client ∧ (client.sendWrite seq werr).2 = []) ∨
    ((client.sendWrite seq werr).1 = (client.removeCall seq).1 ∧
      ((mapGet client.pending seq = none ∧ (client.sendWrite seq werr).2 = []) ∨
       ∃ call c, mapGet client.pending seq = some call ∧
         (client.sendWrite seq werr).2 = [c] ∧ c.id = call.id)) := by
  cases werr with
  | none => left; simp [Client.sendWrite]
  | some err =>
    right
    cases hg : mapGet client.pending seq with
    | none => simp [Client.sendWrite, Client.removeCall, hg]
    | some call => simp [Client.sendWrite, Client.removeCall, hg]

theorem receiveHeader_spec (errorf : String → String) (client : Client) (h : Header)
    (berr : GoError) (body : String) :
    (client.receiveHeader errorf h berr body).1 = (client.removeCall h.Seq).1 ∧
      ((mapGet client.pending h.Seq = none ∧ (client.receiveHeader errorf h berr body).2.1 = []) ∨
       ∃ call c, mapGet client.pending h.Seq = some call ∧
         (client.receiveHeader errorf h berr body).2.1 = [c] ∧ c.id = call.id) := by
  cases hg : mapGet client.pending h.Seq with
  | none => simp [Client.receiveHeader, Client.removeCall, hg]
  | some call =>
    by_cases he : h.Error = ""
    · cases berr <;> simp [Client.receiveHeader, Client.removeCall, hg, he]
    · simp [Client.receiveHeader, Client.removeCall, hg, he]

theorem Close_shutdown (client : Client) : client.Close.1.shutdown = client.shutdown := by
  unfold Client.Close
  split <;> rfl

/-! ## The invariant of the `Done` channels -/

theorem init_Inv (cc : Codec) (opt : Option) : (World.init cc opt).Inv := by
  constructor <;> simp [World.init, newClientCodec]

theorem Inv_remove {w w1 : World} {k : Nat} {d : List Call} (hI : w.Inv)
    (hp : w1.client.pending = mapDelete w.client.pending k)
    (hsd : w1.client.shutdown = w.client.shutdown)
    (hd : w1.delivered = w.delivered ++ d)
    (hdd : d = [] ∨ (w.recv ≠ RecvState.ended ∧
      ∃ call c, mapGet w.client.pending k = some call ∧ d = [c] ∧ c.id = call.id))
    (ha : w1.allocated = w.allocated)
    (hr : w1.recv = RecvState.ended ↔ w.recv = RecvState.ended)
    (hs : w1.sending = none ∨ w1.sending = w.sending) : w1.Inv := by
  have hsub : ∀ e ∈ w1.client.pending, e ∈ w.client.pending ∧ e.1 ≠ k := by
    intro e he
    rw [hp] at he
    exact (mem_mapDelete _ _ e).1 he
  constructor
  · rw [hp]
    exact hI.ids_nodup.sublist (List.Sublist.map _ (List.filter_sublist _))
  · intro e he
    rw [ha]
    exact hI.ids_lt e (hsub e he).1
  · intro c hc
    rw [ha]
    rw [hd, List.mem_append] at hc
    rcases hc with hc | hc
    · exact hI.done_lt c hc
    · rcases hdd with rfl | ⟨_, call, c1, hg, rfl, hid⟩
      · simp at hc
      · simp only [List.mem_singleton] at hc
        rw [hc, hid]
        exact hI.ids_lt _ (mem_of_mapGet _ _ _ hg)
  · rw [hd]
    rcases hdd with rfl | ⟨hlive, call, c1, hg, rfl, hid⟩
    · simpa using hI.done_nodup
    · rw [List.map_append, List.nodup_append]
      refine ⟨hI.done_nodup, by simp, ?_⟩
      intro a ha1 ha2
      simp only [List.map_cons, List.map_nil, List.mem_singleton] at ha2
      rw [ha2, hid] at ha1
      exact hI.fresh hlive _ (mem_of_mapGet _ _ _ hg) ha1
  · intro hlive1 e he
    have hlive : w.recv ≠ RecvState.ended := fun h => hlive1 (hr.2 h)
    rw [hd, List.map_append, List.mem_append]
    rintro (h1 | h1)
    · exact hI.fresh hlive e (hsub e he).1 h1
    · rcases hdd with rfl | ⟨_, call, c1, hg, rfl, hid⟩
      · simp at h1
      · simp only [List.map_cons, List.map_nil, List.mem_singleton] at h1
        have heq := List.inj_on_of_nodup_map hI.ids_nodup (hsub e he).1
          (mem_of_mapGet _ _ _ hg) (by rw [h1, hid])
        exact (hsub e he).2 (by rw [heq])
  · intro h
    rw [hsd]
    exact hI.ended_shutdown (hr.1 h)
  · intro h h1
    rcases hs with hs | hs
    · rw [hs] at h
      simp at h
    · rw [hs] at h
      exact hI.sending_live h (hr.1 h1)

theorem step_Inv (errorf : String → String) (w : World) (e : Event) (hI : w.Inv) :
    (w.step errorf e).Inv := by
  cases e with
  | go serviceMethod args reply =>
    simp only [World.step]
    split
    · exact hI
    · rename_i hs
      by_cases hav : (w.client.closing || w.client.shutdown) = true
      · rw [sendRegister_of_unavailable _ _ hav]
        constructor
        · exact hI.ids_nodup
        · intro e he
          exact Nat.lt_succ_of_lt (hI.ids_lt e he)
        · intro c hc
          simp only [List.mem_append, List.mem_singleton] at hc
          rcases hc with hc | hc
          · exact Nat.lt_succ_of_lt (hI.done_lt c hc)
          · rw [hc]
            exact Nat.lt_succ_self _
        · simp only [List.map_append, List.map_cons, List.map_nil]
          rw [List.nodup_append]
          refine ⟨hI.done_nodup, by simp, ?_⟩
          intro a ha1 ha2
          simp only [List.mem_singleton] at ha2
          obtain ⟨c, hc, hca⟩ := List.mem_map.1 ha1
          have := hI.done_lt c hc
          omega
        · intro hlive e he
          simp only [List.map_append, List.map_cons, List.map_nil, List.mem_append,
            List.mem_singleton]
          rintro (h1 | h1)
          · exact hI.fresh hlive e he h1
          · have := hI.ids_lt e he
            omega
        · exact hI.ended_shutdown
        · intro h
          simp at h
      · have hav2 : (w.client.closing || w.client.shutdown) = false := by
          simpa using hav
        rw [sendRegister_of_available _ _ hav2]
        have hmem : ∀ e ∈ mapSet w.client.pending w.client.seq
            ({ id := w.allocated, Seq := w.client.seq, ServiceMethod := serviceMethod,
               Args := args, Reply := reply, Error := none } : Call),
            e ∈ w.client.pending ∨ e.2.id = w.allocated := by
          intro e he
          rcases (mem_mapSet _ _ _ e).1 he with h1 | h1
          · exact Or.inl h1.1
          · right
            rw [h1]
        constructor
        · show ((mapSet _ _ _).map _).Nodup
          unfold mapSet
          rw [List.map_append, List.nodup_append]
          refine ⟨hI.ids_nodup.sublist (List.Sublist.map _ (List.filter_sublist _)),
            by simp, ?_⟩
          intro a ha1 ha2
          simp only [List.map_cons, List.map_nil, List.mem_singleton] at ha2
          obtain ⟨e, he, hea⟩ := List.mem_map.1 ha1
          have := hI.ids_lt e ((mem_mapDelete _ _ e).1 he).1
          omega
        · intro e he
          rcases hmem e he with h1 | h1
          · exact Nat.lt_succ_of_lt (hI.ids_lt e h1)
          · show e.2.id < w.allocated + 1
            omega
        · intro c hc
          simp only [List.append_nil] at hc
          exact Nat.lt_succ_of_lt (hI.done_lt c hc)
        · simpa using hI.done_nodup
        · intro hlive e he
          simp only [List.append_nil]
          rcases hmem e he with h1 | h1
          · exact hI.fresh hlive e h1
          · intro h2
            obtain ⟨c, hc, hca⟩ := List.mem_map.1 h2
            have := hI.done_lt c hc
            omega
        · exact hI.ended_shutdown
        · intro _ hended
          have := hI.ended_shutdown hended
          simp [this] at hav
  | written werr =>
    simp only [World.step]
    split
    · exact hI
    · rename_i seq hs
      have hlive : w.recv ≠ RecvState.ended := hI.sending_live (by simp [hs])
      rcases sendWrite_spec w.client seq werr with ⟨h1, h2⟩ | ⟨h1, h2⟩
      · rw [h1, h2]
        constructor
        · exact hI.ids_nodup
        · exact hI.ids_lt
        · simpa using hI.done_lt
        · simpa using hI.done_nodup
        · simpa using hI.fresh
        · exact hI.ended_shutdown
        · intro h
          simp at h
      · refine Inv_remove (k := seq) (d := (w.client.sendWrite seq werr).2) hI ?_ ?_ rfl ?_
          rfl Iff.rfl (Or.inl rfl)
        · show (w.client.sendWrite seq werr).1.pending = _
          rw [h1]
          rfl
        · show (w.client.sendWrite seq werr).1.shutdown = _
          rw [h1]
          rfl
        · rcases h2 with ⟨_, h2⟩ | ⟨call, c, hg, h2, hid⟩
          · exact Or.inl h2
          · exact Or.inr ⟨hlive, call, c, hg, h2, hid⟩
  | header hd berr body =>
    simp only [World.step]
    split
    · rename_i hr
      obtain ⟨h1, h2⟩ := receiveHeader_spec errorf w.client hd berr body
      have hlive : w.recv ≠ RecvState.ended := by simp [hr]
      refine Inv_remove (k := hd.Seq) (d := (w.client.receiveHeader errorf hd berr body).2.1)
        hI ?_ ?_ rfl ?_ rfl ?_ (Or.inr rfl)
      · show (w.client.receiveHeader errorf hd berr body).1.pending = _
        rw [h1]
        rfl
      · show (w.client.receiveHeader errorf hd berr body).1.shutdown = _
        rw [h1]
        rfl
      · rcases h2 with ⟨_, h2⟩ | ⟨call, c, hg, h2, hid⟩
        · exact Or.inl h2
        · exact Or.inr ⟨hlive, call, c, hg, h2, hid⟩
      · simp only [hr]
        constructor
        · intro h
          split at h <;> simp at h
        · intro h
          simp at h
    · exact hI
  | headerErr err =>
    simp only [World.step]
    split
    · rename_i hr
      constructor
      · exact hI.ids_nodup
      · exact hI.ids_lt
      · exact hI.done_lt
      · exact hI.done_nodup
      · intro _
        exact hI.fresh (by simp [hr])
      · intro h
        simp at h
      · intro _
        simp
    · exact hI
  | terminate =>
    simp only [World.step]
    split
    · rename_i err hr hs
      have hlive : w.recv ≠ RecvState.ended := by simp [hr]
      have hids : (w.client.pending.map
            (fun e => (e.1, ({ e.2 with Error := some err } : Call)))).map (fun e => e.2.id)
          = w.client.pending.map (fun e => e.2.id) := by
        simp [Function.comp_def]
      have hdone : (w.client.pending.map
            (fun e => ({ e.2 with Error := some err } : Call))).map Call.id
          = w.client.pending.map (fun e => e.2.id) := by
        simp [Function.comp_def]
      constructor
      · show ((w.client.pending.map _).map _).Nodup
        rw [hids]
        exact hI.ids_nodup
      · intro e he
        simp only [Client.terminateCalls, List.mem_map] at he
        obtain ⟨a, ha, rfl⟩ := he
        exact hI.ids_lt a ha
      · intro c hc
        simp only [Client.terminateCalls, List.mem_append, List.mem_map] at hc
        rcases hc with hc | ⟨a, ha, rfl⟩
        · exact hI.done_lt c hc
        · exact hI.ids_lt a ha
      · show ((w.delivered ++ w.client.pending.map _).map Call.id).Nodup
        rw [List.map_append, hdone, List.nodup_append]
        refine ⟨hI.done_nodup, hI.ids_nodup, ?_⟩
        intro a ha1 ha2
        obtain ⟨e, he, hea⟩ := List.mem_map.1 ha2
        exact hI.fresh hlive e he (by rw [hea]; exact ha1)
      · intro h
        simp at h
      · intro _
        rfl
      · intro h
        simp [hs] at h
    · exact hI
  | cancel seq =>
    exact Inv_remove (k := seq) (d := []) hI rfl rfl (by simp [World.step]) (Or.inl rfl) rfl
      Iff.rfl (Or.inr rfl)
  | close =>
    constructor
    · show ((w.client.Close.1.pending).map _).Nodup
      rw [Close_pending]
      exact hI.ids_nodup
    · show ∀ e ∈ w.client.Close.1.pending, _
      rw [Close_pending]
      exact hI.ids_lt
    · exact hI.done_lt
    · exact hI.done_nodup
    · show _ → ∀ e ∈ w.client.Close.1.pending, _
      rw [Close_pending]
      exact hI.fresh
    · show _ → w.client.Close.1.shutdown = true
      rw [Close_shutdown]
      exact hI.ended_shutdown
    · exact hI.sending_live

theorem run_Inv (errorf : String → String) (w : World) (es : List Event) (hI : w.Inv) :
    (w.run errorf es).Inv := by
  induction es generalizing w with
  | nil => exact hI
  | cons e rest ih => exact ih (w.step errorf e) (step_Inv errorf w e hI)

/-! ## A registered call is pending or completed exactly once -/

theorem mapGet_mapDelete_ne {κ β : Type} [DecidableEq κ] (m : List (κ × β)) (k s : κ)
    (h : k ≠ s) : mapGet (mapDelete m k) s = mapGet m s := by
  induction m with
  | nil => rfl
  | cons e rest ih =>
    by_cases he : e.1 = k
    · have hes : ¬ e.1 = s := by rw [he]; exact h
      have hd : mapDelete (e :: rest) k = mapDelete rest k := by simp [mapDelete, he]
      rw [hd, ih]
      simp [mapGet, hes]
    · have hd : mapDelete (e :: rest) k = e :: mapDelete rest k := by simp [mapDelete, he]
      rw [hd]
      simp only [mapGet]
      rw [ih]

theorem mapGet_append_ne {κ β : Type} [DecidableEq κ] (m : List (κ × β)) (k s : κ) (v : β)
    (h : k ≠ s) : mapGet (m ++ [(k, v)]) s = mapGet m s := by
  induction m with
  | nil => simp [mapGet, h]
  | cons e rest ih =>
    by_cases hes : e.1 = s <;> simp [mapGet, hes, ih]

theorem mapGet_mapSet_ne {κ β : Type} [DecidableEq κ] (m : List (κ × β)) (k s : κ) (v : β)
    (h : k ≠ s) : mapGet (mapSet m k v) s = mapGet m s := by
  unfold mapSet
  rw [mapGet_append_ne _ _ _ _ h, mapGet_mapDelete_ne _ _ _ h]

theorem count_single_ne (a b : Nat) (h : a ≠ b) : List.count b [a] = 0 :=
  List.count_eq_zero.2 (by simpa using Ne.symm h)

theorem doneCount_append (w w1 : World) (d : List Call) (id : Nat)
    (h : w1.delivered = w.delivered ++ d) :
    w1.doneCount id = w.doneCount id + (d.map Call.id).count id := by
  simp [World.doneCount, h]

theorem doneCount_le_one (w : World) (hI : w.Inv) (id : Nat) : w.doneCount id ≤ 1 :=
  List.nodup_iff_count_le_one.1 hI.done_nodup id

theorem pendingOrDone_remove {w w1 : World} {k id seq : Nat} {d : List Call} (hI : w.Inv)
    (hI1 : w1.Inv) (ht : w.pendingOrDone id seq)
    (hp : w1.client.pending = mapDelete w.client.pending k)
    (hd : w1.delivered = w.delivered ++ d)
    (hdd : (d = [] ∧ (k = seq → mapGet w.client.pending k = none)) ∨
      ∃ call c, mapGet w.client.pending k = some call ∧ d = [c] ∧ c.id = call.id)
    (hr : w1.recv = RecvState.ended → w.recv = RecvState.ended) :
    w1.pendingOrDone id seq := by
  have hcount := doneCount_append w w1 d id hd
  rcases ht with ⟨hlive, c, hg, hid, h0⟩ | h1
  · rcases hdd with ⟨rfl, hk⟩ | ⟨call, c1, hg1, rfl, hid1⟩
    · left
      have hks : k ≠ seq := by
        intro h
        rw [← h, hk h] at hg
        simp at hg
      refine ⟨fun h => hlive (hr h), c, ?_, hid, ?_⟩
      · rw [hp, mapGet_mapDelete_ne _ _ _ hks]
        exact hg
      · simpa [h0] using hcount
    · by_cases hks : k = seq
      · right
        rw [hks, hg] at hg1
        simp only [Option.some.injEq] at hg1
        have hc1 : c1.id = id := by rw [hid1, ← hg1, hid]
        rw [hcount, h0]
        simp [hc1]
      · left
        refine ⟨fun h => hlive (hr h), c, ?_, hid, ?_⟩
        · rw [hp, mapGet_mapDelete_ne _ _ _ hks]
          exact hg
        · rw [hcount, h0]
          have hne : c1.id ≠ id := by
            intro h
            have heq := List.inj_on_of_nodup_map hI.ids_nodup (mem_of_mapGet _ _ _ hg1)
              (mem_of_mapGet _ _ _ hg) (by show call.id = c.id; rw [← hid1, h, hid])
            exact hks (congrArg Prod.fst heq)
          have hz : (List.map Call.id [c1]).count id = 0 :=
            List.count_eq_zero.2 (by simpa using Ne.symm hne)
          rw [hz]
  · right
    have := doneCount_le_one w1 hI1 id
    omega

theorem step_pendingOrDone (errorf : String → String) (w : World) (e : Event) (id seq : Nat)
    (hI : w.Inv) (ht : w.pendingOrDone id seq) (hne : e ≠ Event.cancel seq)
    (hseq : w.registers e = true → w.client.seq ≠ seq) :
    (w.step errorf e).pendingOrDone id seq := by
  have hI1 := step_Inv errorf w e hI
  cases e with
  | go serviceMethod args reply =>
    simp only [World.step] at hI1 ⊢
    split
    · exact ht
    · rename_i hs
      simp only [hs] at hI1
      by_cases hav : (w.client.closing || w.client.shutdown) = true
      · rw [sendRegister_of_unavailable _ _ hav] at hI1 ⊢
        rcases ht with ⟨hlive, c, hg, hid, h0⟩ | h1
        · left
          refine ⟨hlive, c, hg, hid, ?_⟩
          have hlt := hI.ids_lt _ (mem_of_mapGet _ _ _ hg)
          have hne2 : w.allocated ≠ id := by
            rw [← hid]
            exact Nat.ne_of_gt hlt
          simp only [World.doneCount] at h0 ⊢
          simp only [List.map_append, List.count_append, h0, List.map_cons, List.map_nil]
          rw [Nat.zero_add]
          exact count_single_ne _ _ hne2
        · right
          have h2 := doneCount_le_one _ hI1 id
          simp only [World.doneCount] at h1 h2 ⊢
          simp only [List.map_append, List.count_append] at h2 ⊢
          omega
      · have hav2 : (w.client.closing || w.client.shutdown) = false := by
          simpa using hav
        have hreg : w.registers (Event.go serviceMethod args reply) = true := by
          simp [World.registers, hs, hav2]
        rw [sendRegister_of_available _ _ hav2]
        rcases ht with ⟨hlive, c, hg, hid, h0⟩ | h1
        · left
          refine ⟨hlive, c, ?_, hid, ?_⟩
          · show mapGet (mapSet _ _ _) seq = some c
            rw [mapGet_mapSet_ne _ _ _ _ (hseq hreg)]
            exact hg
          · simpa [World.doneCount] using h0
        · right
          simpa [World.doneCount] using h1
  | written werr =>
    simp only [World.step] at hI1 ⊢
    split
    · exact ht
    · rename_i k hs
      simp only [hs] at hI1
      rcases sendWrite_spec w.client k werr with ⟨h1, h2⟩ | ⟨h1, h2⟩
      · rw [h1, h2]
        rcases ht with ⟨hlive, c, hg, hid, h0⟩ | h1
        · left
          exact ⟨hlive, c, hg, hid, by simpa [World.doneCount] using h0⟩
        · right
          simpa [World.doneCount] using h1
      · refine pendingOrDone_remove (k := k) (d := (w.client.sendWrite k werr).2) hI hI1 ht
          ?_ rfl ?_ (fun h => h)
        · show (w.client.sendWrite k werr).1.pending = _
          rw [h1]
          rfl
        · rcases h2 with ⟨h3, h2⟩ | ⟨call, c, hg, h2, hid⟩
          · exact Or.inl ⟨h2, fun _ => h3⟩
          · exact Or.inr ⟨call, c, hg, h2, hid⟩
  | header hd berr body =>
    simp only [World.step] at hI1 ⊢
    split
    · rename_i hr
      simp only [hr] at hI1
      obtain ⟨h1, h2⟩ := receiveHeader_spec errorf w.client hd berr body
      refine pendingOrDone_remove (k := hd.Seq)
        (d := (w.client.receiveHeader errorf hd berr body).2.1) hI hI1 ht ?_ rfl ?_ ?_
      · show (w.client.receiveHeader errorf hd berr body).1.pending = _
        rw [h1]
        rfl
      · rcases h2 with ⟨h3, h2⟩ | ⟨call, c, hg, h2, hid⟩
        · exact Or.inl ⟨h2, fun _ => h3⟩
        · exact Or.inr ⟨call, c, hg, h2, hid⟩
      · intro h
        split at h <;> simp at h
    · exact ht
  | headerErr err =>
    simp only [World.step]
    split
    · rcases ht with ⟨hlive, c, hg, hid, h0⟩ | h1
      · left
        exact ⟨by simp, c, hg, hid, h0⟩
      · right
        exact h1
    · exact ht
  | terminate =>
    simp only [World.step] at hI1 ⊢
    split
    · rename_i err hr hs
      right
      rcases ht with ⟨hlive, c, hg, hid, h0⟩ | h1
      · have hmem : id ∈ w.client.pending.map (fun e => e.2.id) :=
          List.mem_map.2 ⟨(seq, c), mem_of_mapGet _ _ _ hg, hid⟩
        have hone := List.count_eq_one_of_mem hI.ids_nodup hmem
        simp only [World.doneCount] at h0 ⊢
        simp only [Client.terminateCalls, List.map_append, List.count_append, h0, List.map_map,
          Function.comp_def]
        simpa using hone
      · simp only [hr, hs] at hI1
        have h2 := doneCount_le_one _ hI1 id
        simp only [World.doneCount] at h1 h2 ⊢
        simp only [List.map_append, List.count_append] at h2 ⊢
        omega
    · exact ht
  | cancel k =>
    have hks : k ≠ seq := fun h => hne (by rw [h])
    exact pendingOrDone_remove (k := k) (d := []) hI hI1 ht rfl (by simp [World.step])
      (Or.inl ⟨rfl, fun h => absurd h hks⟩) (fun h => h)
  | close =>
    rcases ht with ⟨hlive, c, hg, hid, h0⟩ | h1
    · left
      refine ⟨hlive, c, ?_, hid, h0⟩
      show mapGet w.client.Close.1.pending seq = some c
      rw [Close_pending]
      exact hg
    · right
      exact h1

theorem run_pendingOrDone (errorf : String → String) (es : List Event) (w : World)
    (id seq m : Nat) (hI : w.Inv) (ht : w.pendingOrDone id seq)
    (hm : m + es.length < 2 ^ 64 - 1) (hseq : w.client.seq = (seq + 1 + m) % 2 ^ 64)
    (hnc : Event.cancel seq ∉ es) : (w.run errorf es).pendingOrDone id seq := by
  induction es generalizing w m with
  | nil => exact ht
  | cons e rest ih =>
    simp only [List.length_cons] at hm
    simp only [List.mem_cons, not_or] at hnc
    have hstep := step_pendingOrDone errorf w e id seq hI ht (fun h => hnc.1 h.symm)
      (by intro _; rw [hseq]; omega)
    have hseq1 := step_seq errorf w e
    by_cases hr : w.registers e = true
    · simp only [hr, if_true] at hseq1
      refine ih (w.step errorf e) (m + 1) (step_Inv errorf w e hI) hstep (by omega) ?_ hnc.2
      rw [hseq1, hseq]
      omega
    · have hr1 : w.registers e = false := by simpa using hr
      rw [hr1] at hseq1
      simp only [Bool.false_eq_true, if_false] at hseq1
      refine ih (w.step errorf e) m (step_Inv errorf w e hI) hstep (by omega) ?_ hnc.2
      rw [hseq1, hseq]

/-! ## A call whose entry was removed by cancellation is never completed -/

theorem step_gone (errorf : String → String) (w : World) (e : Event) (id : Nat)
    (hlt : id < w.allocated) (hp : ∀ x ∈ w.client.pending, x.2.id ≠ id)
    (h0 : w.doneCount id = 0) :
    id < (w.step errorf e).allocated ∧ (∀ x ∈ (w.step errorf e).client.pending, x.2.id ≠ id) ∧
      (w.step errorf e).doneCount id = 0 := by
  have hrem : ∀ (w1 : World) (k : Nat) (d : List Call),
      w1.client.pending = mapDelete w.client.pending k → w1.delivered = w.delivered ++ d →
      (d = [] ∨ ∃ call c, mapGet w.client.pending k = some call ∧ d = [c] ∧ c.id = call.id) →
      w1.allocated = w.allocated →
      id < w1.allocated ∧ (∀ x ∈ w1.client.pending, x.2.id ≠ id) ∧ w1.doneCount id = 0 := by
    intro w1 k d hp1 hd hdd ha
    refine ⟨by rw [ha]; exact hlt, ?_, ?_⟩
    · intro x hx
      rw [hp1] at hx
      exact hp x ((mem_mapDelete _ _ x).1 hx).1
    · rw [doneCount_append w w1 d id hd, h0]
      rcases hdd with rfl | ⟨call, c, hg, rfl, hid⟩
      · rfl
      · have hne : c.id ≠ id := by
          rw [hid]
          exact hp _ (mem_of_mapGet _ _ _ hg)
        rw [Nat.zero_add]
        exact count_single_ne _ _ hne
  cases e with
  | go serviceMethod args reply =>
    simp only [World.step]
    split
    · exact ⟨hlt, hp, h0⟩
    · by_cases hav : (w.client.closing || w.client.shutdown) = true
      · rw [sendRegister_of_unavailable _ _ hav]
        refine ⟨Nat.lt_succ_of_lt hlt, hp, ?_⟩
        simp only [World.doneCount] at h0 ⊢
        simp only [List.map_append, List.count_append, h0, List.map_cons, List.map_nil]
        rw [Nat.zero_add]
        exact count_single_ne _ _ (Nat.ne_of_gt hlt)
      · have hav2 : (w.client.closing || w.client.shutdown) = false := by
          simpa using hav
        rw [sendRegister_of_available _ _ hav2]
        refine ⟨Nat.lt_succ_of_lt hlt, ?_, by simpa [World.doneCount] using h0⟩
        intro x hx
        rcases (mem_mapSet _ _ _ x).1 hx with h1 | h1
        · exact hp x h1.1
        · rw [h1]
          exact Nat.ne_of_gt hlt
  | written werr =>
    simp only [World.step]
    split
    · exact ⟨hlt, hp, h0⟩
    · rename_i k hs
      rcases sendWrite_spec w.client k werr with ⟨h1, h2⟩ | ⟨h1, h2⟩
      · rw [h1, h2]
        exact ⟨hlt, hp, by simpa [World.doneCount] using h0⟩
      · refine hrem _ k (w.client.sendWrite k werr).2 ?_ rfl ?_ rfl
        · show (w.client.sendWrite k werr).1.pending = _
          rw [h1]
          rfl
        · rcases h2 with ⟨_, h2⟩ | h2
          · exact Or.inl h2
          · exact Or.inr h2
  | header hd berr body =>
    simp only [World.step]
    split
    · obtain ⟨h1, h2⟩ := receiveHeader_spec errorf w.client hd berr body
      refine hrem _ hd.Seq (w.client.receiveHeader errorf hd berr body).2.1 ?_ rfl ?_ rfl
      · show (w.client.receiveHeader errorf hd berr body).1.pending = _
        rw [h1]
        rfl
      · rcases h2 with ⟨_, h2⟩ | h2
        · exact Or.inl h2
        · exact Or.inr h2
    · exact ⟨hlt, hp, h0⟩
  | headerErr err =>
    simp only [World.step]
    split <;> exact ⟨hlt, hp, h0⟩
  | terminate =>
    simp only [World.step]
    split
    · refine ⟨hlt, ?_, ?_⟩
      · intro x hx
        simp only [Client.terminateCalls, List.mem_map] at hx
        obtain ⟨a, ha, rfl⟩ := hx
        exact hp a ha
      · simp only [World.doneCount] at h0 ⊢
        simp only [Client.terminateCalls, List.map_append, List.count_append, h0, List.map_map,
          Nat.zero_add]
        apply List.count_eq_zero.2
        intro hmem
        obtain ⟨a, ha, hid⟩ := List.mem_map.1 hmem
        exact hp a ha hid
    · exact ⟨hlt, hp, h0⟩
  | cancel k => exact hrem _ k [] rfl (by simp [World.step]) (Or.inl rfl) rfl
  | close =>
    refine ⟨hlt, ?_, h0⟩
    show ∀ x ∈ w.client.Close.1.pending, _
    rw [Close_pending]
    exact hp

theorem run_gone (errorf : String → String) (es : List Event) (w : World) (id : Nat)
    (hlt : id < w.allocated) (hp : ∀ x ∈ w.client.pending, x.2.id ≠ id)
    (h0 : w.doneCount id = 0) : (w.run errorf es).doneCount id = 0 := by
  induction es generalizing w with
  | nil => exact h0
  | cons e rest ih =>
    obtain ⟨h1, h2, h3⟩ := step_gone errorf w e id hlt hp h0
    exact ih (w.step errorf e) h1 h2 h3

theorem run_append (errorf : String → String) (w : World) (es fs : List Event) :
    w.run errorf (es ++ fs) = (w.run errorf es).run errorf fs := by
  simp [World.run, List.foldl_append]

theorem run_cons (errorf : String → String) (w : World) (e : Event) (es : List Event) :
    w.run errorf (e :: es) = (w.step errorf e).run errorf es := rfl

/-! ## C2 -/

/-- C2 (as amended). For a client built by `newClientCodec` and every interleaving of its
goroutines: (1) no call ever receives more than one value on its `Done` channel; (2) a
call that was registered and whose `Seq` is not cancelled afterwards is, at every later
moment, either still pending with `receive` running and nothing delivered, or has
received exactly one value: this covers a reply, a server error in the header, a write
error and `terminateCalls`; (3) a call whose pending entry is removed by the cancellation
branch of `Call` while `receive` has not run `terminateCalls` never receives a value. -/
theorem done_once_unless_cancelled (errorf : String → String) (cc : Codec) (opt : Option) :
    (∀ (es : List Event) (id : Nat),
      ((World.init cc opt).run errorf es).doneCount id ≤ 1) ∧
    (∀ (pre post : List Event) (serviceMethod args reply : String),
      ((World.init cc opt).run errorf pre).registers (Event.go serviceMethod args reply) = true →
      post.length < 2 ^ 64 - 1 →
      Event.cancel ((World.init cc opt).run errorf pre).client.seq ∉ post →
      ((World.init cc opt).run errorf
          (pre ++ Event.go serviceMethod args reply :: post)).pendingOrDone
        ((World.init cc opt).run errorf pre).allocated
        ((World.init cc opt).run errorf pre).client.seq) ∧
    (∀ (pre post : List Event) (seq : Nat) (call : Call),
      ((World.init cc opt).run errorf pre).recv ≠ RecvState.ended →
      mapGet ((World.init cc opt).run errorf pre).client.pending seq = some call →
      ((World.init cc opt).run errorf (pre ++ Event.cancel seq :: post)).doneCount call.id
        = 0) := by
  refine ⟨?_, ?_, ?_⟩
  · intro es id
    exact doneCount_le_one _ (run_Inv errorf _ es (init_Inv cc opt)) id
  · intro pre post serviceMethod args reply hreg hlen hnc
    have hI := run_Inv errorf _ pre (init_Inv cc opt)
    rw [run_append, run_cons]
    generalize (World.init cc opt).run errorf pre = w at hI hreg hnc ⊢
    have hI1 := step_Inv errorf w (Event.go serviceMethod args reply) hI
    have hseq1 := step_seq errorf w (Event.go serviceMethod args reply)
    rw [hreg] at hseq1
    simp only [if_true] at hseq1
    refine run_pendingOrDone errorf post _ w.allocated w.client.seq 0 hI1 ?_ (by omega)
      (by rw [hseq1]) hnc
    simp only [World.registers, Bool.and_eq_true, Option.isNone_iff_eq_none,
      Bool.not_eq_true'] at hreg
    have hfresh : w.doneCount w.allocated = 0 := by
      apply List.count_eq_zero.2
      intro hmem
      obtain ⟨c, hc, hid⟩ := List.mem_map.1 hmem
      have := hI.done_lt c hc
      omega
    left
    simp only [World.step, hreg.1]
    rw [sendRegister_of_available _ _ hreg.2]
    refine ⟨?_, _, mapGet_mapSet_self _ _ _, rfl, by simpa [World.doneCount] using hfresh⟩
    intro hended
    have := hI.ended_shutdown hended
    simp [this] at hreg
  · intro pre post seq call hlive hg
    have hI := run_Inv errorf _ pre (init_Inv cc opt)
    rw [run_append, run_cons]
    generalize (World.init cc opt).run errorf pre = w at hI hlive hg ⊢
    have hmem := mem_of_mapGet _ _ _ hg
    apply run_gone
    · exact hI.ids_lt _ hmem
    · intro x hx hid
      have hx1 := (mem_mapDelete _ _ x).1 hx
      have heq := List.inj_on_of_nodup_map hI.ids_nodup hx1.1 hmem hid
      exact hx1.2 (congrArg Prod.fst heq)
    · apply List.count_eq_zero.2
      exact hI.fresh hlive _ hmem

/-- C2 as stated fails: a call is registered under `Seq` 1 and written, `Call` takes its
cancellation branch, the response arrives and `receive` later ends with `terminateCalls`;
nothing is left pending and the call has received no value on its `Done` channel. -/
theorem done_once_counterexample :
    ((World.init { closeErr := none, closed := 0 } DefaultOption).run id []).registers
        (Event.go "Foo.Sum" "args" "") = true ∧
    ((World.init { closeErr := none, closed := 0 } DefaultOption).run id
      [Event.go "Foo.Sum" "args" "", Event.written none, Event.cancel 1,
       Event.header { ServiceMethod := "Foo.Sum", Seq := 1, Error := "" } none "3",
       Event.headerErr "EOF", Event.terminate]).client.pending = [] ∧
    ((World.init { closeErr := none, closed := 0 } DefaultOption).run id
      [Event.go "Foo.Sum" "args" "", Event.written none, Event.cancel 1,
       Event.header { ServiceMethod := "Foo.Sum", Seq := 1, Error := "" } none "3",
       Event.headerErr "EOF", Event.terminate]).recv = RecvState.ended ∧
    ¬ ((World.init { closeErr := none, closed := 0 } DefaultOption).run id
      [Event.go "Foo.Sum" "args" "", Event.written none, Event.cancel 1,
       Event.header { ServiceMethod := "Foo.Sum", Seq := 1, Error := "" } none "3",
       Event.headerErr "EOF", Event.terminate]).doneCount 0 = 1 := by
  decide

/-- C2 (as amended) at a concrete run: a call registered under `Seq` 1 whose reply
arrives has received exactly one value once `receive` has ended. -/
theorem done_once_unless_cancelled_witness :
    ((World.init { closeErr := none, closed := 0 } DefaultOption).run id
      ([] ++ Event.go "Foo.Sum" "args" "" ::
        [Event.written none,
         Event.header { ServiceMethod := "Foo.Sum", Seq := 1, Error := "" } none "3",
         Event.headerErr "EOF", Event.terminate])).pendingOrDone 0 1 :=
  (done_once_unless_cancelled id { closeErr := none, closed := 0 } DefaultOption).2.1 []
    [Event.written none,
     Event.header { ServiceMethod := "Foo.Sum", Seq := 1, Error := "" } none "3",
     Event.headerErr "EOF", Event.terminate] "Foo.Sum" "args" "" (by decide) (by decide)
    (by decide)

/-! ## C3 -/

/-- C3. `IsAvailable` returns true iff neither `closing` nor `shutdown` is set, and it
returns false after `Close`; a `registerCall` made while `closing` or `shutdown` is set
returns `(0, ErrShutdown)` and leaves the client, in particular `seq` and the pending
map, unchanged, and `send` then completes the call with `ErrShutdown` whatever `Write`
would have returned. -/
theorem closed_client_quiescent (client : Client) (call : Call) (werr : GoError) :
    (client.IsAvailable = true ↔ (client.closing = false ∧ client.shutdown = false)) ∧
    client.Close.1.IsAvailable = false ∧
    ((client.closing = true ∨ client.shutdown = true) →
      (client.registerCall call).2.2 = (0, some ErrShutdown) ∧
      (client.registerCall call).1 = client ∧
      (client.registerCall call).1.seq = client.seq ∧
      (client.registerCall call).1.pending = client.pending ∧
      client.send call werr = (client, [{ call with Error := some ErrShutdown }])) := by
  refine ⟨?_, ?_, ?_⟩
  · cases hc : client.closing <;> cases hs : client.shutdown <;>
      simp [Client.IsAvailable, hc, hs]
  · unfold Client.Close
    split
    · rename_i hc
      simp [Client.IsAvailable, hc]
    · simp [Client.IsAvailable]
  · intro h
    have hav : (client.closing || client.shutdown) = true := by
      rcases h with h | h <;> simp [h]
    have hreg : client.registerCall call = (client, call, 0, some ErrShutdown) := by
      simp [Client.registerCall, hav]
    refine ⟨by rw [hreg], by rw [hreg], by rw [hreg], by rw [hreg], ?_⟩
    simp [Client.send, sendRegister_of_unavailable _ _ hav]

/-- C3 at a concrete client: after `Close`, a call sent on a new client is completed
with `ErrShutdown`. -/
theorem closed_client_quiescent_witness :
    (newClientCodec { closeErr := none, closed := 0 } DefaultOption).Close.1.send
        { id := 0, Seq := 0, ServiceMethod := "Foo.Sum", Args := "a", Reply := "",
          Error := none } none
      = ((newClientCodec { closeErr := none, closed := 0 } DefaultOption).Close.1,
         [{ id := 0, Seq := 0, ServiceMethod := "Foo.Sum", Args := "a", Reply := "",
            Error := some ErrShutdown }]) :=
  ((closed_client_quiescent
      (newClientCodec { closeErr := none, closed := 0 } DefaultOption).Close.1
      { id := 0, Seq := 0, ServiceMethod := "Foo.Sum", Args := "a", Reply := "",
        Error := none } none).2.2 (Or.inl (by decide))).2.2.2.2

/-! ## C4 -/

/-- C4 as stated fails: on a new client whose codec closes without error the first `Close`
returns nil and the second returns `ErrShutdown`. -/
theorem Close_twice_counterexample :
    (newClientCodec { closeErr := none, closed := 0 } DefaultOption).cc.closeErr = none ∧
    (newClientCodec { closeErr := none, closed := 0 } DefaultOption).Close.2 = none ∧
    (newClientCodec { closeErr := none, closed := 0 } DefaultOption).Close.1.Close.2
      = some ErrShutdown ∧
    (newClientCodec { closeErr := none, closed := 0 } DefaultOption).Close.1.Close.2
      ≠ (newClientCodec { closeErr := none, closed := 0 } DefaultOption).Close.2 := by
  decide

/-- C4 (as amended). For every client, `Close` followed by a second `Close` leaves the
same client state as a single `Close`, with `closing` set, and the second `Close` returns
`ErrShutdown`; when the client was not closing, the single `Close` returns what the codec
returns (nil for a codec that closes without error) and the codec has been closed exactly
once, also after the second `Close`. -/
theorem Close_twice (client : Client) :
    client.Close.1.Close.1 = client.Close.1 ∧
    client.Close.1.closing = true ∧
    client.Close.1.Close.2 = some ErrShutdown ∧
    (client.closing = false →
      client.Close.2 = client.cc.closeErr ∧
      client.Close.1.cc.closed = client.cc.closed + 1 ∧
      client.Close.1.Close.1.cc.closed = client.cc.closed + 1) := by
  have hclosing : client.Close.1.closing = true := by
    unfold Client.Close
    split
    · rename_i hc
      exact hc
    · rfl
  have hsecond : client.Close.1.Close = (client.Close.1, some ErrShutdown) := by
    generalize client.Close.1 = c at hclosing
    simp [Client.Close, hclosing]
  refine ⟨by rw [hsecond], hclosing, by rw [hsecond], ?_⟩
  intro hc
  rw [hsecond]
  simp [Client.Close, hc, Codec.Close]

/-- C4 (as amended) at a concrete client whose codec closes without error. -/
theorem Close_twice_witness :
    (newClientCodec { closeErr := none, closed := 0 } DefaultOption).Close.2 = none ∧
    (newClientCodec { closeErr := none, closed := 0 } DefaultOption).Close.1.cc.closed
      = 0 + 1 ∧
    (newClientCodec { closeErr := none, closed := 0 } DefaultOption).Close.1.Close.1.cc.closed
      = 0 + 1 :=
  (Close_twice (newClientCodec { closeErr := none, closed := 0 } DefaultOption)).2.2.2
    (by decide)

/-! ## C5 -/

/-- C5 (the code at the failing input). A server without services reads the header of a
request for `Foo.Sum` whose body is ready to be read: `readRequest` returns after the
failed lookup without a call of `ReadBody`, the loop writes the error response and calls
`ReadHeader` again, so the log is not framed and the body is still unread. -/
theorem serveCodec_skips_body_after_failed_lookup :
    (NewServer.serveCodec
        { handshake := none,
          headers := [HeaderRead.ok { ServiceMethod := "Foo.Sum", Seq := 1, Error := "" }],
          bodies := [(none, "args")], log := [] } DefaultOption).conn.log
      = [ConnOp.ReadHeader true,
         ConnOp.Write { ServiceMethod := "Foo.Sum", Seq := 1,
                        Error := "rpc server: can't find service Foo" } Body.invalidRequest,
         ConnOp.ReadHeader false, ConnOp.Close] ∧
    (NewServer.serveCodec
        { handshake := none,
          headers := [HeaderRead.ok { ServiceMethod := "Foo.Sum", Seq := 1, Error := "" }],
          bodies := [(none, "args")], log := [] } DefaultOption).conn.bodies
      = [(none, "args")] ∧
    framed (NewServer.serveCodec
        { handshake := none,
          headers := [HeaderRead.ok { ServiceMethod := "Foo.Sum", Seq := 1, Error := "" }],
          bodies := [(none, "args")], log := [] } DefaultOption).conn.log = false := by
  decide

/-! ## C6 -/

/-- C6 (the code at the failing inputs). Whenever the first element of the argument list
is nil, `parseOptions` and `parseOption` return the default option and a nil error,
whatever follows the nil and however long the list is. -/
theorem parseOptions_nil_first (rest : List (Ptr Option)) :
    parseOptions (none :: rest) = (some DefaultOption, none) ∧
    parseOption (none :: rest) = (some DefaultOption, none) :=
  ⟨rfl, rfl⟩

/-! ## C7 -/

/-- C7. For a single non-nil option `o`, `parseOptions` returns `o` with `MagicNumber`
set to `0x3b3f5c`, `CodecType` replaced by `"application/gob"` when it is empty, and both
timeouts as in `o`; for no option and for a single nil it returns the default option
`(0x3b3f5c, "application/gob", 10s, 0)`. -/
theorem parseOptions_single (o : Option) :
    parseOptions [some o]
      = (some { MagicNumber := 0x3b3f5c,
                CodecType := if o.CodecType = "" then "application/gob" else o.CodecType,
                ConnectTimeout := o.ConnectTimeout,
                HandleTimeout := o.HandleTimeout }, none) ∧
    parseOptions []
      = (some { MagicNumber := 0x3b3f5c, CodecType := "application/gob",
                ConnectTimeout := 10 * 1000000000, HandleTimeout := 0 }, none) ∧
    parseOptions [none]
      = (some { MagicNumber := 0x3b3f5c, CodecType := "application/gob",
                ConnectTimeout := 10 * 1000000000, HandleTimeout := 0 }, none) := by
  refine ⟨?_, by decide, by decide⟩
  by_cases h : o.CodecType = ""
  · simp [parseOptions, h, DefaultOption, MagicNumber, GobType]
  · simp [parseOptions, h, DefaultOption, MagicNumber]

/-! ## C8 -/

theorem readRequestHeader_log (server : Server) (cc : Conn) :
    ∃ ok, (server.readRequestHeader cc).1.log = cc.log ++ [ConnOp.ReadHeader ok] := by
  unfold Server.readRequestHeader Conn.ReadHeader
  cases cc.headers with
  | nil => exact ⟨false, rfl⟩
  | cons x rest =>
    cases x with
    | ok h => exact ⟨true, rfl⟩
    | err e => exact ⟨false, rfl⟩

theorem ReadBody_log (cc : Conn) :
    ∃ ok, cc.ReadBody.1.log = cc.log ++ [ConnOp.ReadBody ok] := by
  unfold Conn.ReadBody
  cases cc.bodies with
  | nil => exact ⟨false, rfl⟩
  | cons x rest =>
    obtain ⟨e, v⟩ := x
    cases e with
    | none => exact ⟨true, rfl⟩
    | some e => exact ⟨false, rfl⟩

theorem readRequest_log (server : Server) (cc : Conn) :
    ∃ ok rest, (server.readRequest cc).conn.log = cc.log ++ ConnOp.ReadHeader ok :: rest := by
  obtain ⟨ok, hh⟩ := readRequestHeader_log server cc
  unfold Server.readRequest
  split
  · rename_i cc1 err heq
    rw [heq] at hh
    exact ⟨ok, [], by simpa [Outcome.conn] using hh⟩
  · rename_i cc1 h err heq
    rw [heq] at hh
    simp only at hh
    split
    · exact ⟨ok, [], by simpa [Outcome.conn] using hh⟩
    · exact ⟨ok, [], by simpa [Outcome.conn] using hh⟩
    · split
      · exact ⟨ok, [], by simpa [Outcome.conn] using hh⟩
      · obtain ⟨okb, hb⟩ := ReadBody_log cc1
        split
        · rename_i cc2 e v hrb
          rw [hrb] at hb
          simp only at hb
          exact ⟨ok, [ConnOp.ReadBody okb], by simp [Outcome.conn, hb, hh]⟩
        · rename_i cc2 v hrb
          rw [hrb] at hb
          simp only at hb
          exact ⟨ok, [ConnOp.ReadBody okb], by simp [Outcome.conn, hb, hh]⟩

theorem serveLoop_log (server : Server) (hs : List HeaderRead) (cc : Conn)
    (handled : List request) :
    ∃ ok rest, (server.serveLoop hs cc handled).conn.log
      = cc.log ++ ConnOp.ReadHeader ok :: rest := by
  induction hs generalizing cc handled with
  | nil =>
    obtain ⟨ok, rest, h⟩ := readRequest_log server { cc with headers := [] }
    unfold Server.serveLoop
    split
    · rename_i cc1 heq
      rw [heq] at h
      exact ⟨ok, rest, h⟩
    · rename_i cc1 r e heq
      rw [heq] at h
      exact ⟨ok, rest, h⟩
  | cons x tl ih =>
    obtain ⟨ok, rest, h⟩ := readRequest_log server { cc with headers := x :: tl }
    unfold Server.serveLoop
    split
    · rename_i cc1 heq
      rw [heq] at h
      exact ⟨ok, rest, h⟩
    · rename_i cc1 e heq
      rw [heq] at h
      exact ⟨ok, rest, h⟩
    · rename_i cc1 req err heq
      rw [heq] at h
      obtain ⟨ok2, rest2, h2⟩ := ih
        (server.sendResponse cc1 { req.h with Error := err } Body.invalidRequest) handled
      refine ⟨ok, rest ++ ConnOp.Write { req.h with Error := err } Body.invalidRequest ::
        ConnOp.ReadHeader ok2 :: rest2, ?_⟩
      rw [h2]
      simp only [Outcome.conn] at h
      simp [Server.sendResponse, Conn.Write, h]
    · rename_i cc1 req heq
      rw [heq] at h
      obtain ⟨ok2, rest2, h2⟩ := ih cc1 (handled ++ [req])
      refine ⟨ok, rest ++ ConnOp.ReadHeader ok2 :: rest2, ?_⟩
      rw [h2]
      simp only [Outcome.conn] at h
      simp [h]

theorem serveCodec_log (server : Server) (cc : Conn) (opt : Option) :
    ∃ ok rest, (server.serveCodec cc opt).conn.log = cc.log ++ ConnOp.ReadHeader ok :: rest := by
  obtain ⟨ok, rest, h⟩ := serveLoop_log server cc.headers cc []
  unfold Server.serveCodec
  split
  · rename_i cc1 heq
    rw [heq] at h
    exact ⟨ok, rest, h⟩
  · rename_i cc1 handled heq
    rw [heq] at h
    refine ⟨ok, rest ++ [ConnOp.Close], ?_⟩
    simp only [Outcome.conn] at h
    simp [Outcome.conn, Conn.Close, h]

theorem NewCodecFuncMap_get (t : String) :
    mapGet NewCodecFuncMap t = if t = "application/gob" then some NewGobCodec else none := by
  by_cases h : t = "application/gob"
  · simp [NewCodecFuncMap, mapGet, GobType, h]
  · have h2 : ¬ "application/gob" = t := fun h3 => h h3.symm
    simp [NewCodecFuncMap, mapGet, GobType, h, h2]

/-- C8. `ServeConn` enters the serve loop (the first call after decoding the handshake is
a `ReadHeader`) iff the handshake decodes to an `Option` whose `MagicNumber` is `0x3b3f5c`
and whose `CodecType` is `"application/gob"`, the only key of `NewCodecFuncMap`
(`"application/json"` has no constructor); then it runs `serveCodec` on the gob codec and
closes the connection. In every other case it returns after the single call `Close`:
nothing is written and nothing else is read. -/
theorem ServeConn_handshake (server : Server) (conn : Conn) :
    ((∃ ok rest, (server.ServeConn conn).conn.log
        = conn.log ++ ConnOp.DecodeOption :: ConnOp.ReadHeader ok :: rest) ↔
      ∃ opt, conn.handshake = some opt ∧ opt.MagicNumber = 0x3b3f5c ∧
        opt.CodecType = "application/gob") ∧
    (∀ opt, conn.handshake = some opt → opt.MagicNumber = 0x3b3f5c →
        opt.CodecType = "application/gob" →
      server.ServeConn conn =
        match server.serveCodec
            (NewGobCodec { conn with log := conn.log ++ [ConnOp.DecodeOption] }) opt with
        | Outcome.panics cc => Outcome.panics cc
        | Outcome.returns (cc, handled) => Outcome.returns (cc.Close, handled)) ∧
    ((¬ ∃ opt, conn.handshake = some opt ∧ opt.MagicNumber = 0x3b3f5c ∧
        opt.CodecType = "application/gob") →
      server.ServeConn conn = Outcome.returns
        ({ conn with log := conn.log ++ [ConnOp.DecodeOption, ConnOp.Close] }, [])) ∧
    mapGet NewCodecFuncMap JsonType = none ∧
    (∀ t, (∃ f, mapGet NewCodecFuncMap t = some f) ↔ t = "application/gob") := by
  have hacc : ∀ opt, conn.handshake = some opt → opt.MagicNumber = 0x3b3f5c →
      opt.CodecType = "application/gob" →
      server.ServeConn conn =
        match server.serveCodec
            (NewGobCodec { conn with log := conn.log ++ [ConnOp.DecodeOption] }) opt with
        | Outcome.panics cc => Outcome.panics cc
        | Outcome.returns (cc, handled) => Outcome.returns (cc.Close, handled) := by
    intro opt h1 h2 h3
    simp [Server.ServeConn, h1, h2, MagicNumber, NewCodecFuncMap_get, h3]
  have hrej : (¬ ∃ opt, conn.handshake = some opt ∧ opt.MagicNumber = 0x3b3f5c ∧
        opt.CodecType = "application/gob") →
      server.ServeConn conn = Outcome.returns
        ({ conn with log := conn.log ++ [ConnOp.DecodeOption, ConnOp.Close] }, []) := by
    intro hno
    cases hh : conn.handshake with
    | none => simp [Server.ServeConn, hh, Conn.Close]
    | some opt =>
      by_cases h2 : opt.MagicNumber = 0x3b3f5c
      · have h3 : ¬ opt.CodecType = "application/gob" := fun h3 => hno ⟨opt, hh, h2, h3⟩
        simp [Server.ServeConn, hh, h2, MagicNumber, NewCodecFuncMap_get, h3, Conn.Close]
      · simp [Server.ServeConn, hh, h2, MagicNumber, Conn.Close]
  refine ⟨⟨?_, ?_⟩, hacc, hrej, by rw [NewCodecFuncMap_get, if_neg (by decide)], ?_⟩
  · rintro ⟨ok, rest, hlog⟩
    by_contra hno
    rw [hrej hno] at hlog
    simp [Outcome.conn] at hlog
  · rintro ⟨opt, h1, h2, h3⟩
    rw [hacc opt h1 h2 h3]
    obtain ⟨ok, rest, h⟩ := serveCodec_log server
      (NewGobCodec { conn with log := conn.log ++ [ConnOp.DecodeOption] }) opt
    split
    · rename_i cc heq
      rw [heq] at h
      refine ⟨ok, rest, ?_⟩
      simp only [Outcome.conn] at h ⊢
      simp [h, NewGobCodec]
    · rename_i cc handled heq
      rw [heq] at h
      refine ⟨ok, rest ++ [ConnOp.Close], ?_⟩
      simp only [Outcome.conn] at h ⊢
      simp [Conn.Close, h, NewGobCodec]
  · intro t
    rw [NewCodecFuncMap_get]
    by_cases h : t = "application/gob" <;> simp [h]

/-- C8 at concrete handshakes: the default option enters the serve loop; a wrong magic
number and the reserved JSON codec type are closed without a write. -/
theorem ServeConn_handshake_witness :
    (NewServer.ServeConn
        { handshake := some { DefaultOption with MagicNumber := 0xDEAD },
          headers := [], bodies := [], log := [] }
      = Outcome.returns
          ({ handshake := some { DefaultOption with MagicNumber := 0xDEAD },
             headers := [], bodies := [],
             log := [] ++ [ConnOp.DecodeOption, ConnOp.Close] }, [])) ∧
    (NewServer.ServeConn
        { handshake := some { DefaultOption with CodecType := JsonType },
          headers := [], bodies := [], log := [] }
      = Outcome.returns
          ({ handshake := some { DefaultOption with CodecType := JsonType },
             headers := [], bodies := [],
             log := [] ++ [ConnOp.DecodeOption, ConnOp.Close] }, [])) :=
  ⟨(ServeConn_handshake NewServer
      { handshake := some { DefaultOption with MagicNumber := 0xDEAD },
        headers := [], bodies := [], log := [] }).2.2.1 (by decide),
   (ServeConn_handshake NewServer
      { handshake := some { DefaultOption with CodecType := JsonType },
        headers := [], bodies := [], log := [] }).2.2.1 (by decide)⟩

/-! ## C9 -/

theorem mapDelete_of_absent {κ β : Type} [DecidableEq κ] (m : List (κ × β)) (k : κ)
    (h : mapGet m k = none) : mapDelete m k = m := by
  rw [mapGet_eq_none] at h
  unfold mapDelete
  rw [List.filter_eq_self]
  intro e he
  simpa using h e he

theorem newService_of_exported (upper : Char → Bool) (rcvr : Receiver)
    (h : IsExported upper rcvr.name = true) :
    newService upper rcvr
      = some { name := rcvr.name, rcvr := rcvr,
               method := registerMethods upper rcvr.methods } := by
  simp [newService, h]

/-- C9. For a receiver whose type name is a valid (exported) service name: when the name
is already in the service map, `Register` returns an error whose text contains
`already defined` and leaves the server unchanged, so the name still maps to the service
registered first; when the name is new, `Register` returns nil and the service map is the
old one with exactly the entry for that name added, every other name mapping as
before. -/
theorem Register_unique (upper : Char → Bool) (server : Server) (rcvr : Receiver)
    (hexp : IsExported upper rcvr.name = true) :
    (∀ first, mapGet server.serviceMap rcvr.name = some first →
      server.Register upper rcvr
        = some (server,
            some ("rpc: service " ++ "already defined" ++ (": " ++ rcvr.name)))) ∧
    (mapGet server.serviceMap rcvr.name = none →
      server.Register upper rcvr
        = some ({ serviceMap := server.serviceMap ++
                    [(rcvr.name, { name := rcvr.name, rcvr := rcvr,
                                   method := registerMethods upper rcvr.methods })] },
                none) ∧
      mapGet (server.serviceMap ++
          [(rcvr.name, ({ name := rcvr.name, rcvr := rcvr,
                          method := registerMethods upper rcvr.methods } : service))])
        rcvr.name
        = some { name := rcvr.name, rcvr := rcvr,
                 method := registerMethods upper rcvr.methods } ∧
      ∀ other, other ≠ rcvr.name →
        mapGet (server.serviceMap ++
          [(rcvr.name, ({ name := rcvr.name, rcvr := rcvr,
                          method := registerMethods upper rcvr.methods } : service))]) other
        = mapGet server.serviceMap other) := by
  have hnew := newService_of_exported upper rcvr hexp
  constructor
  · intro first hfirst
    have htext : "rpc: service " ++ "already defined" ++ (": " ++ rcvr.name)
        = "rpc: service already defined: " ++ rcvr.name := by
      rw [← String.append_assoc]
      rfl
    rw [htext]
    simp [Server.Register, hnew, hfirst]
  · intro habsent
    refine ⟨?_, mapGet_append_single _ _ _ habsent, ?_⟩
    · simp [Server.Register, hnew, habsent, mapSet, mapDelete_of_absent _ _ habsent]
    · intro other hne
      exact mapGet_append_ne _ _ _ _ (Ne.symm hne)

/-- C9 at a concrete receiver: registering `Foo` on a new server adds it, and registering
it again is refused. -/
theorem Register_unique_witness :
    NewServer.Register Char.isUpper { name := "Foo", methods := [] }
      = some ({ serviceMap := [] ++
                  [("Foo", { name := "Foo", rcvr := { name := "Foo", methods := [] },
                             method := registerMethods Char.isUpper [] })] }, none) ∧
    Server.Register Char.isUpper
        { serviceMap := [("Foo", { name := "Foo", rcvr := { name := "Foo", methods := [] },
                                   method := [] })] }
        { name := "Foo", methods := [] }
      = some ({ serviceMap := [("Foo", { name := "Foo",
                                         rcvr := { name := "Foo", methods := [] },
                                         method := [] })] },
              some ("rpc: service " ++ "already defined" ++ (": " ++ "Foo"))) :=
  ⟨((Register_unique Char.isUpper NewServer { name := "Foo", methods := [] }
      (by decide)).2 (by decide)).1,
   (Register_unique Char.isUpper
      { serviceMap := [("Foo", { name := "Foo", rcvr := { name := "Foo", methods := [] },
                                 method := [] })] }
      { name := "Foo", methods := [] } (by decide)).1
      { name := "Foo", rcvr := { name := "Foo", methods := [] }, method := [] } (by decide)⟩

/-! ## C10 -/

theorem registerMethod_eq (upper : Char → Bool) (acc : List (String × methodType))
    (method : Method) :
    registerMethod upper acc method =
      match methodEntry upper method with
      | none => acc
      | some mt => mapSet acc method.Name mt := by
  unfold registerMethod methodEntry
  rcases hin : method.In with _ | ⟨rcv, _ | ⟨a, _ | ⟨r, _ | ⟨x, tl⟩⟩⟩⟩ <;>
    rcases hout : method.Out with _ | ⟨out, _ | ⟨y, tl2⟩⟩ <;>
    simp
  by_cases ho : out = errorType
  · by_cases ha : isExportedOrBuiltinType upper a = true
    · by_cases hr : isExportedOrBuiltinType upper r = true <;> simp [ho, ha, hr]
    · simp [ho, ha]
  · simp [ho]

theorem mapGet_registerMethod_ne (upper : Char → Bool) (acc : List (String × methodType))
    (method : Method) (name : String) (h : method.Name ≠ name) :
    mapGet (registerMethod upper acc method) name = mapGet acc name := by
  rw [registerMethod_eq]
  cases methodEntry upper method with
  | none => rfl
  | some mt => exact mapGet_mapSet_ne _ _ _ _ h

theorem mapGet_foldl_registerMethod_absent (upper : Char → Bool) (methods : List Method)
    (acc : List (String × methodType)) (name : String)
    (h : name ∉ methods.map Method.Name) :
    mapGet (methods.foldl (registerMethod upper) acc) name = mapGet acc name := by
  induction methods generalizing acc with
  | nil => rfl
  | cons x rest ih =>
    simp only [List.map_cons, List.mem_cons, not_or] at h
    rw [List.foldl_cons, ih _ h.2]
    exact mapGet_registerMethod_ne upper acc x name (Ne.symm h.1)

theorem mapGet_foldl_registerMethod (upper : Char → Bool) (methods : List Method)
    (acc : List (String × methodType)) (m : Method)
    (hnd : (methods.map Method.Name).Nodup) (hm : m ∈ methods) :
    mapGet (methods.foldl (registerMethod upper) acc) m.Name =
      match methodEntry upper m with
      | none => mapGet acc m.Name
      | some mt => some mt := by
  induction methods generalizing acc with
  | nil => simp at hm
  | cons x rest ih =>
    simp only [List.map_cons, List.nodup_cons] at hnd
    rw [List.foldl_cons]
    rcases List.mem_cons.1 hm with rfl | hrest
    · rw [mapGet_foldl_registerMethod_absent upper rest _ _ hnd.1, registerMethod_eq]
      cases methodEntry upper m with
      | none => rfl
      | some mt => exact mapGet_mapSet_self _ _ _
    · rw [ih _ hnd.2 hrest]
      have hne : x.Name ≠ m.Name := by
        intro heq
        exact hnd.1 (heq ▸ List.mem_map.2 ⟨m, hrest, rfl⟩)
      rw [mapGet_registerMethod_ne upper acc x m.Name hne]

theorem mapGet_registerMethods (upper : Char → Bool) (methods : List Method) (m : Method)
    (hnd : (methods.map Method.Name).Nodup) (hm : m ∈ methods) :
    mapGet (registerMethods upper methods) m.Name = methodEntry upper m := by
  unfold registerMethods
  rw [mapGet_foldl_registerMethod upper methods [] m hnd hm]
  cases methodEntry upper m <;> rfl

theorem methodEntry_eq_some (upper : Char → Bool) (m : Method) (mt : methodType) :
    methodEntry upper m = some mt ↔
      ∃ rcv a r, m.In = [rcv, a, r] ∧ m.Out = [errorType] ∧
        isExportedOrBuiltinType upper a = true ∧ isExportedOrBuiltinType upper r = true ∧
        mt = { method := m, ArgType := a, ReplyType := r, numCalls := 0 } := by
  unfold methodEntry
  constructor
  · intro h
    split at h
    · rename_i rcv a r out hin hout
      split at h
      · rename_i hc
        refine ⟨rcv, a, r, hin, by rw [hout, hc.1], hc.2.1, hc.2.2, ?_⟩
        simpa using h.symm
      · simp at h
    · simp at h
  · rintro ⟨rcv, a, r, hin, hout, ha, hr, rfl⟩
    simp [hin, hout, ha, hr]

/-- C10 as stated fails: the method `Get(args int, reply *hidden) error`, whose `Reply`
points to the unexported type `hidden` of package `main`, does not satisfy rule (3) of
the specification, and `registerMethods` stores it under `Get`. -/
theorem registerMethods_counterexample :
    specAdmits Char.isUpper
        { Name := "Get",
          In := [GoType.basic "Foo" "main" BasicKind.Struct,
                 GoType.basic "int" "" BasicKind.Int,
                 GoType.elem "" "" ElemKind.Ptr (GoType.basic "hidden" "main" BasicKind.Struct)],
          Out := [errorType] } = false ∧
    mapGet (registerMethods Char.isUpper
        [{ Name := "Get",
           In := [GoType.basic "Foo" "main" BasicKind.Struct,
                  GoType.basic "int" "" BasicKind.Int,
                  GoType.elem "" "" ElemKind.Ptr
                    (GoType.basic "hidden" "main" BasicKind.Struct)],
           Out := [errorType] }]) "Get"
      = some { method :=
                 { Name := "Get",
                   In := [GoType.basic "Foo" "main" BasicKind.Struct,
                          GoType.basic "int" "" BasicKind.Int,
                          GoType.elem "" "" ElemKind.Ptr
                            (GoType.basic "hidden" "main" BasicKind.Struct)],
                   Out := [errorType] },
               ArgType := GoType.basic "int" "" BasicKind.Int,
               ReplyType := GoType.elem "" "" ElemKind.Ptr
                 (GoType.basic "hidden" "main" BasicKind.Struct),
               numCalls := 0 } := by
  decide

/-- C10 (as amended). Among the methods of a receiver (their names are distinct), a
method whose third parameter, if it has one, is a pointer type is admitted iff it has
exactly three formal parameters, returns exactly one value of the error type, and the
`Args` and `Reply` types themselves (not their element types) have an exported name or no
package path. An admitted method is stored under its simple name with its second and
third parameter types as `ArgType` and `ReplyType`, and `newReplyv` is defined for it. -/
theorem registerMethods_admits (upper : Char → Bool) (methods : List Method)
    (hnd : (methods.map Method.Name).Nodup) (m : Method) (hm : m ∈ methods)
    (hptr : ∀ r, m.In[2]? = some r → r.Kind = Kind.elem ElemKind.Ptr) :
    ((∃ mt, mapGet (registerMethods upper methods) m.Name = some mt) ↔
      ∃ rcv a r, m.In = [rcv, a, r] ∧ m.Out = [errorType] ∧
        isExportedOrBuiltinType upper a = true ∧ isExportedOrBuiltinType upper r = true) ∧
    (∀ mt, mapGet (registerMethods upper methods) m.Name = some mt →
      mt.method = m ∧ m.In[1]? = some mt.ArgType ∧ m.In[2]? = some mt.ReplyType ∧
        mt.numCalls = 0 ∧ ∃ v, mt.newReplyv = some v) := by
  rw [mapGet_registerMethods upper methods m hnd hm]
  constructor
  · constructor
    · rintro ⟨mt, hmt⟩
      obtain ⟨rcv, a, r, hin, hout, ha, hr, _⟩ := (methodEntry_eq_some upper m mt).1 hmt
      exact ⟨rcv, a, r, hin, hout, ha, hr⟩
    · rintro ⟨rcv, a, r, hin, hout, ha, hr⟩
      exact ⟨_, (methodEntry_eq_some upper m _).2 ⟨rcv, a, r, hin, hout, ha, hr, rfl⟩⟩
  · intro mt hmt
    obtain ⟨rcv, a, r, hin, hout, ha, hr, rfl⟩ := (methodEntry_eq_some upper m mt).1 hmt
    refine ⟨rfl, by simp [hin], by simp [hin], rfl, ?_⟩
    have hk := hptr r (by simp [hin])
    cases r with
    | basic n p k => simp [GoType.Kind] at hk
    | elem n p k e =>
      simp only [methodType.newReplyv, GoType.Elem]
      split <;> exact ⟨_, rfl⟩

/-- C10 (as amended) at a concrete receiver with the method `Sum(args int, reply *int)
error`. -/
theorem registerMethods_admits_witness :
    ∃ v, ({ method :=
              { Name := "Sum",
                In := [GoType.basic "Foo" "main" BasicKind.Struct,
                       GoType.basic "int" "" BasicKind.Int,
                       GoType.elem "" "" ElemKind.Ptr (GoType.basic "int" "" BasicKind.Int)],
                Out := [errorType] },
            ArgType := GoType.basic "int" "" BasicKind.Int,
            ReplyType := GoType.elem "" "" ElemKind.Ptr (GoType.basic "int" "" BasicKind.Int),
            numCalls := 0 } : methodType).newReplyv = some v :=
  ((registerMethods_admits Char.isUpper
      [{ Name := "Sum",
         In := [GoType.basic "Foo" "main" BasicKind.Struct,
                GoType.basic "int" "" BasicKind.Int,
                GoType.elem "" "" ElemKind.Ptr (GoType.basic "int" "" BasicKind.Int)],
         Out := [errorType] }]
      (by decide)
      { Name := "Sum",
        In := [GoType.basic "Foo" "main" BasicKind.Struct,
               GoType.basic "int" "" BasicKind.Int,
               GoType.elem "" "" ElemKind.Ptr (GoType.basic "int" "" BasicKind.Int)],
        Out := [errorType] }
      (by decide) (by decide)).2 _ (by decide)).2.2.2.2

/-- The case the amended C10 leaves open: `Bad(args int, reply int) error` has no pointer
as third parameter, `registerMethods` stores it all the same, `newReplyv` panics for it,
and so does `readRequest` on a request for `Foo.Bad`. -/
theorem registerMethods_stores_value_reply :
    (mapGet (registerMethods Char.isUpper
        [{ Name := "Bad",
           In := [GoType.basic "Foo" "main" BasicKind.Struct,
                  GoType.basic "int" "" BasicKind.Int, GoType.basic "int" "" BasicKind.Int],
           Out := [errorType] }]) "Bad").map methodType.newReplyv = some none ∧
    Server.readRequest
        { serviceMap := [("Foo",
            { name := "Foo", rcvr := { name := "Foo", methods := [] },
              method := registerMethods Char.isUpper
                [{ Name := "Bad",
                   In := [GoType.basic "Foo" "main" BasicKind.Struct,
                          GoType.basic "int" "" BasicKind.Int,
                          GoType.basic "int" "" BasicKind.Int],
                   Out := [errorType] }] })] }
        { handshake := none,
          headers := [HeaderRead.ok { ServiceMethod := "Foo.Bad", Seq := 1, Error := "" }],
          bodies := [(none, "1")], log := [] }
      = Outcome.panics
          { handshake := none, headers := [], bodies := [(none, "1")],
            log := [ConnOp.ReadHeader true] } := by
  decide

/-! ## Framing of the requests whose method is found -/

theorem framedFrom_append (p : Ptr Nat) (l1 l2 : List ConnOp) :
    framedFrom p (l1 ++ l2) = (framedFrom p l1 && framedFrom (framedState p l1) l2) := by
  induction l1 generalizing p with
  | nil => simp [framedFrom, framedState]
  | cons op rest ih =>
    cases op <;> simp [framedFrom, framedState, ih, Bool.and_assoc]

theorem framedState_append (p : Ptr Nat) (l1 l2 : List ConnOp) :
    framedState p (l1 ++ l2) = framedState (framedState p l1) l2 := by
  induction l1 generalizing p with
  | nil => simp [framedState]
  | cons op rest ih =>
    cases op <;> simp [framedState, ih]

theorem ready_ReadHeader (cc cc1 : Conn) (ok : Bool) (h : cc.ready)
    (hlog : cc1.log = cc.log ++ [ConnOp.ReadHeader ok]) :
    framedFrom none cc1.log = true ∧
      framedState none cc1.log = if ok then some 0 else none := by
  rw [hlog, framedFrom_append, framedState_append]
  rcases h with ⟨h1, h2 | h2⟩ <;> simp [h1, h2, framedFrom, framedState]

theorem ready_ReadBody (cc1 cc2 : Conn) (okb : Bool) (h1 : framedFrom none cc1.log = true)
    (h2 : framedState none cc1.log = some 0)
    (hlog : cc2.log = cc1.log ++ [ConnOp.ReadBody okb]) : cc2.ready := by
  unfold Conn.ready
  rw [hlog, framedFrom_append, framedState_append, h1, h2]
  simp [framedFrom, framedState]

theorem readRequestHeader_cases (server : Server) (cc : Conn) :
    (∃ e, server.readRequestHeader cc
        = ({ cc with headers := cc.headers.tail,
                     log := cc.log ++ [ConnOp.ReadHeader false] }, none, some e)) ∨
    (∃ h, cc.headers.head? = some (HeaderRead.ok h) ∧
      server.readRequestHeader cc
        = ({ cc with headers := cc.headers.tail,
                     log := cc.log ++ [ConnOp.ReadHeader true] }, some h, none)) := by
  unfold Server.readRequestHeader Conn.ReadHeader
  rcases hh : cc.headers with _ | ⟨x, rest⟩
  · left
    exact ⟨"EOF", by simp [hh]⟩
  · cases x with
    | ok h =>
      right
      exact ⟨h, by simp⟩
    | err e =>
      left
      exact ⟨e, by simp⟩

/-- What `readRequest` leaves behind when the method named by the header is found: after a
failed `ReadHeader` the log is framed with no header open, after a panic of `newReplyv` it
is framed, and otherwise exactly one `ReadBody` has followed the header. -/
theorem readRequest_framed (server : Server) (cc : Conn) (hr : cc.ready)
    (hfound : ∀ h, cc.headers.head? = some (HeaderRead.ok h) →
      (server.findService h.ServiceMethod).2.2 = none) :
    match server.readRequest cc with
    | Outcome.panics cc1 => framedFrom none cc1.log = true
    | Outcome.returns (cc1, none, _) =>
      framedFrom none cc1.log = true ∧ framedState none cc1.log = none
    | Outcome.returns (cc1, some _, _) => cc1.ready := by
  unfold Server.readRequest
  rcases readRequestHeader_cases server cc with ⟨e, he⟩ | ⟨h, hhead, he⟩
  · simp only [he]
    have h0 := ready_ReadHeader cc
      { cc with headers := cc.headers.tail, log := cc.log ++ [ConnOp.ReadHeader false] }
      false hr rfl
    simpa using h0
  · simp only [he]
    have hf := hfound h hhead
    obtain ⟨h1, h2⟩ := ready_ReadHeader cc
      { cc with headers := cc.headers.tail, log := cc.log ++ [ConnOp.ReadHeader true] }
      true hr rfl
    simp only [if_true] at h2
    rcases hfs : server.findService h.ServiceMethod with ⟨svc, mtype, err⟩
    rw [hfs] at hf
    simp only at hf
    subst hf
    cases mtype with
    | none => exact h1
    | some mt =>
      simp only
      cases hrv : mt.newReplyv with
      | none => exact h1
      | some replyv =>
        simp only
        obtain ⟨okb, hb⟩ := ReadBody_log
          { cc with headers := cc.headers.tail, log := cc.log ++ [ConnOp.ReadHeader true] }
        have hready : (Conn.ReadBody
            { cc with headers := cc.headers.tail,
                      log := cc.log ++ [ConnOp.ReadHeader true] }).1.ready :=
          ready_ReadBody _ _ okb h1 h2 hb
        rcases hrb : Conn.ReadBody
            { cc with headers := cc.headers.tail,
                      log := cc.log ++ [ConnOp.ReadHeader true] } with ⟨cc2, e, v⟩
        rw [hrb] at hready
        cases e <;> exact hready

theorem serveLoop_framed (server : Server) (hs : List HeaderRead) (cc : Conn)
    (handled : List request) (hr : cc.ready)
    (hfound : ∀ h, HeaderRead.ok h ∈ hs → (server.findService h.ServiceMethod).2.2 = none) :
    framedFrom none (server.serveLoop hs cc handled).conn.log = true ∧
      ∀ cc1 hd, server.serveLoop hs cc handled = Outcome.returns (cc1, hd) →
        framedState none cc1.log = none := by
  induction hs generalizing cc handled with
  | nil =>
    have hrd : (({ cc with headers := [] } : Conn)).ready := hr
    have h := readRequest_framed server { cc with headers := [] } hrd (by simp)
    unfold Server.serveLoop
    rcases hrr : server.readRequest { cc with headers := [] } with ⟨cc1, req, err⟩ | cc1
    · rw [hrr] at h
      have hnone : req = none := by
        simp only [Server.readRequest, Server.readRequestHeader, Conn.ReadHeader,
          Outcome.returns.injEq, Prod.mk.injEq] at hrr
        exact hrr.2.1.symm
      subst hnone
      simp only at h
      exact ⟨by simpa [Outcome.conn] using h.1,
        by intro cc2 hd heq; simp at heq; rw [← heq.1]; exact h.2⟩
    · rw [hrr] at h
      exact ⟨by simpa [Outcome.conn] using h, by intro cc2 hd heq; simp at heq⟩
  | cons x tl ih =>
    have hrd : (({ cc with headers := x :: tl } : Conn)).ready := hr
    have h := readRequest_framed server { cc with headers := x :: tl } hrd (by
      intro hh hhead
      simp only [List.head?_cons, Option.some.injEq] at hhead
      exact hfound hh (by simp [hhead]))
    have hfound2 : ∀ h, HeaderRead.ok h ∈ tl →
        (server.findService h.ServiceMethod).2.2 = none :=
      fun hh hm => hfound hh (List.mem_cons_of_mem _ hm)
    unfold Server.serveLoop
    rcases hrr : server.readRequest { cc with headers := x :: tl } with ⟨cc1, req, err⟩ | cc1
    · rw [hrr] at h
      cases req with
      | none =>
        simp only at h
        exact ⟨by simpa [Outcome.conn] using h.1,
          by intro cc2 hd heq; simp at heq; rw [← heq.1]; exact h.2⟩
      | some req =>
        simp only at h
        cases err with
        | none => exact ih cc1 (handled ++ [req]) h hfound2
        | some e =>
          refine ih _ handled ?_ hfound2
          unfold Conn.ready at h ⊢
          simp only [Server.sendResponse, Conn.Write]
          rw [framedFrom_append, framedState_append]
          rcases h with ⟨h1, h2 | h2⟩ <;> simp [h1, h2, framedFrom, framedState]
    · rw [hrr] at h
      exact ⟨by simpa [Outcome.conn] using h, by intro cc2 hd heq; simp at heq⟩

/-- The part of C5 that the code keeps: on a connection whose log is empty, when every
request header that can be read names a service and method that `findService` finds, the
calls of `serveCodec` are framed: every successful `ReadHeader` is followed by exactly one
`ReadBody` before the next `ReadHeader`, whether or not the body decodes. -/
theorem serveCodec_framed_of_found (server : Server) (cc : Conn) (opt : Option)
    (hlog : cc.log = [])
    (hfound : ∀ h, HeaderRead.ok h ∈ cc.headers →
      (server.findService h.ServiceMethod).2.2 = none) :
    framed (server.serveCodec cc opt).conn.log = true := by
  have hr : cc.ready := by simp [Conn.ready, hlog, framedFrom, framedState]
  obtain ⟨h1, h2⟩ := serveLoop_framed server cc.headers cc [] hr hfound
  unfold Server.serveCodec framed
  rcases hsl : server.serveLoop cc.headers cc [] with ⟨cc1, hd⟩ | cc1
  · rw [hsl] at h1
    simp only [Outcome.conn] at h1 ⊢
    simp [Conn.Close, framedFrom_append, h1, h2 cc1 hd hsl, framedFrom]
  · rw [hsl] at h1
    simpa [Outcome.conn] using h1

/-- A list of two or more options whose first element is not nil is refused by
`parseOptions`. -/
theorem parseOptions_rejects_many (o : Option) (rest : List (Ptr Option)) (h : rest ≠ []) :
    parseOptions (some o :: rest) = (none, some "number of options is more than 1") := by
  cases rest with
  | nil => exact absurd rfl h
  | cons x tl => simp [parseOptions]

/-! ## C11 -/

theorem LastIndex_ge (s : List Char) (c : Char) : -1 ≤ LastIndex s c := by
  induction s with
  | nil => simp [LastIndex]
  | cons x rest ih =>
    simp only [LastIndex]
    split
    · omega
    · split <;> omega

theorem LastIndex_of_not_mem (s : List Char) (c : Char) (h : c ∉ s) : LastIndex s c = -1 := by
  induction s with
  | nil => rfl
  | cons x rest ih =>
    simp only [List.mem_cons, not_or] at h
    have hx : ¬ x = c := fun e => h.1 e.symm
    simp [LastIndex, ih h.2, hx]

theorem LastIndex_of_mem (s : List Char) (c : Char) (h : c ∈ s) : 0 ≤ LastIndex s c := by
  induction s with
  | nil => simp at h
  | cons x rest ih =>
    simp only [LastIndex]
    by_cases hr : 0 ≤ LastIndex rest c
    · rw [if_pos hr]
      omega
    · rw [if_neg hr]
      have hx : x = c := by
        rcases List.mem_cons.1 h with h1 | h1
        · exact h1.symm
        · exact absurd (ih h1) hr
      rw [if_pos hx]

theorem LastIndex_nonneg_iff (s : List Char) (c : Char) : 0 ≤ LastIndex s c ↔ c ∈ s := by
  constructor
  · intro h
    by_contra hmem
    rw [LastIndex_of_not_mem s c hmem] at h
    omega
  · exact LastIndex_of_mem s c

theorem LastIndex_append (p q : List Char) (c : Char) (h : c ∉ q) :
    LastIndex (p ++ c :: q) c = p.length := by
  induction p with
  | nil => simp [LastIndex, LastIndex_of_not_mem q c h]
  | cons x rest ih =>
    have hnn : (0 : Int) ≤ rest.length := Int.natCast_nonneg _
    show LastIndex (x :: (rest ++ c :: q)) c = _
    simp only [LastIndex, List.length_cons]
    rw [ih, if_pos hnn]
    omega

theorem LastIndex_split (s : List Char) (c : Char) (h : 0 ≤ LastIndex s c) :
    s = s.take (LastIndex s c).toNat ++ c :: s.drop ((LastIndex s c).toNat + 1) ∧
      c ∉ s.drop ((LastIndex s c).toNat + 1) := by
  induction s with
  | nil => simp [LastIndex] at h
  | cons x rest ih =>
    simp only [LastIndex] at h ⊢
    by_cases hr : 0 ≤ LastIndex rest c
    · rw [if_pos hr]
      obtain ⟨h1, h2⟩ := ih hr
      have hn : (LastIndex rest c + 1).toNat = (LastIndex rest c).toNat + 1 := by omega
      rw [hn]
      simp only [List.take_succ_cons, List.drop_succ_cons, List.cons_append]
      exact ⟨by rw [← h1], h2⟩
    · rw [if_neg hr] at h ⊢
      have hmem : c ∉ rest := fun hm => hr (LastIndex_of_mem rest c hm)
      by_cases hx : x = c
      · rw [if_pos hx]
        simp [hx, hmem]
      · rw [if_neg hx] at h
        omega

theorem findService_of_no_dot (server : Server) (s : String) (h : '.' ∉ s.data) :
    server.findService s
      = (none, none, some ("rpc server: service/method request ill-formed:" ++ s)) := by
  simp [Server.findService, LastIndex_of_not_mem s.data '.' h]

theorem findService_of_split (server : Server) (s : String) (p q : List Char)
    (hs : s.data = p ++ '.' :: q) (hq : '.' ∉ q) :
    server.findService s =
      match mapGet server.serviceMap (String.mk p) with
      | none => (none, none, some ("rpc server: can't find service " ++ String.mk p))
      | some svc =>
        match mapGet svc.method (String.mk q) with
        | none => (some svc, none, some ("rpc server: can't find method " ++ String.mk q))
        | some mtype => (some svc, some mtype, none) := by
  have hl : LastIndex s.data '.' = p.length := by rw [hs]; exact LastIndex_append p q '.' hq
  have hnn : ¬ ((p.length : Int) < 0) := by omega
  have htake : List.take p.length s.data = p := by rw [hs]; simp
  have hdrop : List.drop (p.length + 1) s.data = q := by
    rw [hs, List.drop_append_eq_append_drop]
    simp
  simp only [Server.findService, hl, hnn, if_false, Int.toNat_ofNat, htake, hdrop]

theorem error_text_ne_empty (pre rest : String) (h : pre.data ≠ []) : pre ++ rest ≠ "" := by
  intro he
  have hd : (pre ++ rest).data = [] := by rw [he]
  rw [String.data_append] at hd
  exact h (List.append_eq_nil.1 hd).1

theorem readRequest_of_lookup_error (server : Server) (cc : Conn) (h : Header)
    (rest : List HeaderRead) (svc : Ptr service) (mtype : Ptr methodType) (e : String)
    (hh : cc.headers = HeaderRead.ok h :: rest)
    (hf : server.findService h.ServiceMethod = (svc, mtype, some e)) :
    server.readRequest cc = Outcome.returns
      ({ cc with headers := rest, log := cc.log ++ [ConnOp.ReadHeader true] },
       some { h := h, argv := none, replyv := none, mtype := mtype, svc := svc, args := "" },
       some e) := by
  simp [Server.readRequest, Server.readRequestHeader, Conn.ReadHeader, hh, hf]

theorem serveLoop_of_lookup_error (server : Server) (cc : Conn) (h : Header)
    (rest : List HeaderRead) (handled : List request) (svc : Ptr service)
    (mtype : Ptr methodType) (e : String)
    (hf : server.findService h.ServiceMethod = (svc, mtype, some e)) :
    server.serveLoop (HeaderRead.ok h :: rest) cc handled =
      server.serveLoop rest
        { cc with headers := rest,
                  log := cc.log ++ [ConnOp.ReadHeader true,
                    ConnOp.Write { h with Error := e } Body.invalidRequest] } handled := by
  rw [Server.serveLoop,
    readRequest_of_lookup_error server { cc with headers := HeaderRead.ok h :: rest } h rest
      svc mtype e rfl hf]
  simp [Server.sendResponse, Conn.Write]

/-- C11. `findService(s)` returns a service, a method and a nil error exactly when `s` has
a dot, the part before its last dot is a key of the service map and the part after it is
a key of the method map of that service, and then it returns these two entries. In the
other cases it returns a nil method and an error: `ill-formed` when `s` has no dot,
`can't find service` when the prefix is no service, `can't find method` when the suffix
is no method of the service. The error text is never empty, and the serve loop answers
such a request by writing the request header with `Error` set to that text and the
`invalidRequest` body, and goes on with the next request. -/
theorem findService_cases (server : Server) (s : String) :
    (∀ svc mtype, server.findService s = (some svc, some mtype, none) ↔
      ∃ p q, s.data = p ++ '.' :: q ∧ '.' ∉ q ∧
        mapGet server.serviceMap (String.mk p) = some svc ∧
        mapGet svc.method (String.mk q) = some mtype) ∧
    ((server.findService s).2.2 = none →
      ∃ svc mtype, server.findService s = (some svc, some mtype, none)) ∧
    ('.' ∉ s.data →
      server.findService s
        = (none, none, some ("rpc server: service/method request ill-formed:" ++ s))) ∧
    (∀ p q, s.data = p ++ '.' :: q → '.' ∉ q →
      mapGet server.serviceMap (String.mk p) = none →
      server.findService s
        = (none, none, some ("rpc server: can't find service " ++ String.mk p))) ∧
    (∀ p q svc, s.data = p ++ '.' :: q → '.' ∉ q →
      mapGet server.serviceMap (String.mk p) = some svc →
      mapGet svc.method (String.mk q) = none →
      server.findService s
        = (some svc, none, some ("rpc server: can't find method " ++ String.mk q))) ∧
    (∀ e, (server.findService s).2.2 = some e →
      (server.findService s).2.1 = none ∧ e ≠ "" ∧
      ∀ (cc : Conn) (h : Header) (rest : List HeaderRead) (handled : List request),
        h.ServiceMethod = s →
        server.serveLoop (HeaderRead.ok h :: rest) cc handled =
          server.serveLoop rest
            { cc with headers := rest,
                      log := cc.log ++ [ConnOp.ReadHeader true,
                        ConnOp.Write { h with Error := e } Body.invalidRequest] }
            handled) := by
  have hcases : '.' ∉ s.data ∨ ∃ p q, s.data = p ++ '.' :: q ∧ '.' ∉ q := by
    by_cases hm : '.' ∈ s.data
    · right
      obtain ⟨h1, h2⟩ := LastIndex_split s.data '.' ((LastIndex_nonneg_iff _ _).2 hm)
      exact ⟨_, _, h1, h2⟩
    · exact Or.inl hm
  have huniq : ∀ p q p2 q2, s.data = p ++ '.' :: q → '.' ∉ q → s.data = p2 ++ '.' :: q2 →
      '.' ∉ q2 → p = p2 ∧ q = q2 := by
    intro p q p2 q2 h1 h2 h3 h4
    have hl1 := LastIndex_append p q '.' h2
    have hl2 := LastIndex_append p2 q2 '.' h4
    rw [← h1] at hl1
    rw [← h3, hl1] at hl2
    have hlen : p.length = p2.length := by exact_mod_cast hl2
    have happ : p ++ '.' :: q = p2 ++ '.' :: q2 := by rw [← h1, ← h3]
    have := List.append_inj happ hlen
    exact ⟨this.1, by simpa using this.2⟩
  refine ⟨?_, ?_, findService_of_no_dot server s, ?_, ?_, ?_⟩
  · intro svc mtype
    constructor
    · intro hf
      rcases hcases with hno | ⟨p, q, hs, hq⟩
      · rw [findService_of_no_dot server s hno] at hf
        simp at hf
      · refine ⟨p, q, hs, hq, ?_⟩
        rw [findService_of_split server s p q hs hq] at hf
        cases hsv : mapGet server.serviceMap (String.mk p) with
        | none => simp [hsv] at hf
        | some sv =>
          simp only [hsv] at hf
          cases hmt : mapGet sv.method (String.mk q) with
          | none => simp [hmt] at hf
          | some mt =>
            simp only [hmt, Prod.mk.injEq, Option.some.injEq, and_true] at hf
            obtain ⟨rfl, rfl⟩ := hf
            exact ⟨rfl, hmt⟩
    · rintro ⟨p, q, hs, hq, hsv, hmt⟩
      rw [findService_of_split server s p q hs hq]
      simp [hsv, hmt]
  · intro hnone
    rcases hcases with hno | ⟨p, q, hs, hq⟩
    · rw [findService_of_no_dot server s hno] at hnone
      simp at hnone
    · rw [findService_of_split server s p q hs hq] at hnone ⊢
      cases hsv : mapGet server.serviceMap (String.mk p) with
      | none => simp [hsv] at hnone
      | some sv =>
        simp only [hsv] at hnone ⊢
        cases hmt : mapGet sv.method (String.mk q) with
        | none => simp [hmt] at hnone
        | some mt => exact ⟨sv, mt, rfl⟩
  · intro p q hs hq hsv
    rw [findService_of_split server s p q hs hq]
    simp [hsv]
  · intro p q svc hs hq hsv hmt
    rw [findService_of_split server s p q hs hq]
    simp [hsv, hmt]
  · intro e he
    have hshape : (server.findService s).2.1 = none ∧ e ≠ "" := by
      rcases hcases with hno | ⟨p, q, hs, hq⟩
      · rw [findService_of_no_dot server s hno] at he ⊢
        simp only [Option.some.injEq] at he
        exact ⟨rfl, by rw [← he]; exact error_text_ne_empty _ _ (by decide)⟩
      · rw [findService_of_split server s p q hs hq] at he ⊢
        cases hsv : mapGet server.serviceMap (String.mk p) with
        | none =>
          simp only [hsv, Option.some.injEq] at he ⊢
          exact ⟨trivial, by rw [← he]; exact error_text_ne_empty _ _ (by decide)⟩
        | some sv =>
          simp only [hsv] at he ⊢
          cases hmt : mapGet sv.method (String.mk q) with
          | none =>
            simp only [hmt, Option.some.injEq] at he ⊢
            exact ⟨trivial, by rw [← he]; exact error_text_ne_empty _ _ (by decide)⟩
          | some mt => simp [hmt] at he
    refine ⟨hshape.1, hshape.2, ?_⟩
    intro cc h rest handled hsm
    rcases hf : server.findService s with ⟨svc, mtype, err⟩
    rw [hf] at he
    simp only at he
    subst he
    exact serveLoop_of_lookup_error server cc h rest handled svc mtype e (by rw [hsm]; exact hf)

/-- C11 at a concrete server with the service `Foo` and its method `Sum`: `Foo.Sum` is
found and `Foo.Nope` is not. -/
theorem findService_cases_witness :
    Server.findService
        { serviceMap := [("Foo",
            { name := "Foo", rcvr := { name := "Foo", methods := [] },
              method := [("Sum",
                { method := { Name := "Sum", In := [], Out := [] },
                  ArgType := GoType.basic "int" "" BasicKind.Int,
                  ReplyType := GoType.elem "" "" ElemKind.Ptr
                    (GoType.basic "int" "" BasicKind.Int),
                  numCalls := 0 })] })] }
        "Foo.Nope"
      = (some { name := "Foo", rcvr := { name := "Foo", methods := [] },
                method := [("Sum",
                  { method := { Name := "Sum", In := [], Out := [] },
                    ArgType := GoType.basic "int" "" BasicKind.Int,
                    ReplyType := GoType.elem "" "" ElemKind.Ptr
                      (GoType.basic "int" "" BasicKind.Int),
                    numCalls := 0 })] },
         none, some ("rpc server: can't find method " ++ String.mk ['N', 'o', 'p', 'e'])) :=
  (findService_cases
      { serviceMap := [("Foo",
          { name := "Foo", rcvr := { name := "Foo", methods := [] },
            method := [("Sum",
              { method := { Name := "Sum", In := [], Out := [] },
                ArgType := GoType.basic "int" "" BasicKind.Int,
                ReplyType := GoType.elem "" "" ElemKind.Ptr
                  (GoType.basic "int" "" BasicKind.Int),
                numCalls := 0 })] })] }
      "Foo.Nope").2.2.2.2.1 ['F', 'o', 'o'] ['N', 'o', 'p', 'e'] _ (by decide) (by decide)
    (by decide) (by decide)

/-! ## C12 -/

theorem serveLoop_of_body_error (server : Server) (cc cc2 : Conn) (h : Header)
    (rest : List HeaderRead) (handled : List request) (svc : Ptr service) (mtype : methodType)
    (replyv : Value) (e v : String)
    (hf : server.findService h.ServiceMethod = (svc, some mtype, none))
    (hrv : mtype.newReplyv = some replyv)
    (hb : Conn.ReadBody { cc with headers := rest, log := cc.log ++ [ConnOp.ReadHeader true] }
      = (cc2, some e, v)) :
    server.serveLoop (HeaderRead.ok h :: rest) cc handled =
      server.serveLoop rest
        { cc2 with log := cc2.log ++ [ConnOp.Write { h with Error := e } Body.invalidRequest] }
        handled := by
  rw [Server.serveLoop]
  simp [Server.readRequest, Server.readRequestHeader, Conn.ReadHeader, hf, hrv, hb,
    Server.sendResponse, Conn.Write]

theorem serveLoop_of_request (server : Server) (cc cc2 : Conn) (h : Header)
    (rest : List HeaderRead) (handled : List request) (svc : Ptr service) (mtype : methodType)
    (replyv : Value) (v : String)
    (hf : server.findService h.ServiceMethod = (svc, some mtype, none))
    (hrv : mtype.newReplyv = some replyv)
    (hb : Conn.ReadBody { cc with headers := rest, log := cc.log ++ [ConnOp.ReadHeader true] }
      = (cc2, none, v)) :
    server.serveLoop (HeaderRead.ok h :: rest) cc handled =
      server.serveLoop rest cc2
        (handled ++ [{ h := h, argv := some mtype.newArgv, replyv := some replyv,
                       mtype := some mtype, svc := svc, args := v }]) := by
  rw [Server.serveLoop]
  simp [Server.readRequest, Server.readRequestHeader, Conn.ReadHeader, hf, hrv, hb]

/-- The server writes the header of a request as it was read and does not clear `Error`
itself: a header that is not a request frame of the protocol, arriving with `Error` set to
`stale`, for a method that returns nil, is answered with the reply body and `Error` still
`stale`. Request frames carry an empty `Error`, which the client sets before it writes. -/
theorem handleRequest_echoes_request_error :
    NewServer.handleRequest { handshake := none, headers := [], bodies := [], log := [] }
        { h := { ServiceMethod := "Foo.Sum", Seq := 7, Error := "stale" },
          argv := none, replyv := none,
          mtype := some { method := { Name := "Sum", In := [], Out := [] },
                          ArgType := GoType.basic "int" "" BasicKind.Int,
                          ReplyType := GoType.elem "" "" ElemKind.Ptr
                            (GoType.basic "int" "" BasicKind.Int),
                          numCalls := 0 },
          svc := some { name := "Foo", rcvr := { name := "Foo", methods := [] }, method := [] },
          args := "1 2" }
        0 none "3" false (fun _ => "")
      = Outcome.returns
          { handshake := none, headers := [], bodies := [],
            log := [ConnOp.Write { ServiceMethod := "Foo.Sum", Seq := 7, Error := "stale" }
              (Body.reply "3")] } := by
  decide

/-- C12. Every response written for a request carries the `Seq` and the `ServiceMethod`
of the request unchanged, and only `Error` is modified. For a request with a service and
a method, `handleRequest` writes exactly one response: when the method returns nil (and
the timeout branch is not taken) the header is the request header as it was read, so that
`Error` is empty for a request frame, which carries an empty `Error`, and the body is the
reply; when the method returns an error, `Error` is its text and the body is
`invalidRequest`; when the handle timeout fires first, `Error` is the timeout text and the
body is `invalidRequest`. When the lookup or the decoding of the body fails, the serve
loop writes the request header with `Error` set to the error text and the
`invalidRequest` body; otherwise it hands the request to `handleRequest` with the header
as read. -/
theorem response_echoes_header (server : Server) (cc : Conn) (req : request) (timeout : Int)
    (result : GoError) (reply : String) (timedOut : Bool) (durationText : Int → String)
    (svc0 : service) (mtype0 : methodType) (hsvc : req.svc = some svc0)
    (hmtype : req.mtype = some mtype0) :
    (∃ h body,
      (server.handleRequest cc req timeout result reply timedOut durationText)
        = Outcome.returns { cc with log := cc.log ++ [ConnOp.Write h body] } ∧
      h.Seq = req.h.Seq ∧ h.ServiceMethod = req.h.ServiceMethod ∧
      ((timeout = 0 ∨ timedOut = false) → result = none →
        h = req.h ∧ body = Body.reply reply ∧ (req.h.Error = "" → h.Error = "")) ∧
      ((timeout = 0 ∨ timedOut = false) → ∀ e, result = some e →
        h.Error = e ∧ body = Body.invalidRequest) ∧
      (timeout ≠ 0 → timedOut = true →
        h.Error = "rpc server: request handle timeout: expect within " ++ durationText timeout
          ∧ body = Body.invalidRequest)) ∧
    (∀ (h : Header) (rest : List HeaderRead) (handled : List request) (svc : Ptr service)
        (mtype : Ptr methodType) (e : String),
      server.findService h.ServiceMethod = (svc, mtype, some e) →
      server.serveLoop (HeaderRead.ok h :: rest) cc handled =
        server.serveLoop rest
          { cc with headers := rest,
                    log := cc.log ++ [ConnOp.ReadHeader true,
                      ConnOp.Write { ServiceMethod := h.ServiceMethod, Seq := h.Seq, Error := e }
                        Body.invalidRequest] } handled) ∧
    (∀ (h : Header) (rest : List HeaderRead) (handled : List request) (svc : Ptr service)
        (mtype : methodType) (replyv : Value) (cc2 : Conn) (e v : String),
      server.findService h.ServiceMethod = (svc, some mtype, none) →
      mtype.newReplyv = some replyv →
      Conn.ReadBody { cc with headers := rest, log := cc.log ++ [ConnOp.ReadHeader true] }
        = (cc2, some e, v) →
      server.serveLoop (HeaderRead.ok h :: rest) cc handled =
        server.serveLoop rest
          { cc2 with
            log := cc2.log ++
              [ConnOp.Write { ServiceMethod := h.ServiceMethod, Seq := h.Seq, Error := e }
                Body.invalidRequest] } handled) ∧
    (∀ (h : Header) (rest : List HeaderRead) (handled : List request) (svc : Ptr service)
        (mtype : methodType) (replyv : Value) (cc2 : Conn) (v : String),
      server.findService h.ServiceMethod = (svc, some mtype, none) →
      mtype.newReplyv = some replyv →
      Conn.ReadBody { cc with headers := rest, log := cc.log ++ [ConnOp.ReadHeader true] }
        = (cc2, none, v) →
      server.serveLoop (HeaderRead.ok h :: rest) cc handled =
        server.serveLoop rest cc2
          (handled ++ [{ h := h, argv := some mtype.newArgv, replyv := some replyv,
                         mtype := some mtype, svc := svc, args := v }])) := by
  refine ⟨?_, ?_, ?_, ?_⟩
  · by_cases ht : timeout ≠ 0 ∧ timedOut = true
    · refine ⟨{ req.h with
          Error := ("rpc server: request handle timeout: expect within " ++
            durationText timeout) }, Body.invalidRequest, ?_, rfl, rfl, ?_, ?_, ?_⟩
      · simp [Server.handleRequest, hsvc, hmtype, ht, Server.sendResponse, Conn.Write]
      · intro h
        rcases h with h | h
        · exact absurd h ht.1
        · rw [ht.2] at h
          simp at h
      · intro h
        rcases h with h | h
        · exact absurd h ht.1
        · rw [ht.2] at h
          simp at h
      · intro _ _
        exact ⟨rfl, rfl⟩
    · have hno : timeout ≠ 0 → timedOut = true → False := fun h1 h2 => ht ⟨h1, h2⟩
      cases result with
      | none =>
        refine ⟨req.h, Body.reply reply, ?_, rfl, rfl, ?_, ?_, ?_⟩
        · simp [Server.handleRequest, hsvc, hmtype, ht, service.call, Server.sendResponse,
            Conn.Write]
        · intro _ _
          exact ⟨rfl, rfl, fun h => h⟩
        · intro _ e he
          simp at he
        · intro h1 h2
          exact absurd h2 (fun h2 => hno h1 h2)
      | some err =>
        refine ⟨{ req.h with Error := err }, Body.invalidRequest, ?_, rfl, rfl, ?_, ?_, ?_⟩
        · simp [Server.handleRequest, hsvc, hmtype, ht, service.call, Server.sendResponse,
            Conn.Write]
        · intro _ he
          simp at he
        · intro _ e he
          simp only [Option.some.injEq] at he
          exact ⟨he, rfl⟩
        · intro h1 h2
          exact absurd h2 (fun h2 => hno h1 h2)
  · intro h rest handled svc mtype e hf
    exact serveLoop_of_lookup_error server cc h rest handled svc mtype e hf
  · intro h rest handled svc mtype replyv cc2 e v hf hrv hb
    exact serveLoop_of_body_error server cc cc2 h rest handled svc mtype replyv e v hf hrv hb
  · intro h rest handled svc mtype replyv cc2 v hf hrv hb
    exact serveLoop_of_request server cc cc2 h rest handled svc mtype replyv v hf hrv hb

/-- C12 at a concrete request: on a server without services the request for
`Foo.Sum` with sequence number 7 is answered with the same `Seq` and `ServiceMethod`, the
lookup error and the `invalidRequest` body. -/
theorem response_echoes_header_witness :
    NewServer.serveLoop [HeaderRead.ok { ServiceMethod := "Foo.Sum", Seq := 7, Error := "" }]
        { handshake := none, headers := [], bodies := [], log := [] } []
      = NewServer.serveLoop []
          { handshake := none, headers := [], bodies := [],
            log := [] ++ [ConnOp.ReadHeader true,
              ConnOp.Write { ServiceMethod := "Foo.Sum", Seq := 7,
                             Error := "rpc server: can't find service Foo" }
                Body.invalidRequest] } [] :=
  (response_echoes_header NewServer
      { handshake := none, headers := [], bodies := [], log := [] }
      { h := { ServiceMethod := "Foo.Sum", Seq := 7, Error := "" }, argv := none,
        replyv := none,
        mtype := some { method := { Name := "Sum", In := [], Out := [] },
                        ArgType := GoType.basic "int" "" BasicKind.Int,
                        ReplyType := GoType.elem "" "" ElemKind.Ptr
                          (GoType.basic "int" "" BasicKind.Int),
                        numCalls := 0 },
        svc := some { name := "Foo", rcvr := { name := "Foo", methods := [] }, method := [] },
        args := "" }
      0 none "" false (fun _ => "")
      { name := "Foo", rcvr := { name := "Foo", methods := [] }, method := [] }
      { method := { Name := "Sum", In := [], Out := [] },
        ArgType := GoType.basic "int" "" BasicKind.Int,
        ReplyType := GoType.elem "" "" ElemKind.Ptr (GoType.basic "int" "" BasicKind.Int),
        numCalls := 0 }
      rfl rfl).2.1
    { ServiceMethod := "Foo.Sum", Seq := 7, Error := "" } [] [] none none
    "rpc server: can't find service Foo" (by decide)

/-! ## Discovery -/

theorem Get_of_empty (d : MultiServersDiscovery) (mode : Int) (src : Nat)
    (h : d.servers = []) :
    d.Get mode src = some (d, "", some "rpc discovery: no available servers") := by
  simp [MultiServersDiscovery.Get, h]

theorem length_ne_zero_of_ne_nil (l : List String) (h : l ≠ []) : (l.length : Int) ≠ 0 := by
  have := List.length_pos.2 h
  omega

theorem toNat_ofNat_eq (x : Nat) : (Int.ofNat x).toNat = x := rfl

theorem Get_roundRobin (d : MultiServersDiscovery) (src : Nat) (hi : 0 ≤ d.index)
    (hM : d.servers ≠ []) :
    d.Get RoundRobinSelect src =
      some ({ d with index := Int.ofNat ((d.index.toNat + 1) % d.servers.length) },
        d.servers.getD (d.index.toNat % d.servers.length) "", none) := by
  have hlen := List.length_pos.2 hM
  have hn := length_ne_zero_of_ne_nil d.servers hM
  obtain ⟨i, hidx⟩ := Int.eq_ofNat_of_zero_le hi
  have h1 : d.index.tmod (d.servers.length : Int) = ((i % d.servers.length : Nat) : Int) := by
    rw [hidx]
    rfl
  have h2 : (d.index + 1).tmod (d.servers.length : Int)
      = (((i + 1) % d.servers.length : Nat) : Int) := by
    rw [hidx]
    exact_mod_cast (Int.ofNat_tmod (i + 1) d.servers.length).symm
  have hlt : i % d.servers.length < d.servers.length := Nat.mod_lt _ hlen
  have h3 : sliceIndex d.servers ((i % d.servers.length : Nat) : Int)
      = some (d.servers.getD (i % d.servers.length) "") := by
    have hnn : ¬ (((i % d.servers.length : Nat) : Int) < 0) := by omega
    simp only [sliceIndex, hnn, if_false, Int.toNat_ofNat]
    rw [List.getElem?_eq_getElem hlt, List.getD_eq_getElem _ _ hlt]
  have hi2 : d.index.toNat = i := by rw [hidx]; rfl
  simp only [MultiServersDiscovery.Get, hn, if_false, RoundRobinSelect, RandomSelect, h1, h2,
    h3, hi2]
  rfl

theorem Get_random (d : MultiServersDiscovery) (src : Nat) (hM : d.servers ≠ []) :
    d.Get RandomSelect src
      = some (d, d.servers.getD (src % d.servers.length) "", none) := by
  have hlen := List.length_pos.2 hM
  have hn := length_ne_zero_of_ne_nil d.servers hM
  have hlt : src % d.servers.length < d.servers.length := Nat.mod_lt _ hlen
  have hnn : ¬ (Int.ofNat (src % d.servers.length) < 0) := by
    have : (0 : Int) ≤ Int.ofNat (src % d.servers.length) := Int.ofNat_nonneg _
    omega
  simp only [MultiServersDiscovery.Get, hn, if_false, RandomSelect, if_true, Intn,
    Int.toNat_ofNat, sliceIndex, hnn, toNat_ofNat_eq]
  rw [List.getElem?_eq_getElem hlt, List.getD_eq_getElem _ _ hlt]

theorem Get_index_nonneg (d : MultiServersDiscovery) (mode : Int) (src : Nat)
    (hi : 0 ≤ d.index) :
    ∃ r, d.Get mode src = some r ∧ 0 ≤ r.1.index ∧ r.1.servers = d.servers := by
  by_cases hM : d.servers = []
  · exact ⟨_, Get_of_empty d mode src hM, hi, rfl⟩
  · by_cases h0 : mode = RandomSelect
    · rw [h0]
      exact ⟨_, Get_random d src hM, hi, rfl⟩
    · by_cases h1 : mode = RoundRobinSelect
      · rw [h1]
        exact ⟨_, Get_roundRobin d src hi hM, Int.ofNat_nonneg _, rfl⟩
      · have hn := length_ne_zero_of_ne_nil d.servers hM
        exact ⟨(d, "", some "rpc discovery: not supported select mode"),
          by simp [MultiServersDiscovery.Get, hn, h0, h1], hi, rfl⟩

theorem NewMultiServerDiscovery_index (servers : List String) (src : Nat) :
    0 ≤ (NewMultiServerDiscovery servers src).index :=
  Int.ofNat_nonneg _

theorem run_index_nonneg (d : MultiServersDiscovery) (calls : List DiscoveryCall)
    (hi : 0 ≤ d.index) : ∃ d1, d.run calls = some d1 ∧ 0 ≤ d1.index := by
  induction calls generalizing d with
  | nil => exact ⟨d, rfl, hi⟩
  | cons c rest ih =>
    cases c with
    | Refresh => exact ih d hi
    | Update servers => exact ih _ hi
    | Get mode src =>
      obtain ⟨r, hr, hr1, _⟩ := Get_index_nonneg d mode src hi
      obtain ⟨d1, hd1, hd2⟩ := ih r.1 hr1
      refine ⟨d1, ?_, hd2⟩
      simp only [MultiServersDiscovery.run, hr]
      exact hd1
    | GetAll => exact ih d hi

theorem selections_eq (k : Nat) (d : MultiServersDiscovery) (hi : 0 ≤ d.index)
    (hM : d.servers ≠ []) :
    d.selections k = some ((List.range k).map
      (fun j => d.servers.getD ((d.index.toNat + j) % d.servers.length) "")) := by
  induction k generalizing d with
  | zero => rfl
  | succ k ih =>
    have hstep := Get_roundRobin d 0 hi hM
    have hnext := ih { d with index := Int.ofNat ((d.index.toNat + 1) % d.servers.length) }
      (Int.ofNat_nonneg _) hM
    simp only [MultiServersDiscovery.selections, hstep, hnext]
    rw [List.range_succ_eq_map, List.map_cons, List.map_map]
    simp only [Nat.add_zero, Int.toNat_ofNat, Option.some.injEq, List.cons.injEq, true_and]
    apply List.map_congr_left
    intro j _
    simp only [Function.comp, Nat.succ_eq_add_one, toNat_ofNat_eq]
    rw [Nat.mod_add_mod]
    congr 2
    omega

theorem range_map_getD_eq_rotate (l : List String) (i : Nat) :
    (List.range l.length).map (fun j => l.getD ((i + j) % l.length) "") = l.rotate i := by
  apply List.ext_getElem?
  intro m
  by_cases hm : m < l.length
  · have hpos : 0 < l.length := by omega
    have hlt : (i + m) % l.length < l.length := Nat.mod_lt _ hpos
    rw [List.getElem?_rotate hm, List.getElem?_map, List.getElem?_range hm]
    simp only [Option.map_some']
    rw [Nat.add_comm m i, List.getElem?_eq_getElem hlt, List.getD_eq_getElem _ _ hlt]
  · have h1 : ((List.range l.length).map
        (fun j => l.getD ((i + j) % l.length) "")).length ≤ m := by simp; omega
    have h2 : (l.rotate i).length ≤ m := by simp; omega
    rw [List.getElem?_eq_none h1, List.getElem?_eq_none h2]

theorem getD_mem (l : List String) (i : Nat) (h : i < l.length) : l.getD i "" ∈ l := by
  rw [List.getD_eq_getElem _ _ h]
  exact List.getElem_mem h

/-! ## C13 -/

/-- C13. On every discovery that `NewMultiServerDiscovery` and later calls of its methods
lead to (its index is never negative), when the list holds `M >= 1` servers:
`Get(RoundRobinSelect)` returns `servers[index mod M]` and sets the index to
`(index + 1) mod M`, and `M` such calls in a row return the list rotated by the index, that
is every server exactly once in cyclic list order. -/
theorem roundRobin_fair (servers0 : List String) (src0 : Nat) (calls : List DiscoveryCall) :
    ∃ d, (NewMultiServerDiscovery servers0 src0).run calls = some d ∧ 0 ≤ d.index ∧
      (d.servers ≠ [] →
        (∀ src, ∃ s, d.servers[(d.index % (d.servers.length : Int)).toNat]? = some s ∧
          d.Get RoundRobinSelect src
            = some ({ d with index := (d.index + 1) % (d.servers.length : Int) }, s, none)) ∧
        d.selections d.servers.length = some (d.servers.rotate d.index.toNat) ∧
        (d.servers.rotate d.index.toNat).Perm d.servers) := by
  obtain ⟨d, hrun, hi⟩ := run_index_nonneg (NewMultiServerDiscovery servers0 src0) calls
    (NewMultiServerDiscovery_index servers0 src0)
  refine ⟨d, hrun, hi, ?_⟩
  intro hM
  have hlen := List.length_pos.2 hM
  obtain ⟨i, hidx⟩ := Int.eq_ofNat_of_zero_le hi
  have hi2 : d.index.toNat = i := by rw [hidx]; rfl
  have hlt : i % d.servers.length < d.servers.length := Nat.mod_lt _ hlen
  refine ⟨?_, ?_, List.rotate_perm _ _⟩
  · intro src
    refine ⟨d.servers.getD (i % d.servers.length) "", ?_, ?_⟩
    · have h1 : (d.index % (d.servers.length : Int)).toNat = i % d.servers.length := by
        rw [hidx, ← Int.natCast_mod]
        rfl
      rw [h1, List.getElem?_eq_getElem hlt, List.getD_eq_getElem _ _ hlt]
    · rw [Get_roundRobin d src hi hM, hi2]
      have h2 : Int.ofNat ((i + 1) % d.servers.length)
          = (d.index + 1) % (d.servers.length : Int) := by
        rw [hidx]
        have h3 := Int.natCast_mod (i + 1) d.servers.length
        push_cast at h3
        exact h3
      rw [h2]
  · rw [selections_eq d.servers.length d hi hM, range_map_getD_eq_rotate]

/-- C13 at a concrete discovery: three servers, the random source yields 7 for the index,
no further call. -/
theorem roundRobin_fair_witness :
    ∃ d, (NewMultiServerDiscovery ["a", "b", "c"] 7).run [] = some d ∧
      d.selections d.servers.length = some (d.servers.rotate d.index.toNat) := by
  obtain ⟨d, h1, _, h3⟩ := roundRobin_fair ["a", "b", "c"] 7 []
  have hd : d = NewMultiServerDiscovery ["a", "b", "c"] 7 := by
    simp only [MultiServersDiscovery.run, Option.some.injEq] at h1
    exact h1.symm
  exact ⟨d, h1, (h3 (by rw [hd]; decide)).2.1⟩

/-! ## C20 -/

/-- C20. On every discovery that `NewMultiServerDiscovery` and any calls of `Update`,
`Get`, `Refresh` and `GetAll` lead to, none of these calls panics, the index is not
negative, and a further `Get` never indexes the list out of range: on an empty list it
returns the error `no available servers` in every mode and leaves the discovery as it is;
on a non-empty list `Get(RandomSelect)` and `Get(RoundRobinSelect)` return an element of
the current list, keep the list and keep the index non-negative. As the calls are
arbitrary, this holds right after an `Update` to a shorter list. -/
theorem Get_never_out_of_range (servers0 : List String) (src0 : Nat)
    (calls : List DiscoveryCall) :
    ∃ d, (NewMultiServerDiscovery servers0 src0).run calls = some d ∧ 0 ≤ d.index ∧
      ∀ (mode : Int) (src : Nat),
        (∃ r, d.Get mode src = some r) ∧
        (d.servers = [] →
          d.Get mode src = some (d, "", some "rpc discovery: no available servers")) ∧
        (d.servers ≠ [] → (mode = RandomSelect ∨ mode = RoundRobinSelect) →
          ∃ d1 s, d.Get mode src = some (d1, s, none) ∧ s ∈ d.servers ∧
            d1.servers = d.servers ∧ 0 ≤ d1.index) := by
  obtain ⟨d, hrun, hi⟩ := run_index_nonneg (NewMultiServerDiscovery servers0 src0) calls
    (NewMultiServerDiscovery_index servers0 src0)
  refine ⟨d, hrun, hi, ?_⟩
  intro mode src
  refine ⟨?_, Get_of_empty d mode src, ?_⟩
  · obtain ⟨r, hr, _⟩ := Get_index_nonneg d mode src hi
    exact ⟨r, hr⟩
  · intro hM hmode
    have hlen := List.length_pos.2 hM
    rcases hmode with rfl | rfl
    · exact ⟨_, _, Get_random d src hM, getD_mem _ _ (Nat.mod_lt _ hlen), rfl, hi⟩
    · exact ⟨_, _, Get_roundRobin d src hi hM, getD_mem _ _ (Nat.mod_lt _ hlen), rfl,
        Int.ofNat_nonneg _⟩

/-- C20 at a concrete run: after a round-robin `Get` on three servers and an `Update` to a
single server, no call has panicked and the index is not negative. -/
theorem Get_never_out_of_range_witness :
    ∃ d, (NewMultiServerDiscovery ["a", "b", "c"] 5).run
        [DiscoveryCall.Get RoundRobinSelect 0, DiscoveryCall.Update ["x"]] = some d ∧
      0 ≤ d.index := by
  obtain ⟨d, h1, h2, _⟩ := Get_never_out_of_range ["a", "b", "c"] 5
    [DiscoveryCall.Get RoundRobinSelect 0, DiscoveryCall.Update ["x"]]
  exact ⟨d, h1, h2⟩

/-! ## Registry -/

theorem aliveLoop_eq (timeout : Int) (clock : Nat → Int) (now : Int)
    (hclock : ∀ i, clock i = now) (i : Nat) (entries : List (String × ServerItem)) :
    aliveLoop timeout clock i entries =
      ((entries.filter (fun e => decide (timeout = 0 ∨ e.2.start + timeout > now))).map
          Prod.fst,
       entries.filter (fun e => decide (timeout = 0 ∨ e.2.start + timeout > now))) := by
  induction entries generalizing i with
  | nil => rfl
  | cons e rest ih =>
    obtain ⟨addr, s⟩ := e
    simp only [aliveLoop, ih (i + 1), hclock i]
    by_cases h : timeout = 0 ∨ s.start + timeout > now
    · simp [h]
    · simp [h]

theorem sortStrings_sorted (l : List String) : List.Sorted (· ≤ ·) (sortStrings l) := by
  have htotal : IsTotal String (fun a b => a.data ≤ b.data) := ⟨fun a b => le_total _ _⟩
  have htrans : IsTrans String (fun a b => a.data ≤ b.data) :=
    ⟨fun a b c h1 h2 => le_trans h1 h2⟩
  have h := List.sorted_insertionSort (fun (a b : String) => a.data ≤ b.data) l
  unfold sortStrings
  refine List.Pairwise.imp ?_ h
  intro a b hab
  exact String.le_iff_toList_le.2 hab

theorem sortStrings_perm (l : List String) : (sortStrings l).Perm l :=
  List.perm_insertionSort _ l

theorem mem_of_nodup_keys {β : Type} (m : List (String × β)) (k : String) (v w : β)
    (hnd : (m.map Prod.fst).Nodup) (hv : (k, v) ∈ m) (hw : (k, w) ∈ m) : v = w := by
  have := List.inj_on_of_nodup_map hnd hv hw rfl
  exact (Prod.mk.inj this).2

/-- What `aliveServers` returns and leaves when every reading of the clock during the call
is `now` and the map has one entry per key. -/
theorem aliveServers_eq (r : GeeRegistry) (clock : Nat → Int) (now : Int)
    (hclock : ∀ i, clock i = now) :
    (r.aliveServers clock).1
      = { r with servers :=
            r.servers.filter (fun e => decide (r.timeout = 0 ∨ e.2.start + r.timeout > now)) } ∧
    (r.aliveServers clock).2
      = sortStrings ((r.servers.filter
          (fun e => decide (r.timeout = 0 ∨ e.2.start + r.timeout > now))).map Prod.fst) := by
  simp [GeeRegistry.aliveServers, aliveLoop_eq r.timeout clock now hclock]

theorem putServer_nodup (r : GeeRegistry) (addr : String) (now : Int)
    (h : (r.servers.map Prod.fst).Nodup) :
    ((r.putServer addr now).servers.map Prod.fst).Nodup := by
  unfold GeeRegistry.putServer
  split <;> exact nodup_keys_mapSet _ _ _ h

/-! ## C14 -/

/-- C14. For every registry whose map has one entry per address and every time `now` read
by the clock during the call, `aliveServers` returns a sorted list without duplicates of
exactly the addresses whose entry satisfies `timeout == 0` or
`lastHeartbeat + timeout > now`, and leaves in the map exactly those entries, unchanged
and in their order, with the timeout as it was. -/
theorem aliveServers_spec (r : GeeRegistry) (clock : Nat → Int) (now : Int)
    (hclock : ∀ i, clock i = now) (hkeys : (r.servers.map Prod.fst).Nodup) :
    List.Sorted (· ≤ ·) (r.aliveServers clock).2 ∧
    (r.aliveServers clock).2.Nodup ∧
    (∀ addr, addr ∈ (r.aliveServers clock).2 ↔
      ∃ s, (addr, s) ∈ r.servers ∧ (r.timeout = 0 ∨ s.start + r.timeout > now)) ∧
    (∀ e, e ∈ (r.aliveServers clock).1.servers ↔
      e ∈ r.servers ∧ (r.timeout = 0 ∨ e.2.start + r.timeout > now)) ∧
    (r.aliveServers clock).1.servers
      = r.servers.filter (fun e => decide (r.timeout = 0 ∨ e.2.start + r.timeout > now)) ∧
    (r.aliveServers clock).1.timeout = r.timeout ∧
    ((r.aliveServers clock).1.servers.map Prod.fst).Nodup := by
  obtain ⟨h1, h2⟩ := aliveServers_eq r clock now hclock
  have hsub : ((r.servers.filter
      (fun e => decide (r.timeout = 0 ∨ e.2.start + r.timeout > now))).map Prod.fst).Nodup :=
    hkeys.sublist (List.Sublist.map _ (List.filter_sublist _))
  refine ⟨?_, ?_, ?_, ?_, ?_, ?_, ?_⟩
  · rw [h2]
    exact sortStrings_sorted _
  · rw [h2]
    exact (sortStrings_perm _).nodup_iff.2 hsub
  · intro addr
    rw [h2, (sortStrings_perm _).mem_iff]
    simp only [List.mem_map, List.mem_filter, decide_eq_true_eq]
    constructor
    · rintro ⟨e, ⟨he, halive⟩, rfl⟩
      exact ⟨e.2, he, halive⟩
    · rintro ⟨s, hs, halive⟩
      exact ⟨(addr, s), ⟨hs, halive⟩, rfl⟩
  · intro e
    rw [h1]
    simp
  · rw [h1]
  · rw [h1]
  · rw [h1]
    exact hsub

/-- C14 on the scenario of the specification: timeout 1s, `A` posted at 0, `B` posted at
500ms, read at 1200ms. -/
theorem aliveServers_spec_witness :
    (GeeRegistry.aliveServers
        { timeout := 1000000000,
          servers := [("A", { Addr := "A", start := 0 }),
                      ("B", { Addr := "B", start := 500000000 })] }
        (fun _ => 1200000000)).1.servers
      = [("A", ({ Addr := "A", start := 0 } : ServerItem)),
         ("B", { Addr := "B", start := 500000000 })].filter
          (fun e => decide ((1000000000 : Int) = 0 ∨ e.2.start + 1000000000 > 1200000000)) :=
  (aliveServers_spec
      { timeout := 1000000000,
        servers := [("A", { Addr := "A", start := 0 }),
                    ("B", { Addr := "B", start := 500000000 })] }
      (fun _ => 1200000000) 1200000000 (fun _ => rfl) (by decide)).2.2.2.2.1

/-! ## C15 -/

/-- C15 as stated fails: with a timeout of 10 an entry whose last heartbeat was at 0 is,
at time 10, exactly `timeout` old; `now - lastHeartbeat <= timeout` holds, and
`aliveServers` does not return it and removes it from the map. -/
theorem aliveServers_boundary_counterexample :
    (10 : Int) - 0 ≤ 10 ∧
    GeeRegistry.aliveServers
        { timeout := 10, servers := [("A", { Addr := "A", start := 0 })] } (fun _ => 10)
      = ({ timeout := 10, servers := [] }, []) := by
  decide

/-- C15 (as amended). For a registry whose map has one entry per address and a clock that
reads `now` during the call, an entry is treated as alive by `aliveServers` (returned and
kept) iff `now - lastHeartbeat < timeout` or `timeout == 0`; an entry whose last heartbeat
is exactly `timeout` old is not returned and is evicted, unless `timeout` is 0. -/
theorem aliveServers_strict (r : GeeRegistry) (clock : Nat → Int) (now : Int)
    (hclock : ∀ i, clock i = now) (hkeys : (r.servers.map Prod.fst).Nodup)
    (addr : String) (s : ServerItem) (hmem : (addr, s) ∈ r.servers) :
    (addr ∈ (r.aliveServers clock).2 ↔ (now - s.start < r.timeout ∨ r.timeout = 0)) ∧
    ((addr, s) ∈ (r.aliveServers clock).1.servers ↔
      (now - s.start < r.timeout ∨ r.timeout = 0)) ∧
    (now - s.start = r.timeout → r.timeout ≠ 0 →
      addr ∉ (r.aliveServers clock).2 ∧
      mapGet (r.aliveServers clock).1.servers addr = none) := by
  obtain ⟨h1, h2⟩ := aliveServers_eq r clock now hclock
  have hret : addr ∈ (r.aliveServers clock).2 ↔ (now - s.start < r.timeout ∨ r.timeout = 0) := by
    rw [h2, (sortStrings_perm _).mem_iff]
    simp only [List.mem_map, List.mem_filter, decide_eq_true_eq]
    constructor
    · rintro ⟨e, ⟨he, halive⟩, hfst⟩
      have hes : e.2 = s := by
        obtain ⟨a, s2⟩ := e
        simp only at hfst
        subst hfst
        exact mem_of_nodup_keys r.servers a s2 s hkeys he hmem
      rw [hes] at halive
      rcases halive with h | h
      · exact Or.inr h
      · exact Or.inl (by omega)
    · intro h
      refine ⟨(addr, s), ⟨hmem, ?_⟩, rfl⟩
      rcases h with h | h
      · exact Or.inr (by show s.start + r.timeout > now; omega)
      · exact Or.inl h
  have hkept : (addr, s) ∈ (r.aliveServers clock).1.servers ↔
      (now - s.start < r.timeout ∨ r.timeout = 0) := by
    rw [h1]
    simp only [List.mem_filter, decide_eq_true_eq, hmem, true_and]
    constructor
    · rintro (h | h)
      · exact Or.inr h
      · exact Or.inl (by omega)
    · rintro (h | h)
      · exact Or.inr (by omega)
      · exact Or.inl h
  refine ⟨hret, hkept, ?_⟩
  intro hold hne
  have hdead : ¬ (now - s.start < r.timeout ∨ r.timeout = 0) := by
    rintro (h | h)
    · omega
    · exact hne h
  refine ⟨fun h => hdead (hret.1 h), ?_⟩
  rw [mapGet_eq_none]
  intro e he hfst
  rw [h1] at he
  simp only [List.mem_filter, decide_eq_true_eq] at he
  obtain ⟨a, s2⟩ := e
  simp only at hfst
  subst hfst
  have hs2 : s2 = s := mem_of_nodup_keys r.servers a s2 s hkeys he.1 hmem
  rw [hs2] at he
  have he2 : r.timeout = 0 ∨ s.start + r.timeout > now := he.2
  apply hdead
  rcases he2 with h | h
  · exact Or.inr h
  · exact Or.inl (by omega)

/-- C15 (as amended) at the boundary: timeout 10, heartbeat at 0, read at 10. -/
theorem aliveServers_strict_witness :
    "A" ∉ (GeeRegistry.aliveServers
        { timeout := 10, servers := [("A", { Addr := "A", start := 0 })] }
        (fun _ => 10)).2 ∧
    mapGet (GeeRegistry.aliveServers
        { timeout := 10, servers := [("A", { Addr := "A", start := 0 })] }
        (fun _ => 10)).1.servers "A" = none :=
  (aliveServers_strict { timeout := 10, servers := [("A", { Addr := "A", start := 0 })] }
      (fun _ => 10) 10 (fun _ => rfl) (by decide) "A" { Addr := "A", start := 0 }
      (by decide)).2.2 (by decide) (by decide)

/-! ## C16 -/

/-- C16 as stated fails: for the path `/_geeprc_` the text written before the response is
read ends with two line feeds and is not `CONNECT /_geeprc_ HTTP/1.0` followed by
`\r\n\r\n`. -/
theorem NewHTTPClient_counterexample :
    (NewHTTPClient "/_geeprc_" "200 Connected to Gee RPC"
        { written := [], closed := 0, encodeErr := none, closeErr := none } DefaultOption
        (HTTPRead.err "EOF")).1.written
      = [Written.text "CONNECT /_geeprc_ HTTP/1.0\n\n"] ∧
    (NewHTTPClient "/_geeprc_" "200 Connected to Gee RPC"
        { written := [], closed := 0, encodeErr := none, closeErr := none } DefaultOption
        (HTTPRead.err "EOF")).1.written
      ≠ [Written.text ("CONNECT " ++ "/_geeprc_" ++ " HTTP/1.0\r\n\r\n")] := by
  decide

/-- C16 (as amended). Before anything else `NewHTTPClient` writes to the connection the
text `CONNECT `, `defaultRPCPath`, ` HTTP/1.0` and two line feeds (`\n\n`, without carriage
returns). It goes on with `NewClient` on that connection iff the response is read without
error and its status equals `connected`; otherwise it returns an error and no client, and
writes nothing more. -/
theorem NewHTTPClient_spec (defaultRPCPath connected : String) (conn : ClientConn)
    (opt : Option) (resp : HTTPRead) :
    (∃ more, (NewHTTPClient defaultRPCPath connected conn opt resp).1.written
      = conn.written ++
          Written.text ("CONNECT " ++ defaultRPCPath ++ " HTTP/1.0" ++ "\n\n") :: more) ∧
    (resp = HTTPRead.ok connected →
      NewHTTPClient defaultRPCPath connected conn opt resp
        = NewClient
            { conn with
              written := conn.written ++
                [Written.text ("CONNECT " ++ defaultRPCPath ++ " HTTP/1.0" ++ "\n\n")] }
            opt) ∧
    (resp ≠ HTTPRead.ok connected →
      ∃ e, NewHTTPClient defaultRPCPath connected conn opt resp
        = ({ conn with
             written := conn.written ++
               [Written.text ("CONNECT " ++ defaultRPCPath ++ " HTTP/1.0" ++ "\n\n")] },
           none, some e)) := by
  have htext : "CONNECT " ++ defaultRPCPath ++ " HTTP/1.0" ++ "\n\n"
      = "CONNECT " ++ defaultRPCPath ++ " HTTP/1.0\n\n" := by
    rw [String.append_assoc ("CONNECT " ++ defaultRPCPath)]
    rfl
  rw [htext]
  refine ⟨?_, ?_, ?_⟩
  · cases resp with
    | err e => exact ⟨[], by simp [NewHTTPClient]⟩
    | ok status =>
      by_cases hs : status = connected
      · simp only [NewHTTPClient, hs, if_true, NewClient]
        split
        · exact ⟨[], by simp⟩
        · split
          · exact ⟨[], by simp⟩
          · exact ⟨[Written.option opt], by simp⟩
      · exact ⟨[], by simp [NewHTTPClient, hs]⟩
  · intro h
    simp [NewHTTPClient, h]
  · intro h
    cases resp with
    | err e => exact ⟨e, by simp [NewHTTPClient]⟩
    | ok status =>
      have hs : status ≠ connected := fun hc => h (by rw [hc])
      exact ⟨"unexpected HTTP response: " ++ status, by simp [NewHTTPClient, hs]⟩

/-- C16 (as amended) at a concrete response: the status `404 Not Found` yields an error
and no client. -/
theorem NewHTTPClient_spec_witness :
    ∃ e, NewHTTPClient "/_geeprc_" "200 Connected to Gee RPC"
        { written := [], closed := 0, encodeErr := none, closeErr := none } DefaultOption
        (HTTPRead.ok "404 Not Found")
      = ({ written := [] ++
             [Written.text ("CONNECT " ++ "/_geeprc_" ++ " HTTP/1.0" ++ "\n\n")],
           closed := 0, encodeErr := none, closeErr := none }, none, some e) :=
  (NewHTTPClient_spec "/_geeprc_" "200 Connected to Gee RPC"
      { written := [], closed := 0, encodeErr := none, closeErr := none } DefaultOption
      (HTTPRead.ok "404 Not Found")).2.2 (by decide)

/-! ## C17 -/

/-- C17 as stated fails: when the header and the body are encoded and only the final
flush fails, `Write` returns nil and does not close the stream. -/
theorem GobCodec_Write_counterexample :
    GobCodec.Write { log := [] } { ServiceMethod := "Foo.Sum", Seq := 1, Error := "" }
        (Body.reply "3") none none (some "broken pipe")
      = ({ log := [GobOp.EncodeHeader { ServiceMethod := "Foo.Sum", Seq := 1, Error := "" } true,
                   GobOp.EncodeBody (Body.reply "3") true, GobOp.Flush false] }, none) := by
  decide

/-- C17 (as amended). `GobCodec.Write` encodes the header first and the body only when the
header was encoded, and it flushes the buffer before it returns in every case. When
encoding the header or the body fails, `Write` returns that error and closes the stream
after the flush. The result of the flush is dropped: when both encodings succeed `Write`
returns nil and does not close the stream, also when the flush fails. -/
theorem GobCodec_Write_spec (c : GobCodec) (h : Header) (body : Body)
    (herr berr ferr : GoError) :
    (∀ e, herr = some e →
      GobCodec.Write c h body herr berr ferr
        = ({ log := c.log ++ [GobOp.EncodeHeader h false, GobOp.Flush ferr.isNone,
                              GobOp.Close] }, some e)) ∧
    (herr = none → ∀ e, berr = some e →
      GobCodec.Write c h body herr berr ferr
        = ({ log := c.log ++ [GobOp.EncodeHeader h true, GobOp.EncodeBody body false,
                              GobOp.Flush ferr.isNone, GobOp.Close] }, some e)) ∧
    (herr = none → berr = none →
      GobCodec.Write c h body herr berr ferr
        = ({ log := c.log ++ [GobOp.EncodeHeader h true, GobOp.EncodeBody body true,
                              GobOp.Flush ferr.isNone] }, none)) := by
  refine ⟨?_, ?_, ?_⟩
  · intro e he
    simp [GobCodec.Write, he, GobCodec.writeDeferred, GobCodec.Close]
  · intro hh e he
    simp [GobCodec.Write, hh, he, GobCodec.writeDeferred, GobCodec.Close]
  · intro hh hb
    simp [GobCodec.Write, hh, hb, GobCodec.writeDeferred]

/-- C17 (as amended) at a concrete failure: the header cannot be encoded. -/
theorem GobCodec_Write_spec_witness :
    GobCodec.Write { log := [] } { ServiceMethod := "Foo.Sum", Seq := 1, Error := "" }
        (Body.reply "3") (some "gob: type not registered") none none
      = ({ log := [] ++
             [GobOp.EncodeHeader { ServiceMethod := "Foo.Sum", Seq := 1, Error := "" } false,
              GobOp.Flush (none : GoError).isNone, GobOp.Close] },
         some "gob: type not registered") :=
  (GobCodec_Write_spec { log := [] } { ServiceMethod := "Foo.Sum", Seq := 1, Error := "" }
      (Body.reply "3") (some "gob: type not registered") none none).1
    "gob: type not registered" rfl

/-! ## C18 -/

/-- C18 (the code at the failing input). On a new client whose mutex is free, the
`removeCall` of `day2-client/client.go` locks the mutex, reads and deletes, and then
waits in its deferred second `Lock` on the mutex it holds: it does not return. The
`removeCall` of `day7-registry/client.go` returns the stored call or nil, leaves the
pending map without the key, every other entry unchanged, and the mutex free, so that a
following `registerCall`, `removeCall` or `IsAvailable` returns. -/
theorem removeCall_day2_never_returns (cc : Codec) (opt : Option) (seq : Nat) :
    LockedClient.removeCallDay2 { client := newClientCodec cc opt, mu := false } seq = none ∧
    ∀ (client : Client) (call : Call),
      LockedClient.removeCallDay2 { client := client, mu := false } seq = none ∧
      LockedClient.removeCall { client := client, mu := false } seq
        = some ({ client := { client with pending := mapDelete client.pending seq },
                  mu := false }, mapGet client.pending seq) ∧
      mapGet (mapDelete client.pending seq) seq = none ∧
      (∀ other, other ≠ seq →
        mapGet (mapDelete client.pending seq) other = mapGet client.pending other) ∧
      (∃ r, LockedClient.registerCall
        { client := { client with pending := mapDelete client.pending seq }, mu := false }
        call = some r) ∧
      (∃ r, LockedClient.removeCall
        { client := { client with pending := mapDelete client.pending seq }, mu := false }
        seq = some r) ∧
      (∃ r, LockedClient.IsAvailable
        { client := { client with pending := mapDelete client.pending seq }, mu := false }
        = some r) := by
  refine ⟨rfl, ?_⟩
  intro client call
  refine ⟨rfl, rfl, mapGet_mapDelete_self _ _, ?_, ⟨_, rfl⟩, ⟨_, rfl⟩, ⟨_, rfl⟩⟩
  intro other hne
  exact mapGet_mapDelete_ne _ _ _ (Ne.symm hne)

/-! ## C19 -/

theorem eta_pending (client : Client) :
    ({ client with pending := client.pending } : Client) = client := rfl

/-- C19. When `Call` returns through its cancelled context, the pending map has no entry
under the `Seq` of the call and the returned error is `rpc client: call failed:` followed
by the cause. On a client without a pending entry under the `Seq` of a response header,
as it is after the cancellation, the iteration of the receive loop makes exactly one call
of `ReadBody`, with a nil target, sends nothing on a `Done` channel and leaves the client,
with the pending calls and their `Reply`, as it was; the loop variable `err` is what that
`ReadBody` returned, so the loop goes on with the next header when the body was read. -/
theorem cancelled_call_discarded (errorf : String → String) (client : Client) (call : Call)
    (cause : String) :
    mapGet (client.CallCancelled call cause).1.pending call.Seq = none ∧
    (client.CallCancelled call cause).2
      = some ("rpc client: " ++ "call failed:" ++ cause) ∧
    (∀ other, other ≠ call.Seq →
      mapGet (client.CallCancelled call cause).1.pending other
        = mapGet client.pending other) ∧
    (∀ (c : Client) (h : Header) (berr : GoError) (body : String),
      mapGet c.pending h.Seq = none →
      c.receiveReads h = [none] ∧
      c.receiveHeader errorf h berr body = (c, [], berr)) ∧
    (∀ (w : World) (h : Header) (body : String),
      w.recv = RecvState.reading → mapGet w.client.pending h.Seq = none →
      w.step errorf (Event.header h none body) = w) := by
  have hrecv : ∀ (c : Client) (h : Header) (berr : GoError) (body : String),
      mapGet c.pending h.Seq = none →
      c.receiveReads h = [none] ∧ c.receiveHeader errorf h berr body = (c, [], berr) := by
    intro c h berr body hnone
    constructor
    · simp [Client.receiveReads, Client.removeCall, hnone]
    · simp [Client.receiveHeader, Client.removeCall, hnone, mapDelete_of_absent _ _ hnone]
  refine ⟨mapGet_mapDelete_self _ _, ?_, ?_, hrecv, ?_⟩
  · show some ("rpc client: call failed:" ++ cause) = _
    rfl
  · intro other hne
    exact mapGet_mapDelete_ne _ _ _ (Ne.symm hne)
  · intro w h body hr hnone
    have h2 := (hrecv w.client h none body hnone).2
    rcases w with ⟨c, s, r, a, d⟩
    simp only at hr hnone h2
    subst hr
    simp [World.step, h2]

/-- C19 at a concrete client: a call registered under `Seq` 1 is cancelled and the
response with `Seq` 1 arrives afterwards. -/
theorem cancelled_call_discarded_witness :
    Client.receiveReads
        (Client.CallCancelled
          (Client.registerCall (newClientCodec { closeErr := none, closed := 0 } DefaultOption)
            { id := 0, Seq := 0, ServiceMethod := "Foo.Sum", Args := "a", Reply := "r",
              Error := none }).1
          { id := 0, Seq := 1, ServiceMethod := "Foo.Sum", Args := "a", Reply := "r",
            Error := none } "context canceled").1
        { ServiceMethod := "Foo.Sum", Seq := 1, Error := "" } = [none] :=
  ((cancelled_call_discarded id
      (Client.registerCall (newClientCodec { closeErr := none, closed := 0 } DefaultOption)
        { id := 0, Seq := 0, ServiceMethod := "Foo.Sum", Args := "a", Reply := "r",
          Error := none }).1
      { id := 0, Seq := 1, ServiceMethod := "Foo.Sum", Args := "a", Reply := "r",
        Error := none } "context canceled").2.2.2.1
    (Client.CallCancelled
      (Client.registerCall (newClientCodec { closeErr := none, closed := 0 } DefaultOption)
        { id := 0, Seq := 0, ServiceMethod := "Foo.Sum", Args := "a", Reply := "r",
          Error := none }).1
      { id := 0, Seq := 1, ServiceMethod := "Foo.Sum", Args := "a", Reply := "r",
        Error := none } "context canceled").1
    { ServiceMethod := "Foo.Sum", Seq := 1, Error := "" } none "" (by decide)).1

end GeeRPC
